import Mathlib

/-!
# mqmq: frame codec, queue engine, connection handlers, server life cycle

A shallow embedding of the Go package `mqmq` (frame.go, queue.go, connection.go,
server.go) and theorems about it.

Conventions of the embedding
* Go `uint32` values are natural numbers; every `uint32` operation of the source is
  followed by an explicit `% u32` (`u32 = 2^32`).
* A Go `[]byte` is `GoBytes`: the nil slice or a list of bytes.
* An `io.Reader` is the list of bytes it will still deliver (then end of file); an
  `io.Writer` is a `Writer` record that collects the bytes it accepted.
* A Go run-time failure (slice bounds out of range, index out of range) is the outcome
  `Result.goPanic`.
* What the server does under its lock `s.mu` is one step. `Server.Serve` returns only
  when the server is stopped or `Accept` fails, so it runs under a schedule of what
  `Accept` returns and of the steps that other goroutines take in the meantime.
-/

namespace Mqmq

/-! ## Bytes, slices, frames -/

/-- A byte. -/
abbrev Byte := Fin 256

/-- A Go value of type `[]byte`: the nil slice, or a slice holding the given bytes. -/
inductive GoBytes where
  | null
  | slice (bs : List Byte)
deriving DecidableEq, Repr

/-- The bytes held by a slice (none for nil). -/
def GoBytes.bytes : GoBytes → List Byte
  | .null => []
  | .slice bs => bs

/-- Go `len(b)`. -/
def GoBytes.len (b : GoBytes) : Nat := b.bytes.length

/-- Source `type frame [][]byte`. -/
abbrev Frame := List GoBytes

/-- The errors that the modelled code returns; `errAccept` stands for an error of
`Accept()` that is not temporary, which `Server.Serve` returns as it is. -/
inductive Error where
  | ErrFrameLen
  | ErrFrameFormat
  | EOF
  | ErrUnexpectedEOF
  | ErrShortWrite
  | ErrClosed
  | errServerState
  | errAccept
  | errSyntax
  | errRange
deriving DecidableEq, Repr

/-- Outcome of a Go function returning `(α, error)`: it returned a value, it returned
an error, it failed at run time (`goPanic`), or it waits for ever on a channel
(`blocked`). `outOfFuel` is the outcome of a loop model whose iteration budget ran
out. -/
inductive Result (α : Type) where
  | ok (a : α)
  | err (e : Error)
  | goPanic
  | blocked
  | outOfFuel
deriving DecidableEq, Repr

/-- The modulus of `uint32` arithmetic, `2^32`. -/
def u32 : Nat := 4294967296

/-! ## encoding/binary, io -/

/-- Go `byte(v)`: the low eight bits. -/
def toByte (v : Nat) : Byte := ⟨v % 256, Nat.mod_lt _ (by decide)⟩

/-- Go `binary.BigEndian.PutUint32(buf4[:], v)`: the four bytes stored. -/
def putUint32 (v : Nat) : List Byte :=
  [toByte (v >>> 24), toByte (v >>> 16), toByte (v >>> 8), toByte v]

/-- Go `binary.BigEndian.Uint32(b)`: `none` when `b` has fewer than four bytes (the
source's bounds check `_ = b[3]` fails). -/
def getUint32 (b : List Byte) : Option Nat :=
  match b with
  | b0 :: b1 :: b2 :: b3 :: _ =>
      some (b3.val ||| (b2.val <<< 8) ||| (b1.val <<< 16) ||| (b0.val <<< 24))
  | _ => none

/-- Go `io.ReadFull(r, buf)` with `len(buf) = n` on a reader that still delivers `r`:
the bytes read (or the error) and the reader afterwards. -/
def readFull (r : List Byte) (n : Nat) : Except Error (List Byte) × List Byte :=
  if n ≤ r.length then (.ok (r.take n), r.drop n)
  else if r.length = 0 then (.error .EOF, [])
  else (.error .ErrUnexpectedEOF, [])

/-- An `io.Writer`: the bytes accepted so far, how many more bytes it accepts
(`none`: no limit), and whether it has been closed. -/
structure Writer where
  data : List Byte
  room : Option Nat
  closed : Bool
deriving DecidableEq, Repr

/-- Go `w.Write(p)`: a closed writer accepts nothing; a writer with less room than
`len(p)` accepts what fits and reports a short write. -/
def Writer.write (w : Writer) (p : List Byte) : Writer × Option Error :=
  if w.closed then (w, some .ErrClosed)
  else match w.room with
    | none => ({ w with data := w.data ++ p }, none)
    | some k =>
        if p.length ≤ k then ({ w with data := w.data ++ p, room := some (k - p.length) }, none)
        else ({ w with data := w.data ++ p.take k, room := some 0 }, some .ErrShortWrite)

/-- Go slice expression `buf[lo:hi]` on a slice whose length and capacity are
`buf.length`; `none` is the run-time failure "slice bounds out of range". -/
def sliceOf (buf : List Byte) (lo hi : Nat) : Option (List Byte) :=
  if lo ≤ hi ∧ hi ≤ buf.length then some ((buf.drop lo).take (hi - lo)) else none

/-! ## frame.go -/

/-- The loop `for i < frameLen { ... }` of `readFrame` (frame.go 40-52), with `i`,
`itemLen` and `frameLen` as `uint32` values. One unit of fuel per iteration. -/
def readItems (buf : List Byte) (frameLen : Nat) : Nat → Nat → Frame → Result Frame
  | 0, _, _ => .outOfFuel
  | fuel + 1, i, f =>
      if i < frameLen then
        if (i + 4) % u32 > frameLen then .err .ErrFrameFormat
        else
          match sliceOf buf i ((i + 4) % u32) with
          | none => .goPanic
          | some b4 =>
              match getUint32 b4 with
              | none => .goPanic
              | some itemLen =>
                  let i := (i + 4) % u32
                  if (i + itemLen) % u32 > frameLen then .err .ErrFrameFormat
                  else
                    match sliceOf buf i ((i + itemLen) % u32) with
                    | none => .goPanic
                    | some item =>
                        readItems buf frameLen fuel ((i + itemLen) % u32) (f ++ [.slice item])
      else .ok f

/-- Source `readFrame(r, maxFrameLen)` (frame.go 17-55): the outcome and the reader
afterwards. The loop gets `frameLen + 1` iterations, which is always enough
(`readFrame_ne_outOfFuel`). -/
def readFrame (r : List Byte) (maxFrameLen : Nat) : Result Frame × List Byte :=
  match readFull r 4 with
  | (.error e, r1) => (.err e, r1)
  | (.ok buf4, r1) =>
      match getUint32 buf4 with
      | none => (.goPanic, r1)
      | some frameLen =>
          if frameLen > maxFrameLen then (.err .ErrFrameLen, r1)
          else
            match readFull r1 frameLen with
            | (.error e, r2) => (.err e, r2)
            | (.ok buf, r2) => (readItems buf frameLen (frameLen + 1) 0 [], r2)

/-- The first loop of `writeFrame` (frame.go 61-64): `frameLen += 4 + uint32(len(item))`
in `uint32` arithmetic. -/
def frameLenOf (f : Frame) : Nat :=
  f.foldl (fun frameLen item => (frameLen + (4 + item.len % u32) % u32) % u32) 0

/-- The second loop of `writeFrame` (frame.go 76-87): for each item its length and then
its bytes; stops at the first write that fails. -/
def writeItems (w : Writer) : Frame → Writer × Option Error
  | [] => (w, none)
  | item :: rest =>
      match w.write (putUint32 (item.len % u32)) with
      | (w1, some e) => (w1, some e)
      | (w1, none) =>
          match w1.write item.bytes with
          | (w2, some e) => (w2, some e)
          | (w2, none) => writeItems w2 rest

/-- Source `writeFrame(w, f, maxFrameLen)` (frame.go 57-90): the writer afterwards and
the error returned (`none` for nil). -/
def writeFrame (w : Writer) (f : Frame) (maxFrameLen : Nat) : Writer × Option Error :=
  let frameLen := frameLenOf f
  if frameLen > maxFrameLen then (w, some .ErrFrameLen)
  else
    match w.write (putUint32 frameLen) with
    | (w1, some e) => (w1, some e)
    | (w1, none) => writeItems w1 f

/-- The encoded body size `Σ (4 + len(item))` of a frame, as an exact integer. -/
def bodySize (f : Frame) : Nat := (f.map (fun item => 4 + item.len)).sum

/-- The body bytes of a frame: each item's big-endian length followed by its bytes. -/
def encodeItems (f : Frame) : List Byte :=
  (f.map (fun item => putUint32 (item.len % u32) ++ item.bytes)).flatten

/-- An empty writer that accepts everything (a fresh `bytes.Buffer`). -/
def Writer.buffer : Writer := { data := [], room := none, closed := false }

/-- What `readFrame` gives back for an item that was written: the same bytes in a
non-nil slice. -/
def GoBytes.normalise (b : GoBytes) : GoBytes := .slice b.bytes

/-- The writer is open and has room for `n` more bytes. -/
def Writer.accepts (w : Writer) (n : Nat) : Bool :=
  !w.closed && (match w.room with
    | none => true
    | some k => decide (n ≤ k))

/-! ## queue.go -/

/-- Source `memoryQueue`: the payload list `data` (front first) owned by the goroutine
`run`, and whether `run` has returned. The channels are modelled by `QueueOp`. -/
structure memoryQueue where
  data : List GoBytes
  stopped : Bool
deriving DecidableEq, Repr

/-- Source `newMemoryQueue()`: an empty list and a running `run` goroutine. -/
def newMemoryQueue : memoryQueue := { data := [], stopped := false }

/-- The communications that one iteration of `memoryQueue.run` can complete: a send of
`v` on `chEnqueue` or on `chRequeue`, a receive from `chDequeue`, a length query on
`chLen`, a stop signal on `chStop`. -/
inductive QueueOp where
  | enqueue (v : GoBytes)
  | requeue (v : GoBytes)
  | dequeue
  | len
  | stop
deriving DecidableEq, Repr

/-- What the other party of the communication gets. -/
inductive QueueReply where
  | unit
  | value (v : GoBytes)
  | length (n : Nat)
deriving DecidableEq, Repr

/-- One iteration of the loop of `memoryQueue.run` (queue.go 38-64) in which the
`select` completes the communication `op`; `none` when no case of the `select` offers
`op` (or `run` has returned), so that the other party keeps waiting. -/
def memoryQueue.runIter (q : memoryQueue) (op : QueueOp) : Option (memoryQueue × QueueReply) :=
  if q.stopped then none
  else if q.data.length = 0 then
    match op with
    | .enqueue v => some ({ q with data := q.data ++ [v] }, .unit)
    | .requeue v => some ({ q with data := v :: q.data }, .unit)
    | .len => some (q, .length 0)
    | .stop => some ({ q with stopped := true }, .unit)
    | .dequeue => none
  else
    match op with
    | .enqueue v => some ({ q with data := q.data ++ [v] }, .unit)
    | .requeue v => some ({ q with data := v :: q.data }, .unit)
    | .dequeue =>
        match q.data with
        | front :: rest => some ({ q with data := rest }, .value front)
        | [] => none
    | .len => some (q, .length q.data.length)
    | .stop => some ({ q with stopped := true }, .unit)

/-- The loop of `memoryQueue.run` serving the communications `ops` one after the other:
the queue afterwards and the replies, or `none` when one of them is never served. -/
def memoryQueue.run (q : memoryQueue) : List QueueOp → Option (memoryQueue × List QueueReply)
  | [] => some (q, [])
  | op :: ops =>
      match q.runIter op with
      | none => none
      | some (q1, r) =>
          match memoryQueue.run q1 ops with
          | none => none
          | some (q2, rs) => some (q2, r :: rs)

/-- Source `q.len()`: the answer of the `run` goroutine to a length query. -/
def memoryQueue.len (q : memoryQueue) : Option Nat :=
  match q.runIter .len with
  | some (_, .length n) => some n
  | _ => none

/-! ## server.go -/

/-- Source `ServerState` with its three constants. -/
inductive ServerState where
  | ServerStateNew
  | ServerStateActive
  | ServerStateStopped
deriving DecidableEq, Repr

/-- A `net.Listener`, of which `Accept()` and `Close()` are used here. -/
structure Listener where
  closed : Bool
deriving DecidableEq, Repr

/-- What `Accept()` of a listener returns (server.go 98): a connection whose socket will
deliver `input`, a `net.Error` that is `Temporary()`, or any other error (`errAccept`). -/
inductive AcceptResult where
  | conn (input : List Byte)
  | temporary
  | failure
deriving DecidableEq, Repr

/-- The method `Accept()` of `net.Listener`, for a listener on which `r` arrives next: a
closed listener returns an error that is not temporary. -/
def Listener.Accept (l : Listener) (r : AcceptResult) : AcceptResult :=
  if l.closed then .failure else r

/-- Source `Server` (the lock `mu` is not modelled: every method below is one atomic
step). A `queue` or `*connection` is a pointer, modelled as an index into the heaps of
`World`; a map is `none` when nil and otherwise an association list. -/
structure Server where
  logger : Option Nat
  state : ServerState
  listener : Option Listener
  queues : Option (List (List Byte × Nat))
  connections : Option (List Nat)
deriving DecidableEq, Repr

/-- Source `connection`: `reader` is what `c.reader` will still deliver, `writer` stands
for `c.writer` together with the socket `c.conn`, and the channel `done` is closed
exactly when `stopped` is set. -/
structure connection where
  reader : List Byte
  writer : Writer
  stopped : Bool
deriving DecidableEq, Repr

/-- The request handlers of connection.go. -/
inductive Handler where
  | handleGet
  | handlePut
  | handleInfo
  | handleQuit
  | handleUnknownCmd
deriving DecidableEq, Repr

/-- What the trace of a run records: a call `c.send(f)` and what it returned, a timer
`time.After` of so many milliseconds, a call `s.getQueue(name)`, the dispatch of a frame
to a handler. -/
inductive Event where
  | send (cid : Nat) (f : Frame) (e : Option Error)
  | after (cid : Nat) (msec : Int)
  | getQueue (name : List Byte)
  | dispatch (cid : Nat) (h : Handler) (f : Frame)
deriving DecidableEq, Repr

/-- The server, the heap of queue objects, the heap of connection objects (each with the
index of the next object to allocate) and the trace. -/
structure World where
  server : Server
  queueHeap : Nat → memoryQueue
  nextQueue : Nat
  connHeap : Nat → connection
  nextConn : Nat
  log : List Event

/-- Source `NewServer()`: `&Server{}`. -/
def NewServer : Server :=
  { logger := none, state := .ServerStateNew, listener := none, queues := none,
    connections := none }

def World.setQueue (w : World) (qid : Nat) (q : memoryQueue) : World :=
  { w with queueHeap := Function.update w.queueHeap qid q }

def World.setConn (w : World) (cid : Nat) (c : connection) : World :=
  { w with connHeap := Function.update w.connHeap cid c }

def World.logEvent (w : World) (e : Event) : World := { w with log := w.log ++ [e] }

/-- Source `Server.SetLogger` (server.go 53-61). -/
def Server.SetLogger (w : World) (logger : Option Nat) : World × Option Error :=
  if w.server.state ≠ .ServerStateNew then (w, some .errServerState)
  else ({ w with server := { w.server with logger := logger } }, none)

/-- The entry of `Server.Serve` (server.go 81-93): the state check and the transition
under the lock, then the listener and the two maps (set right after the lock is released;
one step here). `some e` means that `Serve` returns `e` here; `none` means that it has
registered its deferred `s.Stop()` and goes on to the accept loop. The whole function is
`Server.Serve` below. -/
def Server.serveEnter (w : World) (l : Listener) : World × Option Error :=
  if w.server.state ≠ .ServerStateNew then (w, some .errServerState)
  else
    ({ w with server := { w.server with state := .ServerStateActive, listener := some l,
                                        queues := some [], connections := some [] } }, none)

/-- Source `connection.running`. -/
def connection.running (c : connection) : Bool := !c.stopped

/-- Source `connection.stop` (connection.go 84-90): a single shot; closes `done` and
the socket. -/
def connection.stop (c : connection) : connection :=
  if c.stopped then c
  else { c with stopped := true, writer := { c.writer with closed := true } }

/-- The loop over `s.connections` in `Server.Stop` (server.go 146-149). -/
def stopConnections (w : World) : List Nat → World
  | [] => w
  | c :: rest =>
      let w1 := { w with server := { w.server with connections := some rest } }
      stopConnections (w1.setConn c (w1.connHeap c).stop) rest

/-- The loop over `s.queues` in `Server.Stop` (server.go 153-156); `q.stop()` waits for
ever when the queue's goroutine has already returned. -/
def stopQueues (w : World) : List (List Byte × Nat) → World × Result Unit
  | [] => (w, .ok ())
  | (_, q) :: rest =>
      let w1 := { w with server := { w.server with queues := some rest } }
      match (w1.queueHeap q).runIter .stop with
      | none => (w1, .blocked)
      | some (q1, _) => stopQueues (w1.setQueue q q1) rest

/-- Source `Server.Stop` (server.go 132-161); `.ok ()` is the return value nil. -/
def Server.Stop (w : World) : World × Result Unit :=
  if w.server.state ≠ .ServerStateActive then (w, .err .errServerState)
  else
    let w1 := { w with server := { w.server with state := .ServerStateStopped } }
    let w2 :=
      match w1.server.listener with
      | some _ => { w1 with server := { w1.server with listener := some ⟨true⟩ } }
      | none => w1
    let w3 :=
      match w2.server.connections with
      | some cs => stopConnections w2 cs
      | none => w2
    match w3.server.queues with
    | some qs => stopQueues w3 qs
    | none => (w3, .ok ())

/-- Source `Server.State`. -/
def Server.State (w : World) : ServerState := w.server.state

/-- Source `Server.getQueue` (server.go 170-186): the queue registered under `name`,
created when there is none. Writing to a nil map is a run-time failure. -/
def Server.getQueue (w : World) (name : List Byte) : World × Result Nat :=
  let w := w.logEvent (.getQueue name)
  if w.server.state ≠ .ServerStateActive then (w, .err .errServerState)
  else
    match (w.server.queues.getD []).lookup name with
    | some q => (w, .ok q)
    | none =>
        let q := w.nextQueue
        let w1 := { w.setQueue q newMemoryQueue with nextQueue := q + 1 }
        match w1.server.queues with
        | none => (w1, .goPanic)
        | some m =>
            ({ w1 with server := { w1.server with queues := some (m ++ [(name, q)]) } }, .ok q)

/-- Source `ServerQueueInfo`. -/
structure ServerQueueInfo where
  NumMessages : Nat
deriving DecidableEq, Repr

/-- Source `ServerInfo`. -/
structure ServerInfo where
  NumConnections : Nat
  NumQueues : Nat
  NumMessages : Nat
  Queues : List (List Byte × ServerQueueInfo)
deriving DecidableEq, Repr

/-- Go `m[name] = v` on an association list. -/
def mapInsert {β : Type} (m : List (List Byte × β)) (name : List Byte) (v : β) :
    List (List Byte × β) :=
  (m.filter (fun e => e.1 ≠ name)) ++ [(name, v)]

/-- The loop of `Server.Info` (server.go 221-225): `numMessages` and `info.Queues`;
`none` when a `q.len()` is never answered. -/
def infoLoop (w : World) :
    List (List Byte × Nat) → Nat → List (List Byte × ServerQueueInfo) →
      Option (Nat × List (List Byte × ServerQueueInfo))
  | [], numMessages, queues => some (numMessages, queues)
  | (name, q) :: rest, numMessages, queues =>
      match (w.queueHeap q).len with
      | none => none
      | some qlen => infoLoop w rest (numMessages + qlen) (mapInsert queues name ⟨qlen⟩)

/-- Source `Server.Info` (server.go 210-229); `none` when it waits for ever. -/
def Server.Info (w : World) : Option ServerInfo :=
  match infoLoop w (w.server.queues.getD []) 0 [] with
  | some (numMessages, queues) =>
      some { NumConnections := (w.server.connections.getD []).length,
             NumQueues := (w.server.queues.getD []).length,
             NumMessages := numMessages,
             Queues := queues }
  | none => none

/-! ## strconv -/

/-- The digit loop of Go `strconv.ParseUint(s, 10, 64)`: a byte that is no decimal digit
is a syntax error, a value above `2^64 - 1` a range error. -/
def parseUint : List Byte → Nat → Except Error Nat
  | [], n => .ok n
  | c :: cs, n =>
      if 48 ≤ c.val ∧ c.val ≤ 57 then
        if n ≥ 1844674407370955162 then .error .errRange
        else if n * 10 + (c.val - 48) > 18446744073709551615 then .error .errRange
        else parseUint cs (n * 10 + (c.val - 48))
      else .error .errSyntax

/-- Go `strconv.Atoi(s)` with a 64-bit `int`, that is `ParseInt(s, 10, 0)`: an optional
sign `+` or `-`, then one or more decimal digits, the value within
`-2^63 .. 2^63 - 1`. (The fast path of `Atoi` for short strings computes the same.) -/
def Atoi (s : List Byte) : Except Error Int :=
  match s with
  | [] => .error .errSyntax
  | c :: rest =>
      let neg : Bool := decide (c.val = 45)
      let digits := if c.val = 43 ∨ c.val = 45 then rest else s
      if digits.length = 0 then .error .errSyntax
      else
        match parseUint digits 0 with
        | .error e => .error e
        | .ok un =>
            if !neg && decide (un ≥ 9223372036854775808) then .error .errRange
            else if neg && decide (un > 9223372036854775808) then .error .errRange
            else if neg then .ok (-(un : Int))
            else .ok (un : Int)

/-! ## connection.go -/

/-- Go `[]byte("...")` for an ASCII string literal. -/
def ascii (s : String) : List Byte := s.toList.map (fun ch => toByte ch.toNat)

def MaxQueueNameLen : Nat := 1024

/-- Source `maxGetTimeoutMsec = int(MaxGetTimeout / time.Millisecond)` with
`MaxGetTimeout = 1 * time.Hour`. -/
def maxGetTimeoutMsec : Int := 3600000

def maxMsgLen : Nat := 32 * 1024 * 1024

def maxFrameLen : Nat := 4 + 3 + 4 + MaxQueueNameLen + 4 + maxMsgLen

def bGet : GoBytes := .slice (ascii "Get")
def bPut : GoBytes := .slice (ascii "Put")
def bInfo : GoBytes := .slice (ascii "Info")
def bQuit : GoBytes := .slice (ascii "Quit")
def bOK : GoBytes := .slice (ascii "OK")
def bError : GoBytes := .slice (ascii "Error")
def bTimeout : GoBytes := .slice (ascii "Timeout")

/-- Go `bytes.Equal(a, b)`: a nil slice equals an empty one. -/
def bytesEqual (a b : GoBytes) : Bool := decide (a.bytes = b.bytes)

/-- Go `c.writer.Flush()`: fails when the socket is closed. -/
def Writer.flush (w : Writer) : Option Error := if w.closed then some .ErrClosed else none

/-- Source `connection.send` (connection.go 92-98). -/
def connection.send (c : connection) (f : Frame) : connection × Option Error :=
  match writeFrame c.writer f maxFrameLen with
  | (w1, some e) => ({ c with writer := w1 }, some e)
  | (w1, none) => ({ c with writer := w1 }, w1.flush)

/-- Source `connection.recv` (connection.go 100-102). -/
def connection.recv (c : connection) : connection × Result Frame :=
  match readFrame c.reader maxFrameLen with
  | (r, rest) => ({ c with reader := rest }, r)

/-- The call `c.send(f)` by connection `cid`, recorded in the trace. -/
def World.send (w : World) (cid : Nat) (f : Frame) : World × Option Error :=
  match (w.connHeap cid).send f with
  | (c1, err) => ((w.setConn cid c1).logEvent (.send cid f err), err)

/-- The call `c.stop()` on connection `cid`. -/
def World.stopConn (w : World) (cid : Nat) : World := w.setConn cid (w.connHeap cid).stop

/-- Source `connection.sendOrStop` (connection.go 104-110); logging is not modelled. -/
def World.sendOrStop (w : World) (cid : Nat) (f : Frame) : World :=
  match w.send cid f with
  | (w1, some _) => if (w1.connHeap cid).running then w1.stopConn cid else w1
  | (w1, none) => w1

/-- What other goroutines do while a handler waits: another goroutine (`Server.Stop`)
calls `stop()` on a connection, or completes a communication with a queue. -/
inductive Interference where
  | connStop (cid : Nat)
  | queueOp (qid : Nat) (op : QueueOp)
deriving DecidableEq, Repr

/-- The effect of one step of another goroutine; a communication that the queue does not
offer has no effect (that goroutine keeps waiting). -/
def World.interfere (w : World) : Interference → World
  | .connStop cid => w.stopConn cid
  | .queueOp qid op =>
      match (w.queueHeap qid).runIter op with
      | none => w
      | some (q1, _) => w.setQueue qid q1

def World.interfereAll (w : World) (steps : List Interference) : World :=
  steps.foldl World.interfere w

/-- The cases of the `select` statements of the handlers: the receive from `c.done`,
the communication with the queue, the timer. -/
inductive Pick where
  | done
  | comm
  | timer
deriving DecidableEq, Repr

/-- Go `select`: of the cases that can proceed (`ready`, in source order) the scheduler's
`pick` when it is one of them, else the first; `none` when no case can proceed. -/
def choose (pick : Pick) (ready : List Pick) : Option Pick :=
  if pick ∈ ready then some pick else ready.head?

/-- What a handler does not control: the steps of other goroutines before each of its
blocking points, the scheduler's pick at each `select`, and `json.Marshal`. -/
structure Env where
  before1 : List Interference
  pick1 : Pick
  before2 : List Interference
  before3 : List Interference
  pick2 : Pick
  marshal : ServerInfo → Except Error (List Byte)

def errBadParams : Frame := [bError, .slice (ascii "REQUEST_BAD_PARAMS")]
def errBadQueueName : Frame := [bError, .slice (ascii "REQUEST_BAD_QUEUE_NAME")]
def errBadTimeout : Frame := [bError, .slice (ascii "REQUEST_BAD_TIMEOUT")]
def errUnknownCommand : Frame := [bError, .slice (ascii "REQUEST_UNKNOWN_COMMAND")]

/-- Source `connection.handlePut` (connection.go 113-138). -/
def connection.handlePut (cid : Nat) (f : Frame) (env : Env) (w : World) : World × Result Unit :=
  if f.length < 3 then (w.sendOrStop cid errBadParams, .ok ())
  else
    match f[1]?, f[2]? with
    | some f1, some message =>
        let qname := f1.bytes
        if qname.length > MaxQueueNameLen then (w.sendOrStop cid errBadQueueName, .ok ())
        else
          match Server.getQueue w qname with
          | (w1, .ok q) =>
              let w2 := w1.interfereAll env.before1
              let ready :=
                (if (w2.connHeap cid).stopped then [Pick.done] else []) ++
                (if (w2.queueHeap q).stopped then [] else [Pick.comm])
              match choose env.pick1 ready with
              | none => (w2, .blocked)
              | some .done => (w2, .ok ())
              | some _ =>
                  match (w2.queueHeap q).runIter (.enqueue message) with
                  | none => (w2, .blocked)
                  | some (q1, _) => ((w2.setQueue q q1).sendOrStop cid [bOK], .ok ())
          | (w1, .err _) => (w1, .ok ())
          | (w1, .goPanic) => (w1, .goPanic)
          | (w1, .blocked) => (w1, .blocked)
          | (w1, .outOfFuel) => (w1, .outOfFuel)
    | _, _ => (w, .goPanic)

/-- Lines 153-161 of `connection.handleGet`: `timeoutMsec`, or the error of
`strconv.Atoi`. -/
def getTimeoutMsec (f : Frame) : Result Int :=
  if f.length ≥ 3 then
    match f[2]? with
    | none => .goPanic
    | some f2 =>
        match Atoi f2.bytes with
        | .error e => .err e
        | .ok n => .ok n
  else .ok 1

/-- Lines 178-197 of `connection.handleGet`: the `select` on `c.done`, `q.dequeue()`
and the timer. -/
def getSelect (cid q : Nat) (env : Env) (w : World) : World × Result Unit :=
  let ready :=
    (if (w.connHeap cid).stopped then [Pick.done] else []) ++
    (if (w.queueHeap q).stopped || decide ((w.queueHeap q).data.length = 0) then []
     else [Pick.comm]) ++ [Pick.timer]
  match choose env.pick1 ready with
  | none => (w, .blocked)
  | some .done => (w, .ok ())
  | some .timer => (w.sendOrStop cid [bTimeout], .ok ())
  | some .comm =>
      match (w.queueHeap q).runIter .dequeue with
      | some (q1, .value message) =>
          match ((w.setQueue q q1).interfereAll env.before2).send cid [bOK, message] with
          | (w1, none) => (w1, .ok ())
          | (w1, some _) =>
              let w2 := w1.interfereAll env.before3
              let ready2 :=
                (if (w2.connHeap cid).stopped then [Pick.done] else []) ++
                (if (w2.queueHeap q).stopped then [] else [Pick.comm])
              match choose env.pick2 ready2 with
              | none => (w2, .blocked)
              | some .done => (w2, .ok ())
              | some _ =>
                  match (w2.queueHeap q).runIter (.requeue message) with
                  | none => (w2, .blocked)
                  | some (q2, _) =>
                      let w3 := w2.setQueue q q2
                      if (w3.connHeap cid).running then (w3.stopConn cid, .ok ())
                      else (w3, .ok ())
      | _ => (w, .blocked)

/-- Source `connection.handleGet` (connection.go 141-198). -/
def connection.handleGet (cid : Nat) (f : Frame) (env : Env) (w : World) : World × Result Unit :=
  if f.length < 2 then (w.sendOrStop cid errBadParams, .ok ())
  else
    match f[1]? with
    | none => (w, .goPanic)
    | some f1 =>
        let qname := f1.bytes
        if qname.length > MaxQueueNameLen then (w.sendOrStop cid errBadQueueName, .ok ())
        else
          match getTimeoutMsec f with
          | .err _ => (w.sendOrStop cid errBadTimeout, .ok ())
          | .ok timeoutMsec =>
              if timeoutMsec > maxGetTimeoutMsec then (w.sendOrStop cid errBadTimeout, .ok ())
              else
                let timeoutMsec := if timeoutMsec < 1 then 1 else timeoutMsec
                match Server.getQueue w qname with
                | (w1, .ok q) =>
                    getSelect cid q env
                      ((w1.logEvent (.after cid timeoutMsec)).interfereAll env.before1)
                | (w1, .err _) => (w1, .ok ())
                | (w1, .goPanic) => (w1, .goPanic)
                | (w1, .blocked) => (w1, .blocked)
                | (w1, .outOfFuel) => (w1, .outOfFuel)
          | .goPanic => (w, .goPanic)
          | .blocked => (w, .blocked)
          | .outOfFuel => (w, .outOfFuel)

/-- Source `connection.handleInfo` (connection.go 201-212). -/
def connection.handleInfo (cid : Nat) (env : Env) (w : World) : World × Result Unit :=
  match Server.Info w with
  | some info =>
      match env.marshal info with
      | .error _ => (w.stopConn cid, .ok ())
      | .ok infoJSON => (w.sendOrStop cid [bOK, .slice infoJSON], .ok ())
  | none => (w, .blocked)

/-- Source `connection.handleQuit` (connection.go 215-217). -/
def connection.handleQuit (cid : Nat) (w : World) : World × Result Unit :=
  (w.stopConn cid, .ok ())

/-- Source `connection.handleUnknownCmd` (connection.go 220-223). -/
def connection.handleUnknownCmd (cid : Nat) (w : World) : World × Result Unit :=
  ((w.send cid errUnknownCommand).1.stopConn cid, .ok ())

/-- The `switch` of `connection.run` (connection.go 65-76); `f[0]` on a frame without
items is a run-time failure. -/
def connection.dispatch (cid : Nat) (f : Frame) (env : Env) (w : World) : World × Result Unit :=
  match f[0]? with
  | none => (w, .goPanic)
  | some f0 =>
      if bytesEqual f0 bGet then
        connection.handleGet cid f env (w.logEvent (.dispatch cid .handleGet f))
      else if bytesEqual f0 bPut then
        connection.handlePut cid f env (w.logEvent (.dispatch cid .handlePut f))
      else if bytesEqual f0 bInfo then
        connection.handleInfo cid env (w.logEvent (.dispatch cid .handleInfo f))
      else if bytesEqual f0 bQuit then
        connection.handleQuit cid (w.logEvent (.dispatch cid .handleQuit f))
      else
        connection.handleUnknownCmd cid (w.logEvent (.dispatch cid .handleUnknownCmd f))

/-- Source `connection.run` (connection.go 54-78). Each iteration that dispatches a
frame uses up one `Env`; `outOfFuel` when a frame arrives and none is left. -/
def connection.run (cid : Nat) : List Env → World → World × Result Unit
  | envs, w =>
      if (w.connHeap cid).running then
        match (w.connHeap cid).recv with
        | (c1, .ok f) =>
            match envs with
            | [] => (w.setConn cid c1, .outOfFuel)
            | env :: rest =>
                match connection.dispatch cid f env (w.setConn cid c1) with
                | (w2, .ok ()) => connection.run cid rest w2
                | (w2, r) => (w2, r)
        | (c1, .err _) =>
            let w1 := w.setConn cid c1
            if (w1.connHeap cid).running then (w1.stopConn cid, .ok ()) else (w1, .ok ())
        | (c1, .goPanic) => (w.setConn cid c1, .goPanic)
        | (c1, .blocked) => (w.setConn cid c1, .blocked)
        | (c1, .outOfFuel) => (w.setConn cid c1, .outOfFuel)
      else (w, .ok ())

/-! ## The accept loop -/

/-- Source `newConnection(server, conn)` (connection.go 44-52) for a socket that will
deliver `input`: a running connection writing to an empty buffer. -/
def newConnection (input : List Byte) : connection :=
  { reader := input, writer := Writer.buffer, stopped := false }

/-- How an iteration of the accept loop of `Server.Serve` ends: with the next iteration,
with `return e` (`none` is nil), or with a run-time failure. -/
inductive AcceptNext where
  | again
  | leave (e : Option Error)
  | goPanic
deriving DecidableEq, Repr

/-- One iteration of the accept loop of `Server.Serve` (server.go 98-127), where `r`
arrives at the listener. `s.listener.Accept()` on a nil listener is a run-time failure.
When the server is no longer active, `return nil`; on a temporary error the loop sleeps
and goes on; on any other error, `return err`; otherwise the connection is created,
registered in `s.connections` and its goroutine started. Writing to a nil map is a
run-time failure. -/
def Server.acceptIter (w : World) (r : AcceptResult) : World × AcceptNext :=
  match w.server.listener with
  | none => (w, .goPanic)
  | some l =>
      if w.server.state ≠ .ServerStateActive then (w, .leave none)
      else
        match l.Accept r with
        | .temporary => (w, .again)
        | .failure => (w, .leave (some .errAccept))
        | .conn input =>
            let c := w.nextConn
            let w1 := { w.setConn c (newConnection input) with nextConn := c + 1 }
            match w1.server.connections with
            | none => (w1, .goPanic)
            | some cs =>
                ({ w1 with server := { w1.server with
                                         connections := some (if c ∈ cs then cs else cs ++ [c]) } },
                  .again)

/-- The end of the goroutine of connection `c` (server.go 124-126):
`delete(s.connections, c)`. -/
def Server.release (w : World) (c : Nat) : World :=
  { w with server := { w.server with
                         connections := w.server.connections.map (fun cs => cs.erase c) } }

/-- The world of a program that has called `NewServer()` and nothing else. -/
def newWorld : World :=
  { server := NewServer
    queueHeap := fun _ => newMemoryQueue
    nextQueue := 0
    connHeap := fun _ => newConnection []
    nextConn := 0
    log := [] }

/-! ## Steps and calls on the server -/

/-- Where a call stands after a step that returned no error: it has returned nil, it is in
the accept loop of `Serve`, or it has left that loop with `return e` and `e` is returned
once the deferred `s.Stop()` has run. -/
inductive Progress where
  | returned
  | serving
  | leaving (e : Option Error)
deriving DecidableEq, Repr

/-- The same outcome with the value `b` in place of the returned value. -/
def Result.withValue {α β : Type} (b : β) : Result α → Result β
  | .ok _ => .ok b
  | .err e => .err e
  | .goPanic => .goPanic
  | .blocked => .blocked
  | .outOfFuel => .outOfFuel

/-- The outcome of a call that returns the error value `e` (`none` is nil). -/
def Progress.ofReturn : Option Error → Result Progress
  | none => .ok .returned
  | some e => .err e

/-- The steps that calls of `Serve`, `Stop`, `SetLogger` and `getQueue` are made of, each
one taken under the lock `s.mu`: the entry of a call `Serve(l)`, one iteration of the
accept loop in the call of `Serve` that is in it, and the calls `Stop()` (also the one
that `Serve` defers), `SetLogger(logger)` and `getQueue(name)`. -/
inductive ServerStep where
  | serveEnter (l : Listener)
  | accepted (r : AcceptResult)
  | Stop
  | SetLogger (logger : Option Nat)
  | getQueue (name : List Byte)
deriving DecidableEq, Repr

/-- One step on the server: the world afterwards and the outcome (`.err e` when the call
returns the error `e`). -/
def ServerStep.exec (w : World) : ServerStep → World × Result Progress
  | .serveEnter l =>
      match Server.serveEnter w l with
      | (w1, none) => (w1, .ok .serving)
      | (w1, some e) => (w1, .err e)
  | .accepted r =>
      match Server.acceptIter w r with
      | (w1, .again) => (w1, .ok .serving)
      | (w1, .leave e) => (w1, .ok (.leaving e))
      | (w1, .goPanic) => (w1, .goPanic)
  | .Stop => ((Server.Stop w).1, (Server.Stop w).2.withValue .returned)
  | .SetLogger logger =>
      match Server.SetLogger w logger with
      | (w1, none) => (w1, .ok .returned)
      | (w1, some e) => (w1, .err e)
  | .getQueue name => ((Server.getQueue w name).1, (Server.getQueue w name).2.withValue .returned)

/-- What happens while a call of `Serve` is past its entry: `Accept` returns in this call,
or another goroutine takes a step on the server. -/
inductive ServeEvent where
  | accept (r : AcceptResult)
  | other (s : ServerStep)
deriving DecidableEq, Repr

/-- The return of `Server.Serve` with the value `e`: after the steps that other goroutines
take in between, the deferred `s.Stop()` runs (server.go 89), what it returns is dropped,
and `e` is returned. A run-time failure of another goroutine ends the program. -/
def Server.serveReturn (w : World) (e : Option Error) : List ServeEvent → World × Result Progress
  | .other s :: rest =>
      match s.exec w with
      | (w1, .goPanic) => (w1, .goPanic)
      | (w1, _) => Server.serveReturn w1 e rest
  | _ =>
      match Server.Stop w with
      | (w1, .ok _) => (w1, Progress.ofReturn e)
      | (w1, .err _) => (w1, Progress.ofReturn e)
      | (w1, r) => (w1, r.withValue .returned)

/-- The accept loop of `Server.Serve` (server.go 97-128) under the schedule of events
given; when the schedule is used up the call is still waiting in `Accept`
(`.ok .serving`). A run-time failure in the loop runs the deferred `s.Stop()` and ends
the program. -/
def Server.serveLoop (w : World) : List ServeEvent → World × Result Progress
  | [] => (w, .ok .serving)
  | .other s :: rest =>
      match s.exec w with
      | (w1, .goPanic) => (w1, .goPanic)
      | (w1, _) => Server.serveLoop w1 rest
  | .accept r :: rest =>
      match Server.acceptIter w r with
      | (w1, .again) => Server.serveLoop w1 rest
      | (w1, .leave e) => Server.serveReturn w1 e rest
      | (w1, .goPanic) => ((Server.Stop w1).1, .goPanic)

/-- Source `Server.Serve` (server.go 80-129): the entry, the accept loop and the deferred
`s.Stop()`, under a schedule of what `Accept` returns and of the steps of other
goroutines. `.err e` is the return of the error `e`, `.ok .returned` the return of nil. -/
def Server.Serve (w : World) (l : Listener) (sched : List ServeEvent) : World × Result Progress :=
  match Server.serveEnter w l with
  | (w1, some e) => (w1, .err e)
  | (w1, none) => Server.serveLoop w1 sched

/-- One entry of the history of a sequence of steps: the server state before the step,
the step, its outcome, the server state after it. -/
structure StepRecord where
  before : ServerState
  step : ServerStep
  result : Result Progress
  after : ServerState
deriving DecidableEq, Repr

/-- The history of the steps `cs` taken one after the other from the world `w`. -/
def execSteps (w : World) : List ServerStep → List StepRecord
  | [] => []
  | c :: cs =>
      ⟨w.server.state, c, (c.exec w).2, (c.exec w).1.server.state⟩ :: execSteps (c.exec w).1 cs

/-- The step is the entry of a `Serve` that changed the server state. -/
def StepRecord.serveTransition (t : StepRecord) : Bool :=
  match t.step with
  | .serveEnter _ => decide (t.after ≠ t.before)
  | _ => false

/-- The step is a `Stop` that changed the server state. -/
def StepRecord.stopTransition (t : StepRecord) : Bool :=
  match t.step with
  | .Stop => decide (t.after ≠ t.before)
  | _ => false

/-- The world after the steps `cs` taken one after the other from `w`. -/
def execWorld (w : World) (cs : List ServerStep) : World :=
  cs.foldl (fun w1 c => (c.exec w1).1) w

/-! ## Concrete worlds for the examples -/

/-- A running connection that has received nothing and writes to an empty buffer. -/
def idleConn : connection := { reader := [], writer := Writer.buffer, stopped := false }

/-- An active server without queues, with the one connection `0`. -/
def activeWorld : World :=
  { server := { logger := none, state := .ServerStateActive, listener := some ⟨false⟩,
                queues := some [], connections := some [0] },
    queueHeap := fun _ => newMemoryQueue,
    nextQueue := 0,
    connHeap := fun _ => idleConn,
    nextConn := 1,
    log := [] }

/-- No interference, every `select` prefers the communication with the queue, and
`json.Marshal` returns `{}`. -/
def quietEnv : Env :=
  { before1 := []
    pick1 := .comm
    before2 := []
    before3 := []
    pick2 := .comm
    marshal := fun _ => Except.ok (ascii "{}") }

/-- The world `activeWorld` with the queue `0` registered under the name "q" and
holding the one payload "m". -/
def queueWorld : World :=
  { activeWorld with
    server := { activeWorld.server with queues := some [(ascii "q", 0)] }
    queueHeap := fun _ => { data := [.slice (ascii "m")], stopped := false }
    nextQueue := 1 }

/-- A schedule in which `Server.Stop` stops connection `0` while the response of a Get is
being sent, and the second `select` of `handleGet` then takes the case `<-c.done`. -/
def cancelEnv : Env :=
  { before1 := []
    pick1 := .comm
    before2 := [.connStop 0]
    before3 := []
    pick2 := .done
    marshal := fun _ => Except.ok (ascii "{}") }

/-- The world `queueWorld` in which the peer of connection `0` has closed the socket:
the connection is still running and every write to it fails. -/
def brokenPipeWorld : World :=
  { queueWorld with
    connHeap := fun _ => { idleConn with writer := { Writer.buffer with closed := true } } }

/-- The world of the test `TestRequests`: a new server serves, accepts one connection,
and that connection puts "test-message" on "test-queue". -/
def testWorld : World :=
  (connection.handlePut 0
    [bPut, .slice (ascii "test-queue"), .slice (ascii "test-message")] quietEnv
    (Server.Serve newWorld ⟨false⟩ [.accept (.conn [])]).1).1

/-! ## Statements of the specification -/

/-- The reply that the specification prescribes for a request that fails the arity and
queue-name validation: `REQUEST_BAD_PARAMS` for a Put frame with fewer than 3 items and
for a Get frame with fewer than 2 items; otherwise `REQUEST_BAD_QUEUE_NAME` when item[1]
is longer than 1024 bytes; `none` for every other frame. -/
def specValidationReply (f : Frame) : Option Frame :=
  match f[0]? with
  | none => none
  | some f0 =>
      if f0.bytes = ascii "Put" then
        if f.length < 3 then some [.slice (ascii "Error"), .slice (ascii "REQUEST_BAD_PARAMS")]
        else if 1024 < (f.getD 1 .null).len then
          some [.slice (ascii "Error"), .slice (ascii "REQUEST_BAD_QUEUE_NAME")]
        else none
      else if f0.bytes = ascii "Get" then
        if f.length < 2 then some [.slice (ascii "Error"), .slice (ascii "REQUEST_BAD_PARAMS")]
        else if 1024 < (f.getD 1 .null).len then
          some [.slice (ascii "Error"), .slice (ascii "REQUEST_BAD_QUEUE_NAME")]
        else none
      else none

/-- The events that a step from `w` to `w1` added to the trace. -/
def newEvents (w w1 : World) : List Event := w1.log.drop w.log.length

/-- The trace has a `send` of `{Error, REQUEST_BAD_TIMEOUT}` by connection `cid`. -/
def repliedBadTimeout (cid : Nat) (evs : List Event) : Bool :=
  evs.any (fun e =>
    match e with
    | .send c f _ => decide (c = cid ∧ f = errBadTimeout)
    | _ => false)

/-- A non-negative decimal integer in the words of the specification: one or more
decimal digits. -/
def isDecimal (s : List Byte) : Bool :=
  decide (s ≠ []) && s.all (fun c => decide (48 ≤ c.val ∧ c.val ≤ 57))

/-- The value of a string of decimal digits. -/
def decimalValue (s : List Byte) : Nat := s.foldl (fun n c => n * 10 + (c.val - 48)) 0

/-- The condition of the specification for the reply `REQUEST_BAD_TIMEOUT`: item[2] is
present and either is not a non-negative decimal integer or has a value greater than
3,600,000. -/
def specTimeoutRejected (f : Frame) : Bool :=
  match f[2]? with
  | none => false
  | some f2 => !isDecimal f2.bytes || decide (decimalValue f2.bytes > 3600000)

/-- The amended condition: item[2] is present and either `strconv.Atoi` rejects it (it is
not an optionally signed decimal integer within the range of `int`) or its value is
greater than 3,600,000. -/
def atoiTimeoutRejected (f : Frame) : Bool :=
  match f[2]? with
  | none => false
  | some f2 =>
      match Atoi f2.bytes with
      | .error _ => true
      | .ok v => decide (v > 3600000)

/-- The amended wait in milliseconds: `max(1, value)` of the integer that `strconv.Atoi`
reads from item[2], and 1 when item[2] is absent. -/
def atoiWaitMsec (f : Frame) : Int :=
  match f[2]? with
  | none => 1
  | some f2 =>
      match Atoi f2.bytes with
      | .error _ => 1
      | .ok v => max 1 v

/-- How many of the communications are sends on `chEnqueue`. -/
def enqueues (ops : List QueueOp) : Nat :=
  (ops.filter (fun op => match op with
    | .enqueue _ => true
    | _ => false)).length

/-- How many of the communications are sends on `chRequeue`. -/
def requeues (ops : List QueueOp) : Nat :=
  (ops.filter (fun op => match op with
    | .requeue _ => true
    | _ => false)).length

/-- How many of the communications are receives from `chDequeue`. -/
def dequeues (ops : List QueueOp) : Nat :=
  (ops.filter (fun op => match op with
    | .dequeue => true
    | _ => false)).length

/-- The payload `m` can be delivered: the Get response `{OK, m}` has an exact body size
of at most `maxFrameLen`. -/
def payloadFits (m : GoBytes) : Bool := decide (bodySize [bOK, m] ≤ maxFrameLen)

/-- Every payload held by a queue can be delivered. -/
def World.payloadsFit (w : World) : Prop :=
  ∀ qid, ∀ m ∈ (w.queueHeap qid).data, payloadFits m = true

/-- The payload that a step of another goroutine puts into a queue, if any, can be
delivered. -/
def Interference.fits : Interference → Bool
  | .queueOp _ (.enqueue v) => payloadFits v
  | .queueOp _ (.requeue v) => payloadFits v
  | _ => true

/-- The registry is a Go map of live queues: the names are pairwise distinct, each name
has a queue object of its own, and every registered queue has been allocated and its
goroutine is running. -/
def World.registryOk (w : World) : Prop :=
  ((w.server.queues.getD []).map Prod.fst).Nodup ∧
  ((w.server.queues.getD []).map Prod.snd).Nodup ∧
  ∀ e ∈ w.server.queues.getD [], e.2 < w.nextQueue ∧ (w.queueHeap e.2).stopped = false

/-- The request `{"Put", "q", "m"}`. -/
def putRequest : Frame := [bPut, .slice (ascii "q"), .slice (ascii "m")]

/-- The request `{"Put", "q", "m"}` on the wire. -/
def putRequestBytes : List Byte :=
  [0, 0, 0, 17, 0, 0, 0, 3, 80, 117, 116, 0, 0, 0, 1, 113, 0, 0, 0, 1, 109]

/-! # Theorems -/

/-! ## Frame codec -/

theorem or_shift (a b k : Nat) (h : a < 2 ^ k) : a ||| (b <<< k) = a + b * 2 ^ k := by
  rw [Nat.shiftLeft_eq, Nat.lor_comm, Nat.mul_comm, ← Nat.mul_add_lt_is_or h, Nat.add_comm,
    Nat.mul_comm]

theorem putUint32_length (v : Nat) : (putUint32 v).length = 4 := rfl

theorem getUint32_putUint32 (v : Nat) (h : v < u32) (rest : List Byte) :
    getUint32 (putUint32 v ++ rest) = some v := by
  unfold u32 at h
  simp only [putUint32, getUint32, toByte, List.cons_append, List.nil_append, Option.some.injEq]
  rw [or_shift _ _ 8 (by omega), or_shift _ _ 16 (by omega), or_shift _ _ 24 (by omega)]
  simp only [Nat.shiftRight_eq_div_pow]
  omega

theorem getUint32_putUint32_nil (v : Nat) (h : v < u32) :
    getUint32 (putUint32 v) = some v := by
  have := getUint32_putUint32 v h []
  simpa using this

theorem getUint32_lt (b : List Byte) (v : Nat) (h : getUint32 b = some v) : v < u32 := by
  unfold getUint32 at h
  split at h
  · rename_i b0 b1 b2 b3 _
    simp only [Option.some.injEq] at h
    have h0 := b0.isLt
    have h1 := b1.isLt
    have h2 := b2.isLt
    have h3 := b3.isLt
    rw [or_shift _ _ 8 (by omega), or_shift _ _ 16 (by omega), or_shift _ _ 24 (by omega)] at h
    unfold u32
    omega
  · exact absurd h (by simp)

theorem sliceOf_append (a b c : List Byte) (lo hi : Nat) (hlo : lo = a.length)
    (hhi : hi = a.length + b.length) : sliceOf (a ++ (b ++ c)) lo hi = some b := by
  subst hlo hhi
  simp [sliceOf]

theorem bodySize_cons (item : GoBytes) (f : Frame) :
    bodySize (item :: f) = 4 + item.len + bodySize f := by
  simp [bodySize]

theorem encodeItems_cons (item : GoBytes) (f : Frame) :
    encodeItems (item :: f) = putUint32 (item.len % u32) ++ (item.bytes ++ encodeItems f) := by
  simp [encodeItems]

theorem encodeItems_length (f : Frame) : (encodeItems f).length = bodySize f := by
  induction f with
  | nil => rfl
  | cons item f ih =>
      rw [encodeItems_cons, bodySize_cons]
      simp only [List.length_append, putUint32_length, ih, GoBytes.len]
      omega

theorem frameLenOf_foldl (f : Frame) (acc : Nat) (h : acc + bodySize f < u32) :
    f.foldl (fun frameLen item => (frameLen + (4 + item.len % u32) % u32) % u32) acc
      = acc + bodySize f := by
  induction f generalizing acc with
  | nil => simp [bodySize]
  | cons item f ih =>
      rw [bodySize_cons] at h
      rw [List.foldl_cons, bodySize_cons]
      have e : (acc + (4 + item.len % u32) % u32) % u32 = acc + (4 + item.len) := by
        unfold u32 at *
        omega
      rw [e, ih _ (by omega)]
      omega

theorem frameLenOf_eq_bodySize (f : Frame) (h : bodySize f < u32) :
    frameLenOf f = bodySize f := by
  unfold frameLenOf
  rw [frameLenOf_foldl f 0 (by omega)]
  omega

theorem write_of_accepts (w : Writer) (n : Nat) (p : List Byte) (h : w.accepts n = true)
    (hp : p.length ≤ n) :
    ∃ w1, w.write p = (w1, none) ∧ w1.data = w.data ++ p ∧ w1.accepts (n - p.length) = true := by
  obtain ⟨data, room, closed⟩ := w
  cases closed with
  | true => simp [Writer.accepts] at h
  | false =>
      cases room with
      | none =>
          exact ⟨⟨data ++ p, none, false⟩, by simp [Writer.write], rfl, by simp [Writer.accepts]⟩
      | some k =>
          have hk : n ≤ k := by simpa [Writer.accepts] using h
          have hpk : p.length ≤ k := by omega
          refine ⟨⟨data ++ p, some (k - p.length), false⟩,
            by simp only [Writer.write, Bool.false_eq_true, if_false, hpk, if_true], rfl, ?_⟩
          simp only [Writer.accepts, Bool.not_false, Bool.true_and, decide_eq_true_eq]
          omega

theorem writeItems_of_accepts (f : Frame) : ∀ (w : Writer) (n : Nat),
    w.accepts n = true → bodySize f ≤ n →
    ∃ w1, writeItems w f = (w1, none) ∧ w1.data = w.data ++ encodeItems f := by
  induction f with
  | nil => intro w n _ _; exact ⟨w, rfl, by simp [encodeItems]⟩
  | cons item f ih =>
      intro w n hw hn
      rw [bodySize_cons] at hn
      obtain ⟨w1, e1, d1, a1⟩ := write_of_accepts w n (putUint32 (item.len % u32)) hw
        (by rw [putUint32_length]; omega)
      obtain ⟨w2, e2, d2, a2⟩ := write_of_accepts w1 _ item.bytes a1
        (by rw [putUint32_length]; unfold GoBytes.len at hn; omega)
      obtain ⟨w3, e3, d3⟩ := ih w2 _ a2
        (by rw [putUint32_length]; unfold GoBytes.len at hn; omega)
      refine ⟨w3, ?_, ?_⟩
      · simp only [writeItems, e1, e2, e3]
      · rw [d3, d2, d1, encodeItems_cons]
        simp only [List.append_assoc]

theorem writeFrame_of_accepts (w : Writer) (f : Frame) (maxFrameLen : Nat)
    (hmax : maxFrameLen < u32) (hsize : bodySize f ≤ maxFrameLen)
    (hw : w.accepts (4 + bodySize f) = true) :
    ∃ w1, writeFrame w f maxFrameLen = (w1, none) ∧
      w1.data = w.data ++ (putUint32 (bodySize f) ++ encodeItems f) := by
  obtain ⟨w1, e1, d1, a1⟩ := write_of_accepts w _ (putUint32 (bodySize f)) hw
    (by rw [putUint32_length]; omega)
  obtain ⟨w2, e2, d2⟩ := writeItems_of_accepts f w1 _ a1 (by rw [putUint32_length]; omega)
  refine ⟨w2, ?_, ?_⟩
  · simp only [writeFrame, frameLenOf_eq_bodySize f (by omega), gt_iff_lt,
      Nat.not_lt.mpr hsize, if_false, e1, e2]
  · rw [d2, d1]
    simp only [List.append_assoc]

theorem readItems_encode (rest : Frame) : ∀ (buf pre : List Byte) (acc : Frame) (fuel : Nat),
    buf = pre ++ encodeItems rest → buf.length < u32 → rest.length < fuel →
    readItems buf buf.length fuel pre.length acc = .ok (acc ++ rest.map GoBytes.normalise) := by
  induction rest with
  | nil =>
      intro buf pre acc fuel hbuf _ hfuel
      obtain ⟨fuel, rfl⟩ : ∃ k, fuel = k + 1 := ⟨fuel - 1, by simp at hfuel; omega⟩
      subst hbuf
      simp [readItems, encodeItems]
  | cons item rest ih =>
      intro buf pre acc fuel hbuf hlt hfuel
      obtain ⟨fuel, rfl⟩ : ∃ k, fuel = k + 1 := ⟨fuel - 1, by simp at hfuel; omega⟩
      rw [encodeItems_cons] at hbuf
      have hlen : buf.length = pre.length + (4 + (item.len + bodySize rest)) := by
        rw [hbuf]
        simp only [List.length_append, putUint32_length, encodeItems_length, GoBytes.len]
      have hitem : item.len % u32 = item.len := Nat.mod_eq_of_lt (by omega)
      have h4 : (pre.length + 4) % u32 = pre.length + 4 := Nat.mod_eq_of_lt (by omega)
      have h5 : (pre.length + 4 + item.len) % u32 = pre.length + 4 + item.len :=
        Nat.mod_eq_of_lt (by omega)
      have s1 : sliceOf buf pre.length (pre.length + 4)
          = some (putUint32 (item.len % u32)) := by
        rw [hbuf]
        exact sliceOf_append pre _ _ _ _ rfl (by rw [putUint32_length])
      have s2 : sliceOf buf (pre.length + 4) (pre.length + 4 + item.len)
          = some item.bytes := by
        have hb : buf = (pre ++ putUint32 (item.len % u32)) ++ (item.bytes ++ encodeItems rest) := by
          rw [hbuf]; simp only [List.append_assoc]
        rw [hb]
        exact sliceOf_append _ _ _ _ _ (by simp [putUint32_length])
          (by simp [putUint32_length, GoBytes.len])
      have hrec := ih buf (pre ++ (putUint32 (item.len % u32) ++ item.bytes))
        (acc ++ [GoBytes.slice item.bytes])
        fuel (by rw [hbuf]; simp only [List.append_assoc]) hlt
        (by simp only [List.length_cons] at hfuel; omega)
      have hpl : (pre ++ (putUint32 (item.len % u32) ++ item.bytes)).length
          = pre.length + 4 + item.len := by
        simp only [List.length_append, putUint32_length, GoBytes.len]; omega
      rw [hpl] at hrec
      rw [readItems]
      have c1 : pre.length < buf.length := by omega
      have c2 : ¬ (buf.length < pre.length + 4) := by omega
      have c3 : ¬ (buf.length < pre.length + 4 + item.len) := by omega
      have g : getUint32 (putUint32 item.len) = some item.len :=
        getUint32_putUint32_nil _ (by omega)
      rw [hitem] at s1
      simp only [c1, if_true, h4, gt_iff_lt, c2, if_false, s1, g, h5, c3, s2, hrec]
      simp [GoBytes.normalise]

theorem length_le_bodySize (f : Frame) : f.length ≤ bodySize f := by
  induction f with
  | nil => simp
  | cons item f ih => rw [bodySize_cons, List.length_cons]; omega

theorem readFull_append (a b : List Byte) (n : Nat) (h : n = a.length) :
    readFull (a ++ b) n = (.ok a, b) := by
  subst h
  simp [readFull]

theorem readFrame_encode (f : Frame) (maxFrameLen : Nat) (tail : List Byte)
    (hmax : maxFrameLen < u32) (hsize : bodySize f ≤ maxFrameLen) :
    readFrame (putUint32 (bodySize f) ++ (encodeItems f ++ tail)) maxFrameLen
      = (.ok (f.map GoBytes.normalise), tail) := by
  have hlen := encodeItems_length f
  have hloop := readItems_encode f (encodeItems f) [] [] (bodySize f + 1) (by simp)
    (by rw [hlen]; omega) (by have := length_le_bodySize f; omega)
  rw [hlen] at hloop
  simp only [List.length_nil, List.nil_append] at hloop
  simp only [readFrame, readFull_append _ _ 4 (putUint32_length _).symm,
    getUint32_putUint32_nil _ (show bodySize f < u32 by omega), gt_iff_lt,
    Nat.not_lt.mpr hsize, if_false, readFull_append _ _ (bodySize f) hlen.symm, hloop]

/-- C1. Frame round trip: when the exact body size `Σ (4 + len(item))` of a frame is at
most `maxFrameLen` (a `uint32`), `writeFrame` on a writer that accepts the bytes returns no
error, and `readFrame` on exactly the bytes it appended returns, with nothing left over, a
frame with the same number of items holding the same bytes in the same order, every item a
non-nil slice (so a nil item comes back empty and the empty frame as zero items). -/
theorem frame_round_trip (f : Frame) (maxFrameLen : Nat) (w : Writer)
    (hmax : maxFrameLen < u32) (hsize : bodySize f ≤ maxFrameLen)
    (hw : w.accepts (4 + bodySize f) = true) :
    ∃ w1 enc g, writeFrame w f maxFrameLen = (w1, none) ∧ w1.data = w.data ++ enc ∧
      readFrame enc maxFrameLen = (.ok g, []) ∧
      g = f.map GoBytes.normalise ∧ g.length = f.length ∧
      g.map GoBytes.bytes = f.map GoBytes.bytes := by
  obtain ⟨w1, e1, d1⟩ := writeFrame_of_accepts w f maxFrameLen hmax hsize hw
  refine ⟨w1, _, f.map GoBytes.normalise, e1, d1, ?_, rfl, by simp, ?_⟩
  · have := readFrame_encode f maxFrameLen [] hmax hsize
    simpa using this
  · simp only [List.map_map]
    rfl

/-- Witness for C1: the frame `{"Put", nil, {}}` and `maxFrameLen = 100` on an empty
buffer. -/
theorem frame_round_trip_witness :
    ∃ w1 enc g, writeFrame Writer.buffer [.slice [80, 117, 116], .null, .slice []] 100
        = (w1, none) ∧
      w1.data = Writer.buffer.data ++ enc ∧
      readFrame enc 100 = (.ok g, []) ∧
      g = [GoBytes.slice [80, 117, 116], .null, .slice []].map GoBytes.normalise ∧
      g.length = [GoBytes.slice [80, 117, 116], .null, .slice []].length ∧
      g.map GoBytes.bytes
        = [GoBytes.slice [80, 117, 116], .null, .slice []].map GoBytes.bytes :=
  frame_round_trip [.slice [80, 117, 116], .null, .slice []] 100 Writer.buffer
    (by decide) (by decide) (by decide)

theorem sliceOf_some (buf : List Byte) (lo hi : Nat) (b : List Byte)
    (h : sliceOf buf lo hi = some b) : lo ≤ hi ∧ hi ≤ buf.length := by
  unfold sliceOf at h
  split at h
  · assumption
  · exact absurd h (by simp)

theorem readItems_ne_outOfFuel (buf : List Byte) (frameLen : Nat) :
    ∀ (fuel i : Nat) (f : Frame), frameLen - i < fuel →
      readItems buf frameLen fuel i f ≠ .outOfFuel := by
  intro fuel
  induction fuel with
  | zero => intro i f h; omega
  | succ fuel ih =>
      intro i f h
      rw [readItems]
      split
      · rename_i hi
        split
        · simp
        · split
          · simp
          · rename_i b4 hs1
            split
            · simp
            · rename_i itemLen _
              simp only
              split
              · simp
              · rename_i hle
                split
                · simp
                · rename_i item hs2
                  apply ih
                  have h1 := sliceOf_some _ _ _ _ hs1
                  have h2 := sliceOf_some _ _ _ _ hs2
                  unfold u32 at *
                  omega
      · simp

/-- The loop of `readFrame` always ends within the iterations it is given: `readFrame`
never yields `outOfFuel`. -/
theorem readFrame_ne_outOfFuel (r : List Byte) (maxFrameLen : Nat) :
    (readFrame r maxFrameLen).1 ≠ .outOfFuel := by
  unfold readFrame
  split
  · simp
  · split
    · simp
    · split
      · simp
      · split
        · simp
        · exact readItems_ne_outOfFuel _ _ _ _ _ (by omega)

/-- C2 (the code at the failing input). A body of four bytes whose only item declares
the length `0xFFFFFFFC`: the declared length is larger than the zero bytes that remain,
yet `i + itemLen` wraps to `0`, the check `i+itemLen > frameLen` passes and the slice
expression `buf[4:0]` fails at run time; `readFrame` does not return `ErrFrameFormat`. -/
theorem readFrame_item_len_wraps :
    readFrame [0, 0, 0, 4, 255, 255, 255, 252] maxFrameLen = (.goPanic, []) := by
  decide

theorem readItems_skip (rest : Frame) : ∀ (buf pre post : List Byte) (acc : Frame) (fuel : Nat),
    buf = pre ++ (encodeItems rest ++ post) → buf.length < u32 →
    readItems buf buf.length (fuel + rest.length) pre.length acc
      = readItems buf buf.length fuel (pre.length + bodySize rest)
          (acc ++ rest.map GoBytes.normalise) := by
  induction rest with
  | nil =>
      intro buf pre post acc fuel _ _
      simp [bodySize]
  | cons item rest ih =>
      intro buf pre post acc fuel hbuf hlt
      rw [encodeItems_cons] at hbuf
      simp only [List.append_assoc] at hbuf
      have hlen : buf.length
          = pre.length + (4 + (item.len + (bodySize rest + post.length))) := by
        rw [hbuf]
        simp only [List.length_append, putUint32_length, encodeItems_length, GoBytes.len]
      have hitem : item.len % u32 = item.len := Nat.mod_eq_of_lt (by omega)
      have h4 : (pre.length + 4) % u32 = pre.length + 4 := Nat.mod_eq_of_lt (by omega)
      have h5 : (pre.length + 4 + item.len) % u32 = pre.length + 4 + item.len :=
        Nat.mod_eq_of_lt (by omega)
      have s1 : sliceOf buf pre.length (pre.length + 4) = some (putUint32 item.len) := by
        rw [hbuf, hitem]
        exact sliceOf_append pre _ _ _ _ rfl (by rw [putUint32_length])
      have s2 : sliceOf buf (pre.length + 4) (pre.length + 4 + item.len)
          = some item.bytes := by
        have hb : buf = (pre ++ putUint32 (item.len % u32))
            ++ (item.bytes ++ (encodeItems rest ++ post)) := by
          rw [hbuf]; simp only [List.append_assoc]
        rw [hb]
        exact sliceOf_append _ _ _ _ _ (by simp [putUint32_length])
          (by simp [putUint32_length, GoBytes.len])
      have hrec := ih buf (pre ++ (putUint32 (item.len % u32) ++ item.bytes)) post
        (acc ++ [GoBytes.slice item.bytes]) fuel
        (by rw [hbuf]; simp only [List.append_assoc]) hlt
      have hpl : (pre ++ (putUint32 (item.len % u32) ++ item.bytes)).length
          = pre.length + 4 + item.len := by
        simp only [List.length_append, putUint32_length, GoBytes.len]; omega
      rw [hpl] at hrec
      have hfuel : fuel + (item :: rest).length = (fuel + rest.length) + 1 := by
        simp only [List.length_cons]; omega
      rw [hfuel, readItems]
      have c1 : pre.length < buf.length := by omega
      have c2 : ¬ (buf.length < pre.length + 4) := by omega
      have c3 : ¬ (buf.length < pre.length + 4 + item.len) := by omega
      have g : getUint32 (putUint32 item.len) = some item.len :=
        getUint32_putUint32_nil _ (by omega)
      simp only [c1, if_true, h4, gt_iff_lt, c2, if_false, s1, g, h5, c3, s2, hrec]
      rw [bodySize_cons]
      have e1 : pre.length + 4 + item.len + bodySize rest
          = pre.length + (4 + item.len + bodySize rest) := by omega
      rw [e1]
      simp [GoBytes.normalise]

/-- Where the overrun check of `readFrame` does work: after any well-formed items
`good`, a remainder `bad` of one to three bytes, or a remainder made of a length prefix
declaring more bytes than follow it, gives `ErrFrameFormat`, provided that the position
after the prefix plus the declared length stays below `2^32` (no `uint32` wraparound). -/
theorem readFrame_malformed_no_wrap (good : Frame) (bad tail : List Byte) (maxLen : Nat)
    (hmax : maxLen < u32) (hsize : bodySize good + bad.length ≤ maxLen)
    (hbad : (0 < bad.length ∧ bad.length < 4 ∧ bodySize good + 4 < u32) ∨
      ∃ n rest, bad = putUint32 n ++ rest ∧ n < u32 ∧ rest.length < n ∧
        bodySize good + 4 + n < u32) :
    readFrame (putUint32 (bodySize good + bad.length) ++ ((encodeItems good ++ bad) ++ tail))
        maxLen
      = (.err .ErrFrameFormat, tail) := by
  have hlen : (encodeItems good ++ bad).length = bodySize good + bad.length := by
    simp [encodeItems_length]
  have hskip := readItems_skip good (encodeItems good ++ bad) [] bad []
    (bodySize good + bad.length + 1 - good.length) (by simp) (by rw [hlen]; omega)
  have hgl := length_le_bodySize good
  have hfuel : bodySize good + bad.length + 1 - good.length + good.length
      = bodySize good + bad.length + 1 := by omega
  rw [hlen, hfuel] at hskip
  simp only [List.length_nil, Nat.zero_add, List.nil_append] at hskip
  simp only [readFrame, readFull_append _ _ 4 (putUint32_length _).symm,
    getUint32_putUint32_nil _ (show bodySize good + bad.length < u32 by omega), gt_iff_lt,
    Nat.not_lt.mpr hsize, if_false,
    readFull_append _ _ (bodySize good + bad.length) hlen.symm, hskip]
  obtain ⟨k, hk⟩ : ∃ k, bodySize good + bad.length + 1 - good.length = k + 1 :=
    ⟨bodySize good + bad.length - good.length, by omega⟩
  rw [hk, readItems]
  rcases hbad with ⟨h0, h3, hw⟩ | ⟨n, rest, rfl, hn, hrest, hw⟩
  · have c1 : bodySize good < bodySize good + bad.length := by omega
    have h4 : (bodySize good + 4) % u32 = bodySize good + 4 := Nat.mod_eq_of_lt hw
    have c2 : bodySize good + bad.length < bodySize good + 4 := by omega
    simp only [c1, if_true, h4, gt_iff_lt, c2]
  · have hbl : (putUint32 n ++ rest).length = 4 + rest.length := by
      simp [putUint32_length]
    rw [hbl] at hsize hlen ⊢
    have c1 : bodySize good < bodySize good + (4 + rest.length) := by omega
    have h4 : (bodySize good + 4) % u32 = bodySize good + 4 := Nat.mod_eq_of_lt (by omega)
    have c2 : ¬ (bodySize good + (4 + rest.length) < bodySize good + 4) := by omega
    have s1 : sliceOf (encodeItems good ++ (putUint32 n ++ rest)) (bodySize good)
        (bodySize good + 4) = some (putUint32 n) :=
      sliceOf_append _ _ _ _ _ (encodeItems_length good).symm
        (by rw [encodeItems_length, putUint32_length])
    have h5 : (bodySize good + 4 + n) % u32 = bodySize good + 4 + n := Nat.mod_eq_of_lt hw
    have c3 : bodySize good + (4 + rest.length) < bodySize good + 4 + n := by omega
    simp only [c1, if_true, h4, gt_iff_lt, c2, if_false, s1,
      getUint32_putUint32_nil n hn, h5, c3]

/-- Where the size check of `writeFrame` does work: a frame whose exact body size is
above `maxFrameLen` and below `2^32` is refused with `ErrFrameLen` and nothing is
written. -/
theorem writeFrame_oversize_no_wrap (w : Writer) (f : Frame) (maxLen : Nat)
    (hlt : bodySize f < u32) (hgt : maxLen < bodySize f) :
    writeFrame w f maxLen = (w, some .ErrFrameLen) := by
  simp only [writeFrame, frameLenOf_eq_bodySize f hlt, gt_iff_lt, hgt, if_true]

theorem writeFrame_single_wraps (bs : List Byte) (h : bs.length = 4294967292) :
    maxFrameLen < bodySize [.slice bs] ∧
    ∃ w1, writeFrame Writer.buffer [.slice bs] maxFrameLen = (w1, none) ∧
      w1.data.length = 4294967300 := by
  constructor
  · simp only [bodySize, List.map, List.sum_cons, List.sum_nil, GoBytes.len, GoBytes.bytes, h]
    decide
  · have hl : frameLenOf [GoBytes.slice bs] = 0 := by
      simp only [frameLenOf, List.foldl, GoBytes.len, GoBytes.bytes, h]
      decide
    refine ⟨⟨putUint32 0 ++ (putUint32 4294967292 ++ bs), none, false⟩, ?_, ?_⟩
    · have hm : (4294967292 : Nat) % u32 = 4294967292 := by decide
      simp only [writeFrame, hl, gt_iff_lt, Nat.not_lt_zero, if_false, Writer.write,
        Writer.buffer, Bool.false_eq_true, List.nil_append, writeItems, GoBytes.len,
        GoBytes.bytes, h, hm, List.append_assoc]
    · simp only [List.length_append, putUint32_length, h]

/-- C3 (the code at the failing input). A frame of one item of `2^32 - 4` bytes has the
exact body size `2^32 > maxFrameLen`, yet `frameLen` wraps to `0` and `writeFrame` returns
nil after writing the length prefix `0` and the whole item, `2^32 + 4` bytes in all. -/
theorem writeFrame_len_wraps :
    maxFrameLen < bodySize [.slice (List.replicate 4294967292 0)] ∧
    ∃ w1, writeFrame Writer.buffer [.slice (List.replicate 4294967292 0)] maxFrameLen
        = (w1, none) ∧ w1.data.length = 4294967300 :=
  writeFrame_single_wraps (List.replicate 4294967292 0) (List.length_replicate _ _)

theorem readFrame_oversize (b4 rest : List Byte) (n maxLen : Nat) (h4 : b4.length = 4)
    (hn : getUint32 b4 = some n) (hgt : maxLen < n) :
    readFrame (b4 ++ rest) maxLen = (.err .ErrFrameLen, rest) := by
  simp only [readFrame, readFull_append b4 rest 4 h4.symm, hn, gt_iff_lt, hgt, if_true]

/-! ## Queue engine -/

theorem queue_run_example : (newMemoryQueue.run [.enqueue (.slice [1]), .enqueue (.slice [2]), .len, .dequeue,
    .requeue (.slice [3]), .dequeue, .dequeue, .len]).map Prod.snd
    = some [.unit, .unit, .length 2, .value (.slice [1]), .unit, .value (.slice [3]),
        .value (.slice [2]), .length 0] := by decide

theorem run_append (q : memoryQueue) (ops1 ops2 : List QueueOp) (q1 q2 : memoryQueue)
    (r1 r2 : List QueueReply) (h1 : q.run ops1 = some (q1, r1))
    (h2 : q1.run ops2 = some (q2, r2)) : q.run (ops1 ++ ops2) = some (q2, r1 ++ r2) := by
  induction ops1 generalizing q r1 with
  | nil =>
      simp only [memoryQueue.run, Option.some.injEq, Prod.mk.injEq] at h1
      obtain ⟨rfl, rfl⟩ := h1
      simpa using h2
  | cons op ops ih =>
      simp only [memoryQueue.run] at h1
      cases hop : q.runIter op with
      | none => simp [hop] at h1
      | some p =>
          obtain ⟨qa, ra⟩ := p
          simp only [hop] at h1
          cases hrun : qa.run ops with
          | none => simp [hrun] at h1
          | some p2 =>
              obtain ⟨qb, rb⟩ := p2
              simp only [hrun, Option.some.injEq, Prod.mk.injEq] at h1
              obtain ⟨rfl, rfl⟩ := h1
              have e := ih qa rb hrun
              simp only [List.cons_append, memoryQueue.run, hop, List.append_eq, e]

theorem run_enqueues (xs : List GoBytes) (data : List GoBytes) :
    (memoryQueue.mk data false).run (xs.map QueueOp.enqueue)
      = some (⟨data ++ xs, false⟩, List.replicate xs.length QueueReply.unit) := by
  induction xs generalizing data with
  | nil => simp [memoryQueue.run]
  | cons x xs ih =>
      have h : (memoryQueue.mk data false).runIter (.enqueue x)
          = some (⟨data ++ [x], false⟩, .unit) := by
        cases data <;> simp [memoryQueue.runIter]
      simp only [List.map_cons, memoryQueue.run, h, ih, List.length_cons, List.replicate_succ,
        List.append_assoc, List.singleton_append]

theorem run_requeues (rs : List GoBytes) (data : List GoBytes) :
    (memoryQueue.mk data false).run (rs.map QueueOp.requeue)
      = some (⟨rs.reverse ++ data, false⟩, List.replicate rs.length QueueReply.unit) := by
  induction rs generalizing data with
  | nil => simp [memoryQueue.run]
  | cons r rs ih =>
      have h : (memoryQueue.mk data false).runIter (.requeue r)
          = some (⟨r :: data, false⟩, .unit) := by
        cases data <;> simp [memoryQueue.runIter]
      simp only [List.map_cons, memoryQueue.run, h, ih, List.length_cons, List.replicate_succ,
        List.reverse_cons, List.append_assoc, List.singleton_append]

theorem run_dequeues (xs : List GoBytes) (rest : List GoBytes) :
    (memoryQueue.mk (xs ++ rest) false).run (List.replicate xs.length QueueOp.dequeue)
      = some (⟨rest, false⟩, xs.map QueueReply.value) := by
  induction xs with
  | nil => simp [memoryQueue.run]
  | cons x xs ih =>
      have h : (memoryQueue.mk (x :: xs ++ rest) false).runIter .dequeue
          = some (⟨xs ++ rest, false⟩, .value x) := by
        simp [memoryQueue.runIter]
      simp only [List.length_cons, List.replicate_succ, memoryQueue.run, h, ih, List.map_cons]

/-- C4. Queue FIFO: from a new queue, enqueue steps of `x1 .. xn` followed by `n` dequeue
steps are all served, the dequeues deliver `x1, .., xn` in that order, the queue is empty
afterwards and `len()` answers `0`. -/
theorem queue_fifo (xs : List GoBytes) :
    ∃ q, newMemoryQueue.run (xs.map QueueOp.enqueue ++ List.replicate xs.length QueueOp.dequeue)
        = some (q, List.replicate xs.length QueueReply.unit ++ xs.map QueueReply.value) ∧
      q.data = [] ∧ q.len = some 0 := by
  refine ⟨⟨[], false⟩, ?_, rfl, by simp [memoryQueue.len, memoryQueue.runIter]⟩
  refine run_append _ _ _ ⟨[] ++ xs, false⟩ _ _ _ (run_enqueues xs []) ?_
  have := run_dequeues xs []
  simpa using this

/-- C5. Requeue prepends: from a running queue holding `L`, requeue steps of `r1 .. rk`
followed by `k + len(L)` dequeue steps are all served and the dequeues deliver
`rk, .., r1` and then the elements of `L` in their original order. -/
theorem requeue_prepends (L rs : List GoBytes) :
    (memoryQueue.mk L false).run
        (rs.map QueueOp.requeue ++ List.replicate (rs.length + L.length) QueueOp.dequeue)
      = some (⟨[], false⟩,
          List.replicate rs.length QueueReply.unit ++ (rs.reverse ++ L).map QueueReply.value) := by
  refine run_append _ _ _ ⟨rs.reverse ++ L, false⟩ _ _ _ (run_requeues rs L) ?_
  have := run_dequeues (rs.reverse ++ L) []
  simpa using this

/-! ## Server life cycle -/

theorem stopConnections_state (cs : List Nat) : ∀ w : World,
    (stopConnections w cs).server.state = w.server.state := by
  induction cs with
  | nil => intro w; rfl
  | cons c cs ih => intro w; simp only [stopConnections]; rw [ih]; rfl

theorem stopQueues_state (qs : List (List Byte × Nat)) : ∀ w : World,
    (stopQueues w qs).1.server.state = w.server.state := by
  induction qs with
  | nil => intro w; rfl
  | cons q qs ih =>
      intro w
      obtain ⟨name, q⟩ := q
      simp only [stopQueues]
      split
      · rfl
      · rw [ih]; rfl

theorem Stop_state (w : World) (h : w.server.state = .ServerStateActive) :
    (Server.Stop w).1.server.state = .ServerStateStopped := by
  unfold Server.Stop
  simp only [h, ne_eq, not_true_eq_false, if_false]
  split
  · rw [stopQueues_state]
    split <;> [rw [stopConnections_state]; skip] <;> split <;> rfl
  · split <;> [rw [stopConnections_state]; skip] <;> split <;> rfl

theorem stopQueues_result (qs : List (List Byte × Nat)) : ∀ w : World,
    (stopQueues w qs).2 = .ok () ∨ (stopQueues w qs).2 = .blocked := by
  induction qs with
  | nil => intro w; exact Or.inl rfl
  | cons q qs ih =>
      intro w
      obtain ⟨name, q⟩ := q
      simp only [stopQueues]
      split
      · exact Or.inr rfl
      · exact ih _

theorem Stop_active_result (w : World) (h : w.server.state = .ServerStateActive) :
    (Server.Stop w).2 = .ok () ∨ (Server.Stop w).2 = .blocked := by
  unfold Server.Stop
  simp only [h, ne_eq, not_true_eq_false, if_false]
  split
  · exact stopQueues_result _ _
  · exact Or.inl rfl

theorem Stop_not_active (w : World) (h : w.server.state ≠ .ServerStateActive) :
    Server.Stop w = (w, .err .errServerState) := by
  unfold Server.Stop
  simp only [h, ne_eq, not_false_eq_true, if_true]

theorem getQueue_state (w : World) (name : List Byte) :
    (Server.getQueue w name).1.server.state = w.server.state := by
  unfold Server.getQueue
  simp only
  split
  · rfl
  · split
    · rfl
    · split <;> rfl

theorem acceptIter_state (w : World) (r : AcceptResult) :
    (Server.acceptIter w r).1.server.state = w.server.state := by
  unfold Server.acceptIter
  split
  · rfl
  · split
    · rfl
    · split
      · rfl
      · rfl
      · simp only
        split <;> rfl

theorem acceptIter_leave (w : World) (r : AcceptResult) (e : Option Error)
    (h : (Server.acceptIter w r).2 = .leave e) : e = none ∨ e = some .errAccept := by
  unfold Server.acceptIter at h
  split at h
  · cases h
  · split at h
    · simp only [AcceptNext.leave.injEq] at h
      exact Or.inl h.symm
    · split at h
      · cases h
      · simp only [AcceptNext.leave.injEq] at h
        exact Or.inr h.symm
      · simp only at h
        split at h <;> cases h

theorem withValue_err {α β : Type} (b : β) (r : Result α) (e : Error) :
    r.withValue b = .err e ↔ r = .err e := by
  cases r <;> simp [Result.withValue]

/-- What holds of one entry of a history. -/
theorem exec_step (w : World) (c : ServerStep) :
    ((c.exec w).1.server.state = w.server.state ∨
      (w.server.state = .ServerStateNew ∧ (c.exec w).1.server.state = .ServerStateActive ∧
        ∃ l, c = .serveEnter l) ∨
      (w.server.state = .ServerStateActive ∧ (c.exec w).1.server.state = .ServerStateStopped ∧
        c = .Stop)) ∧
    (∀ l, c = .serveEnter l → w.server.state ≠ .ServerStateNew →
      (c.exec w).2 = .err .errServerState) ∧
    (∀ l, c = .serveEnter l → w.server.state = .ServerStateNew →
      (c.exec w).2 = .ok .serving ∧ (c.exec w).1.server.state = .ServerStateActive) ∧
    (c = .Stop → w.server.state ≠ .ServerStateActive → (c.exec w).2 = .err .errServerState) ∧
    (c = .Stop → w.server.state = .ServerStateActive →
      (c.exec w).1.server.state = .ServerStateStopped) ∧
    (∀ logger, c = .SetLogger logger → w.server.state ≠ .ServerStateNew →
      (c.exec w).2 = .err .errServerState) ∧
    (∀ e, (c.exec w).2 = .err e →
      e = .errServerState ∧ (c.exec w).1.server.state = w.server.state) := by
  cases c with
  | serveEnter l =>
      by_cases h : w.server.state = .ServerStateNew
      · simp [ServerStep.exec, Server.serveEnter, h]
      · simp [ServerStep.exec, Server.serveEnter, h]
  | accepted r =>
      have e : (ServerStep.exec w (.accepted r)).1.server.state = w.server.state := by
        have := acceptIter_state w r
        simp only [ServerStep.exec]
        split <;> simp_all
      have e2 : ∀ err, (ServerStep.exec w (.accepted r)).2 ≠ .err err := by
        intro err
        simp only [ServerStep.exec]
        split <;> simp
      simp [e, e2]
  | Stop =>
      by_cases h : w.server.state = .ServerStateActive
      · have e := Stop_state w h
        simp only [ServerStep.exec, e, h]
        refine ⟨by simp, by simp, by simp, by simp, by simp, by simp, ?_⟩
        intro err herr
        rw [withValue_err] at herr
        rcases Stop_active_result w h with h1 | h1 <;> rw [h1] at herr <;> cases herr
      · simp [ServerStep.exec, Stop_not_active w h, h, Result.withValue]
  | SetLogger logger =>
      by_cases h : w.server.state = .ServerStateNew
      · simp [ServerStep.exec, Server.SetLogger, h]
      · simp [ServerStep.exec, Server.SetLogger, h]
  | getQueue name =>
      have e : (ServerStep.exec w (.getQueue name)).1.server.state = w.server.state :=
        getQueue_state w name
      have e2 : ∀ err, (ServerStep.exec w (.getQueue name)).2 = .err err →
          err = .errServerState := by
        intro err herr
        simp only [ServerStep.exec, withValue_err] at herr
        unfold Server.getQueue at herr
        simp only at herr
        split at herr
        · simp only [Result.err.injEq] at herr
          exact herr.symm
        · split at herr
          · cases herr
          · split at herr <;> cases herr
      simp only [e, true_or, true_and]
      refine ⟨by simp, by simp, by simp, by simp, by simp, ?_⟩
      intro err herr
      exact ⟨e2 err herr, trivial⟩

theorem exec_not_new (w : World) (c : ServerStep) (h : w.server.state ≠ .ServerStateNew) :
    (c.exec w).1.server.state ≠ .ServerStateNew := by
  rcases (exec_step w c).1 with h1 | ⟨h1, -, -⟩ | ⟨-, h2, -⟩
  · rw [h1]; exact h
  · exact absurd h1 h
  · rw [h2]; simp

theorem execSteps_count (cs : List ServerStep) : ∀ w : World,
    ((execSteps w cs).filter StepRecord.serveTransition).length
        ≤ (if w.server.state = .ServerStateNew then 1 else 0) ∧
    ((execSteps w cs).filter StepRecord.stopTransition).length
        ≤ (if w.server.state = .ServerStateStopped then 0 else 1) := by
  induction cs with
  | nil => intro w; simp [execSteps]
  | cons c cs ih =>
      intro w
      obtain ⟨hstep, -, -, -, -, -, -⟩ := exec_step w c
      obtain ⟨ih1, ih2⟩ := ih (c.exec w).1
      simp only [execSteps, List.filter_cons]
      rcases hstep with h | ⟨h1, h2, l, rfl⟩ | ⟨h1, h2, rfl⟩
      · have n1 : StepRecord.serveTransition
            ⟨w.server.state, c, (c.exec w).2, (c.exec w).1.server.state⟩ = false := by
          cases c <;> simp [StepRecord.serveTransition, h]
        have n2 : StepRecord.stopTransition
            ⟨w.server.state, c, (c.exec w).2, (c.exec w).1.server.state⟩ = false := by
          cases c <;> simp [StepRecord.stopTransition, h]
        rw [h] at ih1 ih2
        simp only [n1, n2, Bool.false_eq_true, if_false]
        exact ⟨ih1, ih2⟩
      · have n2 : StepRecord.stopTransition
            ⟨w.server.state, .serveEnter l, ((ServerStep.serveEnter l).exec w).2,
              ((ServerStep.serveEnter l).exec w).1.server.state⟩ = false := by
          simp [StepRecord.stopTransition]
        rw [h2] at ih1 ih2
        simp only [n2, Bool.false_eq_true, if_false, h1]
        simp only [reduceCtorEq, if_false, Nat.le_zero, List.length_eq_zero] at ih1
        constructor
        · split <;> simp [ih1]
        · simpa using ih2
      · have n1 : StepRecord.serveTransition
            ⟨w.server.state, .Stop, (ServerStep.Stop.exec w).2,
              (ServerStep.Stop.exec w).1.server.state⟩ = false := by
          simp [StepRecord.serveTransition]
        rw [h2] at ih1 ih2
        simp only [n1, Bool.false_eq_true, if_false, h1]
        simp only [reduceCtorEq, if_false, if_true, Nat.le_zero, List.length_eq_zero] at ih1 ih2
        constructor
        · simp [ih1, StepRecord.serveTransition]
        · split <;> simp [ih2]

theorem execSteps_mem (cs : List ServerStep) : ∀ (w : World) (t : StepRecord),
    t ∈ execSteps w cs →
    ∃ w1, t = ⟨w1.server.state, t.step, (t.step.exec w1).2, (t.step.exec w1).1.server.state⟩ := by
  induction cs with
  | nil => intro w t h; simp [execSteps] at h
  | cons c cs ih =>
      intro w t h
      simp only [execSteps, List.mem_cons] at h
      rcases h with rfl | h
      · exact ⟨w, rfl⟩
      · exact ih _ t h

/-- The deferred `Stop` of a call of `Serve` that is past its entry: it returns or waits
for ever, and when it returns the server is stopped. -/
theorem Stop_after_entry (w : World) (h : w.server.state ≠ .ServerStateNew) :
    (Server.Stop w).1.server.state = .ServerStateStopped ∧
    ((Server.Stop w).2 = .ok () ∨ (Server.Stop w).2 = .err .errServerState ∨
      (Server.Stop w).2 = .blocked) := by
  by_cases ha : w.server.state = .ServerStateActive
  · refine ⟨Stop_state w ha, ?_⟩
    rcases Stop_active_result w ha with h1 | h1
    · exact Or.inl h1
    · exact Or.inr (Or.inr h1)
  · rw [Stop_not_active w ha]
    refine ⟨?_, Or.inr (Or.inl rfl)⟩
    cases hs : w.server.state with
    | ServerStateNew => exact absurd hs h
    | ServerStateActive => exact absurd hs ha
    | ServerStateStopped => rfl

/-- The return of `Serve`: the server never goes back to New, and when the call returns,
it returns `e` and the server is stopped. -/
theorem serveReturn_spec (sched : List ServeEvent) : ∀ (w : World) (e : Option Error),
    w.server.state ≠ .ServerStateNew →
    (Server.serveReturn w e sched).1.server.state ≠ .ServerStateNew ∧
    (∀ p, (Server.serveReturn w e sched).2 = .ok p →
      p = .returned ∧ e = none ∧
        (Server.serveReturn w e sched).1.server.state = .ServerStateStopped) ∧
    (∀ e1, (Server.serveReturn w e sched).2 = .err e1 →
      e = some e1 ∧ (Server.serveReturn w e sched).1.server.state = .ServerStateStopped) := by
  have hstop : ∀ (w : World) (e : Option Error), w.server.state ≠ .ServerStateNew →
      ∀ x : World × Result Progress,
      x = (match Server.Stop w with
            | (w1, .ok _) => (w1, Progress.ofReturn e)
            | (w1, .err _) => (w1, Progress.ofReturn e)
            | (w1, r) => (w1, r.withValue .returned)) →
      x.1.server.state ≠ .ServerStateNew ∧
      (∀ p, x.2 = .ok p → p = .returned ∧ e = none ∧ x.1.server.state = .ServerStateStopped) ∧
      (∀ e1, x.2 = .err e1 → e = some e1 ∧ x.1.server.state = .ServerStateStopped) := by
    intro w e h x hx
    obtain ⟨hst, hres⟩ := Stop_after_entry w h
    have hx1 : x.1 = (Server.Stop w).1 := by
      rw [hx]; split <;> simp_all
    have hx2 : x.2 = Progress.ofReturn e ∨ x.2 = .blocked := by
      rw [hx]
      rcases hres with h1 | h1 | h1
      · split <;> simp_all [Result.withValue]
      · split <;> simp_all [Result.withValue]
      · split <;> simp_all [Result.withValue]
    rw [hx1, hst]
    refine ⟨by simp, ?_, ?_⟩
    · intro p hp
      rcases hx2 with h2 | h2
      · rw [h2] at hp
        cases e with
        | none => simp [Progress.ofReturn] at hp; exact ⟨hp.symm, rfl, rfl⟩
        | some e0 => simp [Progress.ofReturn] at hp
      · rw [h2] at hp; cases hp
    · intro e1 he1
      rcases hx2 with h2 | h2
      · rw [h2] at he1
        cases e with
        | none => simp [Progress.ofReturn] at he1
        | some e0 =>
            simp [Progress.ofReturn] at he1
            exact ⟨by rw [he1], rfl⟩
      · rw [h2] at he1; cases he1
  induction sched with
  | nil =>
      intro w e h
      exact hstop w e h _ (by simp only [Server.serveReturn])
  | cons ev rest ih =>
      intro w e h
      cases ev with
      | accept r => exact hstop w e h _ (by simp only [Server.serveReturn])
      | other s =>
          have hn := exec_not_new w s h
          simp only [Server.serveReturn]
          split
          · rename_i w1 heq
            have hw : w1 = (s.exec w).1 := by rw [heq]
            subst hw
            exact ⟨hn, by simp, by simp⟩
          · rename_i w1 r hne heq
            have hw : w1 = (s.exec w).1 := by rw [heq]
            subst hw
            exact ih _ e hn

/-- The accept loop of `Serve`: the server never goes back to New; the call is still in
the loop, or it has returned nil or the error of `Accept` with the server stopped. -/
theorem serveLoop_spec (sched : List ServeEvent) : ∀ w : World,
    w.server.state ≠ .ServerStateNew →
    (Server.serveLoop w sched).1.server.state ≠ .ServerStateNew ∧
    (∀ p, (Server.serveLoop w sched).2 = .ok p →
      p = .serving ∨
        (p = .returned ∧ (Server.serveLoop w sched).1.server.state = .ServerStateStopped)) ∧
    (∀ e1, (Server.serveLoop w sched).2 = .err e1 →
      e1 = .errAccept ∧ (Server.serveLoop w sched).1.server.state = .ServerStateStopped) := by
  induction sched with
  | nil =>
      intro w h
      simp [Server.serveLoop, h]
  | cons ev rest ih =>
      intro w h
      cases ev with
      | other s =>
          have hn := exec_not_new w s h
          simp only [Server.serveLoop]
          split
          · rename_i w1 heq
            have hw : w1 = (s.exec w).1 := by rw [heq]
            subst hw
            exact ⟨hn, by simp, by simp⟩
          · rename_i w1 r hne heq
            have hw : w1 = (s.exec w).1 := by rw [heq]
            subst hw
            exact ih _ hn
      | accept r =>
          have hn : (Server.acceptIter w r).1.server.state ≠ .ServerStateNew := by
            rw [acceptIter_state]; exact h
          simp only [Server.serveLoop]
          split
          · rename_i w1 heq
            have hw : w1 = (Server.acceptIter w r).1 := by rw [heq]
            subst hw
            exact ih _ hn
          · rename_i w1 e heq
            have hw : w1 = (Server.acceptIter w r).1 := by rw [heq]
            subst hw
            have he := acceptIter_leave w r e (by rw [heq])
            obtain ⟨r1, r2, r3⟩ := serveReturn_spec rest _ e hn
            refine ⟨r1, ?_, ?_⟩
            · intro p hp
              obtain ⟨p1, -, p3⟩ := r2 p hp
              exact Or.inr ⟨p1, p3⟩
            · intro e1 he1
              obtain ⟨p1, p2⟩ := r3 e1 he1
              refine ⟨?_, p2⟩
              rcases he with he | he
              · rw [he] at p1; cases p1
              · rw [he] at p1
                simp only [Option.some.injEq] at p1
                exact p1.symm
          · rename_i w1 heq
            have hw : w1 = (Server.acceptIter w r).1 := by rw [heq]
            subst hw
            refine ⟨?_, by simp, by simp⟩
            rw [(Stop_after_entry _ hn).1]
            simp

/-- A call of `Serve` outside New returns `errServerState` and changes nothing. -/
theorem Serve_not_new (w : World) (l : Listener) (sched : List ServeEvent)
    (h : w.server.state ≠ .ServerStateNew) :
    Server.Serve w l sched = (w, .err .errServerState) := by
  simp [Server.Serve, Server.serveEnter, h]

/-- A call of `Serve` in New: the state is no longer New afterwards, the call never returns
`errServerState`, and when it returns (nil or the error of `Accept`) the server is
stopped. -/
theorem Serve_new (w : World) (l : Listener) (sched : List ServeEvent)
    (h : w.server.state = .ServerStateNew) :
    (Server.Serve w l sched).1.server.state ≠ .ServerStateNew ∧
    (∀ p, (Server.Serve w l sched).2 = .ok p →
      p = .serving ∨
        (p = .returned ∧ (Server.Serve w l sched).1.server.state = .ServerStateStopped)) ∧
    (∀ e1, (Server.Serve w l sched).2 = .err e1 →
      e1 = .errAccept ∧ (Server.Serve w l sched).1.server.state = .ServerStateStopped) := by
  have e : Server.Serve w l sched
      = Server.serveLoop
          { w with server := { w.server with state := .ServerStateActive, listener := some l,
                                              queues := some [], connections := some [] } }
          sched := by
    simp [Server.Serve, Server.serveEnter, h]
  rw [e]
  exact serveLoop_spec sched _ (by simp)

/-- A call of `Serve` in New whose first `Accept` fails returns that error, with the
server stopped by the deferred `Stop`. -/
theorem Serve_accept_failure (w : World) (l : Listener)
    (h : w.server.state = .ServerStateNew) :
    (Server.Serve w l [.accept .failure]).2 = .err .errAccept ∧
    (Server.Serve w l [.accept .failure]).1.server.state = .ServerStateStopped := by
  simp [Server.Serve, Server.serveEnter, h, Server.serveLoop, Server.acceptIter,
    Listener.Accept, Server.serveReturn, Server.Stop, stopConnections, stopQueues,
    Progress.ofReturn]

theorem execWorld_cons (w : World) (c : ServerStep) (cs : List ServerStep) :
    execWorld w (c :: cs) = execWorld (c.exec w).1 cs := rfl

theorem serveReturn_steps (sched : List ServeEvent) : ∀ (w : World) (e : Option Error),
    ∃ steps, (Server.serveReturn w e sched).1 = execWorld w steps := by
  have hstop : ∀ (w : World) (e : Option Error) (x : World × Result Progress),
      x = (match Server.Stop w with
            | (w1, .ok _) => (w1, Progress.ofReturn e)
            | (w1, .err _) => (w1, Progress.ofReturn e)
            | (w1, r) => (w1, r.withValue .returned)) →
      ∃ steps, x.1 = execWorld w steps := by
    intro w e x hx
    refine ⟨[.Stop], ?_⟩
    rw [hx]
    show _ = (Server.Stop w).1
    split <;> simp_all
  induction sched with
  | nil => intro w e; exact hstop w e _ (by simp only [Server.serveReturn])
  | cons ev rest ih =>
      intro w e
      cases ev with
      | accept r => exact hstop w e _ (by simp only [Server.serveReturn])
      | other s =>
          simp only [Server.serveReturn]
          split
          · rename_i w1 heq
            exact ⟨[s], by rw [execWorld_cons, heq]; rfl⟩
          · rename_i w1 r hne heq
            obtain ⟨steps, hs⟩ := ih w1 e
            exact ⟨s :: steps, by rw [execWorld_cons, heq]; exact hs⟩

theorem serveLoop_steps (sched : List ServeEvent) : ∀ w : World,
    ∃ steps, (Server.serveLoop w sched).1 = execWorld w steps := by
  induction sched with
  | nil => intro w; exact ⟨[], rfl⟩
  | cons ev rest ih =>
      intro w
      cases ev with
      | other s =>
          simp only [Server.serveLoop]
          split
          · rename_i w1 heq
            exact ⟨[s], by rw [execWorld_cons, heq]; rfl⟩
          · rename_i w1 r hne heq
            obtain ⟨steps, hs⟩ := ih w1
            exact ⟨s :: steps, by rw [execWorld_cons, heq]; exact hs⟩
      | accept r =>
          have hx : ((ServerStep.accepted r).exec w).1 = (Server.acceptIter w r).1 := by
            simp only [ServerStep.exec]
            split <;> simp_all
          simp only [Server.serveLoop]
          split
          · rename_i w1 heq
            obtain ⟨steps, hs⟩ := ih w1
            refine ⟨.accepted r :: steps, ?_⟩
            rw [execWorld_cons, hx, heq]
            exact hs
          · rename_i w1 e heq
            obtain ⟨steps, hs⟩ := serveReturn_steps rest w1 e
            refine ⟨.accepted r :: steps, ?_⟩
            rw [execWorld_cons, hx, heq]
            exact hs
          · rename_i w1 heq
            refine ⟨[.accepted r, .Stop], ?_⟩
            rw [execWorld_cons, hx, heq]
            rfl

/-- What a call of `Serve` does to the world is what its entry and a sequence of further
steps do. -/
theorem Serve_steps (w : World) (l : Listener) (sched : List ServeEvent) :
    ∃ steps, (Server.Serve w l sched).1 = execWorld w (.serveEnter l :: steps) := by
  have hx : ((ServerStep.serveEnter l).exec w).1 = (Server.serveEnter w l).1 := by
    simp only [ServerStep.exec]
    split <;> simp_all
  simp only [Server.Serve]
  split
  · rename_i w1 e heq
    refine ⟨[], ?_⟩
    rw [execWorld_cons, hx, heq]
    rfl
  · rename_i w1 heq
    obtain ⟨steps, hs⟩ := serveLoop_steps sched w1
    refine ⟨steps, ?_⟩
    rw [execWorld_cons, hx, heq]
    exact hs

/-- C9 as stated fails: `Serve` on a new server whose `Accept` fails is a failing call
(it returns the error of `Accept`), and it does not leave the state unchanged: the call
has moved the server from New to Active at its entry and its deferred `Stop` has moved it
from Active to Stopped. -/
theorem serve_accept_error_changes_state :
    newWorld.server.state = .ServerStateNew ∧
    (Server.Serve newWorld ⟨false⟩ [.accept .failure]).2 = .err .errAccept ∧
    (Server.Serve newWorld ⟨false⟩ [.accept .failure]).1.server.state
      = .ServerStateStopped ∧
    (execSteps newWorld [.serveEnter ⟨false⟩, .accepted .failure, .Stop]).map
        (fun t => (t.before, t.after))
      = [(.ServerStateNew, .ServerStateActive), (.ServerStateActive, .ServerStateActive),
         (.ServerStateActive, .ServerStateStopped)] := by
  decide

/-- C9 (amended). Server state machine. In the history of every sequence of steps of
`Serve`, `Stop`, `SetLogger` and `getQueue` calls from every world, each step leaves the
state unchanged or is the entry of a `Serve` moving New to Active or a `Stop` (called
directly or deferred by `Serve`) moving Active to Stopped; `Serve` outside New, `Stop`
outside Active and `SetLogger` outside New return `errServerState`; `Serve` in New and
`Stop` in Active make their transition; a step that returns an error returns
`errServerState` and leaves the state unchanged; at most one `Serve` and at most one `Stop`
of the history change the state. A whole call of `Serve` outside New returns
`errServerState` and changes nothing; a whole call of `Serve` in New is made of its entry
and further steps of such a history, never leaves the state New, never returns
`errServerState`, and when it returns, nil or the error of `Accept`, the server is
stopped; it does return the error of `Accept`, with the server stopped, when its first
`Accept` fails. -/
theorem server_state_machine (w : World) (cs : List ServerStep) (l : Listener)
    (sched : List ServeEvent) :
    (∀ t ∈ execSteps w cs,
      (t.after = t.before ∨
        (t.before = .ServerStateNew ∧ t.after = .ServerStateActive ∧
          ∃ l1, t.step = .serveEnter l1) ∨
        (t.before = .ServerStateActive ∧ t.after = .ServerStateStopped ∧ t.step = .Stop)) ∧
      (∀ l1, t.step = .serveEnter l1 → t.before ≠ .ServerStateNew →
        t.result = .err .errServerState) ∧
      (∀ l1, t.step = .serveEnter l1 → t.before = .ServerStateNew →
        t.result = .ok .serving ∧ t.after = .ServerStateActive) ∧
      (t.step = .Stop → t.before ≠ .ServerStateActive → t.result = .err .errServerState) ∧
      (t.step = .Stop → t.before = .ServerStateActive → t.after = .ServerStateStopped) ∧
      (∀ logger, t.step = .SetLogger logger → t.before ≠ .ServerStateNew →
        t.result = .err .errServerState) ∧
      (∀ e, t.result = .err e → e = .errServerState ∧ t.after = t.before)) ∧
    ((execSteps w cs).filter StepRecord.serveTransition).length ≤ 1 ∧
    ((execSteps w cs).filter StepRecord.stopTransition).length ≤ 1 ∧
    (w.server.state ≠ .ServerStateNew →
      Server.Serve w l sched = (w, .err .errServerState)) ∧
    (w.server.state = .ServerStateNew →
      (Server.Serve w l sched).1.server.state ≠ .ServerStateNew ∧
      (∀ p, (Server.Serve w l sched).2 = .ok p →
        p = .serving ∨
          (p = .returned ∧ (Server.Serve w l sched).1.server.state = .ServerStateStopped)) ∧
      (∀ e1, (Server.Serve w l sched).2 = .err e1 →
        e1 = .errAccept ∧ (Server.Serve w l sched).1.server.state = .ServerStateStopped) ∧
      (Server.Serve w l [.accept .failure]).2 = .err .errAccept ∧
      (Server.Serve w l [.accept .failure]).1.server.state = .ServerStateStopped) ∧
    (∃ steps, (Server.Serve w l sched).1 = execWorld w (.serveEnter l :: steps)) := by
  refine ⟨?_, ?_, ?_, Serve_not_new w l sched, ?_, Serve_steps w l sched⟩
  · intro t ht
    obtain ⟨w1, e⟩ := execSteps_mem cs w t ht
    have := exec_step w1 t.step
    rw [e]
    exact this
  · have := (execSteps_count cs w).1
    split at this <;> omega
  · have := (execSteps_count cs w).2
    split at this <;> omega
  · intro h
    obtain ⟨a, b, c⟩ := Serve_new w l sched h
    obtain ⟨d, e⟩ := Serve_accept_failure w l h
    exact ⟨a, b, c, d, e⟩

/-! ## Connection handlers -/

theorem write_data_of_ok (w w1 : Writer) (p : List Byte) (h : w.write p = (w1, none)) :
    w1.data = w.data ++ p ∧ w1.closed = w.closed := by
  unfold Writer.write at h
  split at h
  · simp at h
  · split at h
    · simp only [Prod.mk.injEq, and_true] at h
      subst h
      exact ⟨rfl, rfl⟩
    · split at h
      · simp only [Prod.mk.injEq, and_true] at h
        subst h
        exact ⟨rfl, rfl⟩
      · simp at h

theorem writeItems_data_of_ok (f : Frame) : ∀ (w w1 : Writer), writeItems w f = (w1, none) →
    w1.data = w.data ++ encodeItems f ∧ w1.closed = w.closed := by
  induction f with
  | nil =>
      intro w w1 h
      simp only [writeItems, Prod.mk.injEq, and_true] at h
      subst h
      simp [encodeItems]
  | cons item f ih =>
      intro w w1 h
      simp only [writeItems] at h
      split at h
      · simp at h
      · rename_i wa ha
        split at h
        · simp at h
        · rename_i wb hb
          obtain ⟨d1, c1⟩ := write_data_of_ok _ _ _ ha
          obtain ⟨d2, c2⟩ := write_data_of_ok _ _ _ hb
          obtain ⟨d3, c3⟩ := ih _ _ h
          rw [d3, d2, d1, c3, c2, c1, encodeItems_cons]
          simp only [List.append_assoc, and_self]

theorem writeFrame_data_of_ok (w w1 : Writer) (f : Frame) (maxLen : Nat)
    (h : writeFrame w f maxLen = (w1, none)) :
    w1.data = w.data ++ (putUint32 (frameLenOf f) ++ encodeItems f) ∧ w1.closed = w.closed := by
  simp only [writeFrame] at h
  split at h
  · simp at h
  · split at h
    · simp at h
    · rename_i wa ha
      obtain ⟨d1, c1⟩ := write_data_of_ok _ _ _ ha
      obtain ⟨d2, c2⟩ := writeItems_data_of_ok _ _ _ h
      rw [d2, d1, c2, c1]
      simp only [List.append_assoc, and_self]

theorem send_fields (c : connection) (f : Frame) :
    (c.send f).1.reader = c.reader ∧ (c.send f).1.stopped = c.stopped := by
  unfold connection.send
  split <;> exact ⟨rfl, rfl⟩

theorem send_data_of_ok (c : connection) (f : Frame) (h : (c.send f).2 = none) :
    (c.send f).1.writer.data = c.writer.data ++ (putUint32 (frameLenOf f) ++ encodeItems f) ∧
    (c.send f).1.writer.closed = false := by
  unfold connection.send at h ⊢
  split
  · rename_i w1 e he
    rw [he] at h
    simp at h
  · rename_i w1 he
    rw [he] at h
    obtain ⟨d, c1⟩ := writeFrame_data_of_ok _ _ _ _ he
    refine ⟨d, ?_⟩
    simp only [Writer.flush] at h
    split at h
    · simp at h
    · rename_i hc
      simpa using hc

theorem send_congr (c c1 : connection) (f : Frame) (h : c1.writer = c.writer) :
    (c1.send f).2 = (c.send f).2 ∧ (c1.send f).1.writer = (c.send f).1.writer := by
  unfold connection.send
  rw [h]
  split <;> exact ⟨rfl, rfl⟩

/-- What `sendOrStop` changes: nothing of the server and the queues; the trace gets the
one `send`; of the connections only `cid`, whose reader is left alone. -/
theorem sendOrStop_frame (w : World) (cid : Nat) (f : Frame) :
    (w.sendOrStop cid f).server = w.server ∧
    (w.sendOrStop cid f).queueHeap = w.queueHeap ∧
    (w.sendOrStop cid f).nextQueue = w.nextQueue ∧
    (w.sendOrStop cid f).log = w.log ++ [.send cid f ((w.connHeap cid).send f).2] ∧
    (∀ other, other ≠ cid → (w.sendOrStop cid f).connHeap other = w.connHeap other) ∧
    ((w.sendOrStop cid f).connHeap cid).reader = (w.connHeap cid).reader := by
  have hf := send_fields (w.connHeap cid) f
  unfold World.sendOrStop World.send
  cases hs : (w.connHeap cid).send f with
  | mk c1 err =>
      rw [hs] at hf
      simp only at hf
      cases err with
      | none =>
          refine ⟨rfl, rfl, rfl, rfl, ?_, ?_⟩
          · intro other ho
            simp [World.setConn, World.logEvent, Function.update, ho]
          · simp [World.setConn, World.logEvent, hf.1]
      | some e =>
          by_cases hr : c1.stopped = true
          · have hrun : (((w.setConn cid c1).logEvent (.send cid f (some e))).connHeap cid).running
                = false := by
              simp [World.setConn, World.logEvent, connection.running, hr]
            simp only [hrun, Bool.false_eq_true, if_false]
            refine ⟨rfl, rfl, rfl, rfl, ?_, ?_⟩
            · intro other ho
              simp [World.setConn, World.logEvent, Function.update, ho]
            · simp [World.setConn, World.logEvent, hf.1]
          · have hrun : (((w.setConn cid c1).logEvent (.send cid f (some e))).connHeap cid).running
                = true := by
              simp [World.setConn, World.logEvent, connection.running, hr]
            simp only [hrun, if_true]
            refine ⟨rfl, rfl, rfl, rfl, ?_, ?_⟩
            · intro other ho
              simp [World.stopConn, World.setConn, World.logEvent, Function.update, ho]
            · simp [World.stopConn, World.setConn, World.logEvent, connection.stop, hr, hf.1]

/-- When the reply is written successfully `sendOrStop` leaves the connection as running
as it was, and the socket has received the encoded reply. -/
theorem sendOrStop_of_ok (w : World) (cid : Nat) (f : Frame)
    (h : ((w.connHeap cid).send f).2 = none) :
    ((w.sendOrStop cid f).connHeap cid).stopped = (w.connHeap cid).stopped ∧
    ((w.sendOrStop cid f).connHeap cid).writer.data
      = (w.connHeap cid).writer.data ++ (putUint32 (frameLenOf f) ++ encodeItems f) := by
  have hd := send_data_of_ok _ _ h
  have hf := send_fields (w.connHeap cid) f
  unfold World.sendOrStop World.send
  cases hs : (w.connHeap cid).send f with
  | mk c1 err =>
      rw [hs] at h hd hf
      simp only at h
      subst h
      simp only [World.setConn, World.logEvent, Function.update_same]
      exact ⟨hf.2, hd.1⟩

theorem handlePut_short (cid : Nat) (f : Frame) (env : Env) (w : World) (h : f.length < 3) :
    connection.handlePut cid f env w = (w.sendOrStop cid errBadParams, .ok ()) := by
  simp only [connection.handlePut, h, if_true]

theorem handleGet_short (cid : Nat) (f : Frame) (env : Env) (w : World) (h : f.length < 2) :
    connection.handleGet cid f env w = (w.sendOrStop cid errBadParams, .ok ()) := by
  simp only [connection.handleGet, h, if_true]

theorem handlePut_long_name (cid : Nat) (f : Frame) (env : Env) (w : World)
    (h : ¬ f.length < 3) (hn : MaxQueueNameLen < (f.getD 1 .null).len) :
    connection.handlePut cid f env w = (w.sendOrStop cid errBadQueueName, .ok ()) := by
  rcases f with _ | ⟨a, _ | ⟨b, _ | ⟨c, rest⟩⟩⟩
  · simp at h
  · simp at h
  · simp at h
  · simp only [List.getD_cons_succ, List.getD_cons_zero, GoBytes.len] at hn
    simp [connection.handlePut, hn]

theorem handleGet_long_name (cid : Nat) (f : Frame) (env : Env) (w : World)
    (h : ¬ f.length < 2) (hn : MaxQueueNameLen < (f.getD 1 .null).len) :
    connection.handleGet cid f env w = (w.sendOrStop cid errBadQueueName, .ok ()) := by
  rcases f with _ | ⟨a, _ | ⟨b, rest⟩⟩
  · simp at h
  · simp at h
  · simp only [List.getD_cons_succ, List.getD_cons_zero, GoBytes.len] at hn
    simp [connection.handleGet, hn]

theorem dispatch_of_reply (cid : Nat) (f : Frame) (env : Env) (w : World) (reply : Frame)
    (h : specValidationReply f = some reply) :
    ∃ hd, (hd = Handler.handlePut ∨ hd = Handler.handleGet) ∧
      connection.dispatch cid f env w
        = ((w.logEvent (.dispatch cid hd f)).sendOrStop cid reply, .ok ()) := by
  unfold specValidationReply at h
  unfold connection.dispatch
  cases h0 : f[0]? with
  | none => simp [h0] at h
  | some f0 =>
      simp only [h0] at h ⊢
      by_cases hp : f0.bytes = ascii "Put"
      · have hg : bytesEqual f0 bGet = false := by
          show decide (f0.bytes = bGet.bytes) = false
          rw [hp]; decide
        have hp2 : bytesEqual f0 bPut = true := by
          show decide (f0.bytes = bPut.bytes) = true
          rw [hp]; decide
        simp only [hg, hp2, Bool.false_eq_true, if_false, if_true]
        simp only [hp, if_true] at h
        refine ⟨.handlePut, Or.inl rfl, ?_⟩
        by_cases hl : f.length < 3
        · simp only [hl, if_true, Option.some.injEq] at h
          rw [handlePut_short _ _ _ _ hl, ← h]
          rfl
        · simp only [hl, if_false] at h
          split at h
          · rename_i hn
            simp only [Option.some.injEq] at h
            rw [handlePut_long_name _ _ _ _ hl (by simpa [MaxQueueNameLen] using hn), ← h]
            rfl
          · simp at h
      · simp only [hp, if_false] at h
        by_cases hg : f0.bytes = ascii "Get"
        · have hg2 : bytesEqual f0 bGet = true := by
            show decide (f0.bytes = bGet.bytes) = true
            rw [hg]; decide
          simp only [hg2, if_true]
          simp only [hg, if_true] at h
          refine ⟨.handleGet, Or.inr rfl, ?_⟩
          by_cases hl : f.length < 2
          · simp only [hl, if_true, Option.some.injEq] at h
            rw [handleGet_short _ _ _ _ hl, ← h]
            rfl
          · simp only [hl, if_false] at h
            split at h
            · rename_i hn
              simp only [Option.some.injEq] at h
              rw [handleGet_long_name _ _ _ _ hl (by simpa [MaxQueueNameLen] using hn), ← h]
              rfl
            · simp at h
        · simp [hg] at h

theorem run_step_of_dispatch (cid : Nat) (env : Env) (envs : List Env) (w w1 : World)
    (c1 : connection) (f : Frame) (hrun : (w.connHeap cid).stopped = false)
    (hrecv : (w.connHeap cid).recv = (c1, .ok f))
    (hd : connection.dispatch cid f env (w.setConn cid c1) = (w1, .ok ())) :
    connection.run cid (env :: envs) w = connection.run cid envs w1 := by
  rw [connection.run]
  simp only [connection.running, hrun, Bool.not_false, if_true, hrecv, hd]

theorem specValidationReply_cases (f reply : Frame) (h : specValidationReply f = some reply) :
    reply = errBadParams ∨ reply = errBadQueueName := by
  unfold specValidationReply at h
  split at h
  · simp at h
  · split at h
    · split at h
      · exact Or.inl (Option.some.inj h).symm
      · split at h
        · exact Or.inr (Option.some.inj h).symm
        · simp at h
    · split at h
      · split at h
        · exact Or.inl (Option.some.inj h).symm
        · split at h
          · exact Or.inr (Option.some.inj h).symm
          · simp at h
      · simp at h

theorem recv_fields (c : connection) :
    c.recv.1.stopped = c.stopped ∧ c.recv.1.writer = c.writer := by
  unfold connection.recv
  exact ⟨rfl, rfl⟩

/-- C8. Arity and queue-name validation: for a Put frame with fewer than 3 items or a
Get frame with fewer than 2 items (reply `{Error, REQUEST_BAD_PARAMS}`), and otherwise for a
Put or Get frame whose item[1] is longer than 1024 bytes (reply
`{Error, REQUEST_BAD_QUEUE_NAME}`), the dispatch of the frame does exactly one thing:
`sendOrStop` of that reply. The server, its registry and every queue are unchanged, the
trace has the dispatch and the one send and no `getQueue`; when the reply is written
successfully the connection is as running as before and the socket has received the encoded
reply, and the loop of `connection.run`, having read the frame on a running connection,
goes on to its next iteration with the connection still running. -/
theorem validation_reply (cid : Nat) (f : Frame) (env : Env) (w : World) (reply : Frame)
    (h : specValidationReply f = some reply) :
    ∃ hd w1, connection.dispatch cid f env w = (w1, .ok ()) ∧
      w1 = (w.logEvent (.dispatch cid hd f)).sendOrStop cid reply ∧
      w1.server = w.server ∧ w1.queueHeap = w.queueHeap ∧ w1.nextQueue = w.nextQueue ∧
      w1.log = w.log ++ [.dispatch cid hd f, .send cid reply ((w.connHeap cid).send reply).2] ∧
      (((w.connHeap cid).send reply).2 = none →
        (w1.connHeap cid).stopped = (w.connHeap cid).stopped ∧
        (w1.connHeap cid).writer.data
          = (w.connHeap cid).writer.data ++ (putUint32 (bodySize reply) ++ encodeItems reply)) ∧
      (∀ (envs : List Env) (w0 : World),
        (w0.connHeap cid).stopped = false → (w0.connHeap cid).recv = (w.connHeap cid, .ok f) →
        w = w0.setConn cid (w.connHeap cid) → ((w.connHeap cid).send reply).2 = none →
        connection.run cid (env :: envs) w0 = connection.run cid envs w1 ∧
        (w1.connHeap cid).running = true) := by
  obtain ⟨hd, -, hdisp⟩ := dispatch_of_reply cid f env w reply h
  have hfr := sendOrStop_frame (w.logEvent (.dispatch cid hd f)) cid reply
  have hlen : frameLenOf reply = bodySize reply := by
    rcases specValidationReply_cases f reply h with rfl | rfl <;> decide
  have hok : ((w.connHeap cid).send reply).2 = none →
      (((w.logEvent (.dispatch cid hd f)).sendOrStop cid reply).connHeap cid).stopped
          = (w.connHeap cid).stopped ∧
      (((w.logEvent (.dispatch cid hd f)).sendOrStop cid reply).connHeap cid).writer.data
          = (w.connHeap cid).writer.data ++ (putUint32 (bodySize reply) ++ encodeItems reply) := by
    intro hs
    have := sendOrStop_of_ok (w.logEvent (.dispatch cid hd f)) cid reply hs
    rw [hlen] at this
    exact this
  refine ⟨hd, _, hdisp, rfl, hfr.1, hfr.2.1, hfr.2.2.1, ?_, hok, ?_⟩
  · rw [hfr.2.2.2.1]
    simp [World.logEvent]
  · intro envs w0 hrun hrecv hw hs
    constructor
    · apply run_step_of_dispatch cid env envs w0 _ (w.connHeap cid) f hrun hrecv
      rw [← hw]
      exact hdisp
    · have hst := (hok hs).1
      have hr := (recv_fields (w0.connHeap cid)).1
      rw [hrecv] at hr
      simp only at hr
      simp only [connection.running, hst, hr, hrun, Bool.not_false]

/-- Witness for C8: the Put frame `{"Put", "q"}` read by connection `0` of an active
world. -/
theorem validation_reply_witness :
    specValidationReply [bPut, .slice (ascii "q")] = some errBadParams ∧
    ∃ hd w1, connection.dispatch 0 [bPut, .slice (ascii "q")] quietEnv activeWorld
        = (w1, .ok ()) ∧
      w1 = (activeWorld.logEvent (.dispatch 0 hd [bPut, .slice (ascii "q")])).sendOrStop 0
        errBadParams ∧
      w1.server = activeWorld.server ∧ w1.queueHeap = activeWorld.queueHeap ∧
      w1.nextQueue = activeWorld.nextQueue ∧
      w1.log = activeWorld.log ++ [.dispatch 0 hd [bPut, .slice (ascii "q")],
        .send 0 errBadParams ((activeWorld.connHeap 0).send errBadParams).2] ∧
      (((activeWorld.connHeap 0).send errBadParams).2 = none →
        (w1.connHeap 0).stopped = (activeWorld.connHeap 0).stopped ∧
        (w1.connHeap 0).writer.data
          = (activeWorld.connHeap 0).writer.data ++
              (putUint32 (bodySize errBadParams) ++ encodeItems errBadParams)) ∧
      (∀ (envs : List Env) (w0 : World),
        (w0.connHeap 0).stopped = false →
        (w0.connHeap 0).recv = (activeWorld.connHeap 0, .ok [bPut, .slice (ascii "q")]) →
        activeWorld = w0.setConn 0 (activeWorld.connHeap 0) →
        ((activeWorld.connHeap 0).send errBadParams).2 = none →
        connection.run 0 (quietEnv :: envs) w0 = connection.run 0 envs w1 ∧
        (w1.connHeap 0).running = true) :=
  ⟨by decide, validation_reply 0 [bPut, .slice (ascii "q")] quietEnv activeWorld errBadParams
    (by decide)⟩

/-- C10. Oversize read is refused before the body: when the first four bytes of the
stream decode to `n > maxLen`, `readFrame` returns `ErrFrameLen` and the reader is left with
everything after those four bytes; and `connection.run` (whose limit is `maxFrameLen`) on a
running connection whose input starts so returns with the connection stopped, four bytes
consumed, and no event in the trace (no handler dispatched, nothing sent), the server and
the queues untouched. -/
theorem oversize_read_refused (b4 rest : List Byte) (n maxLen cid : Nat) (envs : List Env)
    (w : World) (h4 : b4.length = 4) (hn : getUint32 b4 = some n) (hgt : maxLen < n)
    (hconn : maxFrameLen < n) (hrun : (w.connHeap cid).stopped = false)
    (hreader : (w.connHeap cid).reader = b4 ++ rest) :
    readFrame (b4 ++ rest) maxLen = (.err .ErrFrameLen, rest) ∧
    ∃ w1, connection.run cid envs w = (w1, .ok ()) ∧
      (w1.connHeap cid).stopped = true ∧ (w1.connHeap cid).reader = rest ∧
      w1.log = w.log ∧ w1.server = w.server ∧ w1.queueHeap = w.queueHeap := by
  refine ⟨readFrame_oversize b4 rest n maxLen h4 hn hgt, ?_⟩
  have hrecv : (w.connHeap cid).recv
      = ({ (w.connHeap cid) with reader := rest }, .err .ErrFrameLen) := by
    simp only [connection.recv, hreader, readFrame_oversize b4 rest n maxFrameLen h4 hn hconn]
  refine ⟨(w.setConn cid { (w.connHeap cid) with reader := rest }).stopConn cid, ?_, ?_, ?_,
    rfl, rfl, rfl⟩
  · rw [connection.run]
    simp only [connection.running, hrun, Bool.not_false, if_true, hrecv, World.setConn,
      Function.update_same]
  · simp [World.stopConn, World.setConn, connection.stop, hrun]
  · simp [World.stopConn, World.setConn, connection.stop, hrun]

/-- Witness for C10: connection `0` of an active world receives the length prefix
`maxFrameLen + 1 = 0x02000410` followed by one more byte. -/
theorem oversize_read_refused_witness :
    readFrame ([2, 0, 4, 16] ++ [7]) maxFrameLen = (.err .ErrFrameLen, [7]) ∧
    ∃ w1, connection.run 0 [quietEnv]
        (activeWorld.setConn 0 { idleConn with reader := [2, 0, 4, 16, 7] }) = (w1, .ok ()) ∧
      (w1.connHeap 0).stopped = true ∧ (w1.connHeap 0).reader = [7] ∧
      w1.log = (activeWorld.setConn 0 { idleConn with reader := [2, 0, 4, 16, 7] }).log ∧
      w1.server = (activeWorld.setConn 0 { idleConn with reader := [2, 0, 4, 16, 7] }).server ∧
      w1.queueHeap
        = (activeWorld.setConn 0 { idleConn with reader := [2, 0, 4, 16, 7] }).queueHeap :=
  oversize_read_refused [2, 0, 4, 16] [7] 33555472 maxFrameLen 0 [quietEnv]
    (activeWorld.setConn 0 { idleConn with reader := [2, 0, 4, 16, 7] })
    (by decide) (by decide) (by decide) (by decide) (by decide) (by decide)

/-- C7 as stated fails: item[2] = "-5" is present and is not a non-negative decimal
integer, yet `handleGet` sends no `REQUEST_BAD_TIMEOUT`; it looks the queue up, waits 1 ms
and replies `Timeout`. -/
theorem get_timeout_negative_not_rejected :
    specTimeoutRejected [bGet, .slice (ascii "q"), .slice (ascii "-5")] = true ∧
    repliedBadTimeout 0 (newEvents activeWorld
      (connection.handleGet 0 [bGet, .slice (ascii "q"), .slice (ascii "-5")] quietEnv
        activeWorld).1) = false ∧
    newEvents activeWorld
      (connection.handleGet 0 [bGet, .slice (ascii "q"), .slice (ascii "-5")] quietEnv
        activeWorld).1
      = [.getQueue (ascii "q"), .after 0 1, .send 0 [bTimeout] none] := by
  decide

theorem interfere_log (w : World) (i : Interference) : (w.interfere i).log = w.log := by
  cases i with
  | connStop cid => rfl
  | queueOp qid op =>
      simp only [World.interfere]
      split <;> rfl

theorem interfereAll_log (steps : List Interference) : ∀ w : World,
    (w.interfereAll steps).log = w.log := by
  induction steps with
  | nil => intro w; rfl
  | cons i steps ih =>
      intro w
      simp only [World.interfereAll, List.foldl_cons]
      have := ih (w.interfere i)
      simp only [World.interfereAll] at this
      rw [this, interfere_log]

theorem send_log (w : World) (cid : Nat) (f : Frame) :
    (w.send cid f).1.log = w.log ++ [.send cid f (w.send cid f).2] := by
  unfold World.send
  rfl

theorem getQueue_log (w : World) (name : List Byte) :
    (Server.getQueue w name).1.log = w.log ++ [.getQueue name] := by
  unfold Server.getQueue
  simp only
  split
  · rfl
  · split
    · rfl
    · split <;> rfl

/-- The events that the `select` part of `handleGet` adds to the trace are sends, by this
connection, of `{Timeout}` or of `{OK, message}`. -/
theorem getSelect_log (cid q : Nat) (env : Env) (w : World) :
    ∃ evs, (getSelect cid q env w).1.log = w.log ++ evs ∧
      ∀ e ∈ evs, ∃ f err, e = .send cid f err ∧ (f = [bTimeout] ∨ ∃ m, f = [bOK, m]) := by
  unfold getSelect
  simp only
  split
  · exact ⟨[], by simp, by simp⟩
  · exact ⟨[], by simp, by simp⟩
  · refine ⟨[.send cid [bTimeout] ((w.connHeap cid).send [bTimeout]).2], ?_, ?_⟩
    · exact (sendOrStop_frame w cid [bTimeout]).2.2.2.1
    · intro e he
      simp only [List.mem_singleton] at he
      exact ⟨_, _, he, Or.inl rfl⟩
  · split
    · rename_i q1 message hdeq
      have hl := send_log ((w.setQueue q q1).interfereAll env.before2) cid [bOK, message]
      rw [interfereAll_log] at hl
      have hmem : ∀ e ∈ [Event.send cid [bOK, message]
          (((w.setQueue q q1).interfereAll env.before2).send cid [bOK, message]).2],
          ∃ f err, e = .send cid f err ∧ (f = [bTimeout] ∨ ∃ m, f = [bOK, m]) := by
        intro e he
        simp only [List.mem_singleton] at he
        exact ⟨_, _, he, Or.inr ⟨message, rfl⟩⟩
      split
      · rename_i w1 hs
        rw [hs] at hl hmem
        exact ⟨_, hl, hmem⟩
      · rename_i w1 err hs
        rw [hs] at hl hmem
        simp only at hl
        split
        · exact ⟨_, by rw [interfereAll_log]; exact hl, hmem⟩
        · exact ⟨_, by rw [interfereAll_log]; exact hl, hmem⟩
        · split
          · exact ⟨_, by rw [interfereAll_log]; exact hl, hmem⟩
          · split
            · exact ⟨_, by
                show (w1.interfereAll env.before3).log = _
                rw [interfereAll_log]; exact hl, hmem⟩
            · exact ⟨_, by
                show (w1.interfereAll env.before3).log = _
                rw [interfereAll_log]; exact hl, hmem⟩
    · exact ⟨[], by simp, by simp⟩

theorem newEvents_of_append (w w1 : World) (evs : List Event) (h : w1.log = w.log ++ evs) :
    newEvents w w1 = evs := by
  simp [newEvents, h]

theorem handleGet_rejected (cid : Nat) (f : Frame) (env : Env) (w : World) (f1 : GoBytes)
    (hlen : 2 ≤ f.length) (h1 : f[1]? = some f1) (hname : f1.len ≤ MaxQueueNameLen)
    (hrej : atoiTimeoutRejected f = true) :
    connection.handleGet cid f env w = (w.sendOrStop cid errBadTimeout, .ok ()) := by
  have hl : ¬ f.length < 2 := by omega
  have hn : ¬ f1.bytes.length > MaxQueueNameLen := by
    simp only [GoBytes.len] at hname; omega
  unfold atoiTimeoutRejected at hrej
  simp only [connection.handleGet, hl, if_false, h1, hn, getTimeoutMsec]
  cases h2 : f[2]? with
  | none => simp [h2] at hrej
  | some f2 =>
      have h3 : f.length ≥ 3 := by
        have := List.getElem?_eq_some.mp h2
        obtain ⟨h, _⟩ := this
        omega
      simp only [h2] at hrej
      simp only [h3, if_true]
      cases ha : Atoi f2.bytes with
      | error e => rfl
      | ok v =>
          simp only [ha, decide_eq_true_eq] at hrej
          simp only [maxGetTimeoutMsec, hrej, if_true]

theorem handleGet_accepted (cid : Nat) (f : Frame) (env : Env) (w : World) (f1 : GoBytes)
    (hlen : 2 ≤ f.length) (h1 : f[1]? = some f1) (hname : f1.len ≤ MaxQueueNameLen)
    (hacc : atoiTimeoutRejected f = false) :
    connection.handleGet cid f env w =
      match Server.getQueue w f1.bytes with
      | (w1, .ok q) =>
          getSelect cid q env
            ((w1.logEvent (.after cid (atoiWaitMsec f))).interfereAll env.before1)
      | (w1, .err _) => (w1, .ok ())
      | (w1, .goPanic) => (w1, .goPanic)
      | (w1, .blocked) => (w1, .blocked)
      | (w1, .outOfFuel) => (w1, .outOfFuel) := by
  have hl : ¬ f.length < 2 := by omega
  have hn : ¬ f1.bytes.length > MaxQueueNameLen := by
    simp only [GoBytes.len] at hname; omega
  unfold atoiTimeoutRejected at hacc
  unfold atoiWaitMsec
  simp only [connection.handleGet, hl, if_false, h1, hn, getTimeoutMsec]
  cases h2 : f[2]? with
  | none =>
      have h3 : ¬ f.length ≥ 3 := by
        intro h
        have := List.getElem?_eq_none_iff.mp h2
        omega
      simp only [h3, if_false, maxGetTimeoutMsec]
      rfl
  | some f2 =>
      have h3 : f.length ≥ 3 := by
        have := List.getElem?_eq_some.mp h2
        obtain ⟨h, _⟩ := this
        omega
      simp only [h2] at hacc
      simp only [h3, if_true]
      cases ha : Atoi f2.bytes with
      | error e => simp [ha] at hacc
      | ok v =>
          simp only [ha, decide_eq_false_iff_not] at hacc
          have hw : (if v < 1 then (1 : Int) else v) = max 1 v := by
            rcases Int.lt_or_le v 1 with h | h
            · simp [h, Int.max_def]; omega
            · have : ¬ v < 1 := by omega
              simp [this, Int.max_def]; omega
          simp only [maxGetTimeoutMsec, hacc, if_false, hw]

theorem getQueue_ok_of_active (w : World) (name : List Byte)
    (hs : w.server.state = .ServerStateActive) (hq : w.server.queues ≠ none) :
    ∃ q, (Server.getQueue w name).2 = .ok q := by
  unfold Server.getQueue
  simp only [World.logEvent, hs, ne_eq, not_true_eq_false, if_false]
  split
  · exact ⟨_, rfl⟩
  · cases hm : w.server.queues with
    | none => exact absurd hm hq
    | some m => simp [World.setQueue, hm]

theorem parseUint_digits (s : List Byte) : ∀ n : Nat,
    s.all (fun c => decide (48 ≤ c.val ∧ c.val ≤ 57)) = true →
    (parseUint s n = .ok (s.foldl (fun n c => n * 10 + (c.val - 48)) n) ∨
      (parseUint s n = .error .errRange ∧
        9223372036854775808 ≤ s.foldl (fun n c => n * 10 + (c.val - 48)) n)) ∧
    n ≤ s.foldl (fun n c => n * 10 + (c.val - 48)) n := by
  induction s with
  | nil => intro n _; simp [parseUint]
  | cons c cs ih =>
      intro n h
      simp only [List.all_cons, Bool.and_eq_true, decide_eq_true_eq] at h
      obtain ⟨hc, hcs⟩ := h
      obtain ⟨ih1, ih2⟩ := ih (n * 10 + (c.val - 48)) hcs
      simp only [List.foldl_cons]
      refine ⟨?_, by omega⟩
      by_cases h1 : n ≥ 1844674407370955162
      · have e : parseUint (c :: cs) n = .error .errRange := by
          simp only [parseUint, hc, and_self, if_true, h1]
        rw [e]
        exact Or.inr ⟨rfl, by omega⟩
      · by_cases h2 : n * 10 + (c.val - 48) > 18446744073709551615
        · have e : parseUint (c :: cs) n = .error .errRange := by
            simp only [parseUint, hc, and_self, if_true, h1, if_false, h2]
          rw [e]
          exact Or.inr ⟨rfl, by omega⟩
        · have e : parseUint (c :: cs) n = parseUint cs (n * 10 + (c.val - 48)) := by
            simp only [parseUint, hc, and_self, if_true, h1, if_false, h2]
          rw [e]
          exact ih1

/-- On a string of decimal digits `Atoi` returns its value, or a range error when the
value is `2^63` or more. -/
theorem Atoi_decimal (s : List Byte) (h : isDecimal s = true) :
    Atoi s = .ok (decimalValue s : Int) ∨
    (Atoi s = .error .errRange ∧ 9223372036854775808 ≤ decimalValue s) := by
  unfold isDecimal at h
  simp only [Bool.and_eq_true, decide_eq_true_eq] at h
  obtain ⟨hne, hall⟩ := h
  cases s with
  | nil => exact absurd rfl hne
  | cons c cs =>
      have hc : 48 ≤ c.val ∧ c.val ≤ 57 := by
        simp only [List.all_cons, Bool.and_eq_true, decide_eq_true_eq] at hall
        exact hall.1
      have hsign : ¬ (c.val = 43 ∨ c.val = 45) := by omega
      have hneg : decide (c.val = 45) = false := by simp; omega
      obtain ⟨hp, -⟩ := parseUint_digits (c :: cs) 0 hall
      unfold decimalValue
      rcases hp with hp | ⟨hp, hbig⟩
      · by_cases hb : List.foldl (fun n c => n * 10 + (c.val - 48)) 0 (c :: cs)
            ≥ 9223372036854775808
        · have e : Atoi (c :: cs) = .error .errRange := by
            simp only [Atoi, hsign, if_false, hneg, List.length_cons, Nat.add_one_ne_zero, hp,
              Bool.not_false, Bool.true_and, decide_eq_true_eq, hb, if_true]
          rw [e]
          exact Or.inr ⟨rfl, hb⟩
        · have e : Atoi (c :: cs)
              = .ok ((List.foldl (fun n c => n * 10 + (c.val - 48)) 0 (c :: cs) : Nat) : Int) := by
            simp only [Atoi, hsign, if_false, hneg, List.length_cons, Nat.add_one_ne_zero, hp,
              Bool.not_false, Bool.true_and, decide_eq_true_eq, hb, Bool.false_and,
              Bool.false_eq_true]
          rw [e]
          exact Or.inl rfl
      · have e : Atoi (c :: cs) = .error .errRange := by
          simp only [Atoi, hsign, if_false, hneg, List.length_cons, Nat.add_one_ne_zero, hp]
        rw [e]
        exact Or.inr ⟨rfl, hbig⟩

theorem handleGet_accepted_events (cid : Nat) (f : Frame) (env : Env) (w : World)
    (f1 : GoBytes) (hlen : 2 ≤ f.length) (h1 : f[1]? = some f1)
    (hname : f1.len ≤ MaxQueueNameLen) (hacc : atoiTimeoutRejected f = false) :
    ∃ evs, newEvents w (connection.handleGet cid f env w).1 = .getQueue f1.bytes :: evs ∧
      (evs = [] ∨ ∃ evs1, evs = .after cid (atoiWaitMsec f) :: evs1 ∧
        ∀ e ∈ evs1, ∃ g err, e = .send cid g err ∧ (g = [bTimeout] ∨ ∃ m, g = [bOK, m])) ∧
      (w.server.state = .ServerStateActive → w.server.queues ≠ none → evs ≠ []) := by
  rw [handleGet_accepted cid f env w f1 hlen h1 hname hacc]
  have hlog := getQueue_log w f1.bytes
  cases hq : Server.getQueue w f1.bytes with
  | mk w1 r =>
      rw [hq] at hlog
      simp only at hlog
      cases r with
      | ok q =>
          simp only
          obtain ⟨evs1, hl, hmem⟩ := getSelect_log cid q env
            ((w1.logEvent (.after cid (atoiWaitMsec f))).interfereAll env.before1)
          rw [interfereAll_log] at hl
          refine ⟨.after cid (atoiWaitMsec f) :: evs1, ?_, Or.inr ⟨evs1, rfl, hmem⟩, ?_⟩
          · apply newEvents_of_append
            rw [hl]
            simp [World.logEvent, hlog]
          · intro _ _; simp
      | err e =>
          refine ⟨[], newEvents_of_append _ _ _ hlog, Or.inl rfl, ?_⟩
          intro hs hne
          obtain ⟨q, hok⟩ := getQueue_ok_of_active w f1.bytes hs hne
          rw [hq] at hok
          cases hok
      | goPanic =>
          refine ⟨[], newEvents_of_append _ _ _ hlog, Or.inl rfl, ?_⟩
          intro hs hne
          obtain ⟨q, hok⟩ := getQueue_ok_of_active w f1.bytes hs hne
          rw [hq] at hok
          cases hok
      | blocked =>
          refine ⟨[], newEvents_of_append _ _ _ hlog, Or.inl rfl, ?_⟩
          intro hs hne
          obtain ⟨q, hok⟩ := getQueue_ok_of_active w f1.bytes hs hne
          rw [hq] at hok
          cases hok
      | outOfFuel =>
          refine ⟨[], newEvents_of_append _ _ _ hlog, Or.inl rfl, ?_⟩
          intro hs hne
          obtain ⟨q, hok⟩ := getQueue_ok_of_active w f1.bytes hs hne
          rw [hq] at hok
          cases hok

theorem repliedBadTimeout_sends (cid : Nat) (evs : List Event)
    (h : ∀ e ∈ evs, ∃ g err, e = .send cid g err ∧ (g = [bTimeout] ∨ ∃ m, g = [bOK, m])) :
    repliedBadTimeout cid evs = false := by
  unfold repliedBadTimeout
  rw [List.any_eq_false]
  intro e he
  obtain ⟨g, err, rfl, hg⟩ := h e he
  rcases hg with rfl | ⟨m, rfl⟩
  · simp only [true_and, decide_eq_true_eq]
    decide
  · simp only [true_and, decide_eq_true_eq]
    intro hh
    have : bOK = bError := by
      simp only [errBadTimeout, List.cons.injEq] at hh
      exact hh.1
    revert this
    decide

/-- C7 (amended). Get timeout validation: for a Get frame with at least 2 items and a
queue name of at most 1024 bytes, `handleGet` sends `{Error, REQUEST_BAD_TIMEOUT}` if and
only if item[2] is present and either `strconv.Atoi` rejects it or its value is greater than
3,600,000; otherwise every timer it starts is of `max(1, value)` milliseconds (so zero and
negative values wait 1 ms), it does start that timer when the server is active, and the
wait is 1 ms when item[2] is absent. For an item[2] that is a string of decimal digits the
rejection is exactly "value greater than 3,600,000" and the wait is `max(1, value)`. -/
theorem get_timeout_validation (cid : Nat) (f : Frame) (env : Env) (w : World) (f1 : GoBytes)
    (hlen : 2 ≤ f.length) (h1 : f[1]? = some f1) (hname : f1.len ≤ MaxQueueNameLen) :
    (repliedBadTimeout cid (newEvents w (connection.handleGet cid f env w).1) = true
      ↔ atoiTimeoutRejected f = true) ∧
    (atoiTimeoutRejected f = false →
      (∀ c ms, Event.after c ms ∈ newEvents w (connection.handleGet cid f env w).1 →
        c = cid ∧ ms = atoiWaitMsec f) ∧
      (w.server.state = .ServerStateActive → w.server.queues ≠ none →
        Event.after cid (atoiWaitMsec f)
          ∈ newEvents w (connection.handleGet cid f env w).1)) ∧
    (f.length = 2 → atoiTimeoutRejected f = false ∧ atoiWaitMsec f = 1) ∧
    (∀ f2, f[2]? = some f2 → isDecimal f2.bytes = true →
      (atoiTimeoutRejected f = true ↔ decimalValue f2.bytes > 3600000) ∧
      (atoiTimeoutRejected f = false →
        atoiWaitMsec f = max 1 (decimalValue f2.bytes : Int))) := by
  refine ⟨?_, ?_, ?_, ?_⟩
  · cases hrej : atoiTimeoutRejected f with
    | true =>
        simp only [iff_true]
        rw [handleGet_rejected cid f env w f1 hlen h1 hname hrej]
        rw [newEvents_of_append _ _ _ (sendOrStop_frame w cid errBadTimeout).2.2.2.1]
        simp [repliedBadTimeout]
    | false =>
        simp only [Bool.false_eq_true, iff_false, Bool.not_eq_true]
        obtain ⟨evs, he, hcase, -⟩ := handleGet_accepted_events cid f env w f1 hlen h1 hname hrej
        rw [he]
        rcases hcase with rfl | ⟨evs1, rfl, hmem⟩
        · simp [repliedBadTimeout]
        · have := repliedBadTimeout_sends cid evs1 hmem
          simp only [repliedBadTimeout, List.any_cons, Bool.false_or] at this ⊢
          exact this
  · intro hrej
    obtain ⟨evs, he, hcase, hact⟩ := handleGet_accepted_events cid f env w f1 hlen h1 hname hrej
    rw [he]
    constructor
    · intro c ms hmem
      rcases hcase with rfl | ⟨evs1, rfl, hsend⟩
      · simp at hmem
      · simp only [List.mem_cons, reduceCtorEq, Event.after.injEq, false_or] at hmem
        rcases hmem with h | h
        · exact h
        · obtain ⟨g, err, hh, -⟩ := hsend _ h
          cases hh
    · intro hs hne
      rcases hcase with rfl | ⟨evs1, rfl, -⟩
      · exact absurd rfl (hact hs hne)
      · simp
  · intro h2
    have hnone : f[2]? = none := List.getElem?_eq_none_iff.mpr (by omega)
    simp [atoiTimeoutRejected, atoiWaitMsec, hnone]
  · intro f2 h2 hdec
    unfold atoiTimeoutRejected atoiWaitMsec
    simp only [h2]
    rcases Atoi_decimal f2.bytes hdec with ha | ⟨ha, hbig⟩
    · rw [ha]
      simp only [decide_eq_true_eq, decide_eq_false_iff_not, implies_true, and_true]
      omega
    · rw [ha]
      simp only [true_iff, Bool.true_eq_false, false_implies, and_true]
      omega

/-- Witness for C7 (amended): the frame `{"Get", "q", "-5"}` on connection `0` of an
active world. -/
theorem get_timeout_validation_witness :
    (repliedBadTimeout 0 (newEvents activeWorld
        (connection.handleGet 0 [bGet, .slice (ascii "q"), .slice (ascii "-5")] quietEnv
          activeWorld).1) = true
      ↔ atoiTimeoutRejected [bGet, .slice (ascii "q"), .slice (ascii "-5")] = true) ∧
    (atoiTimeoutRejected [bGet, .slice (ascii "q"), .slice (ascii "-5")] = false →
      (∀ c ms, Event.after c ms ∈ newEvents activeWorld
          (connection.handleGet 0 [bGet, .slice (ascii "q"), .slice (ascii "-5")] quietEnv
            activeWorld).1 →
        c = 0 ∧ ms = atoiWaitMsec [bGet, .slice (ascii "q"), .slice (ascii "-5")]) ∧
      (activeWorld.server.state = .ServerStateActive → activeWorld.server.queues ≠ none →
        Event.after 0 (atoiWaitMsec [bGet, .slice (ascii "q"), .slice (ascii "-5")])
          ∈ newEvents activeWorld
            (connection.handleGet 0 [bGet, .slice (ascii "q"), .slice (ascii "-5")] quietEnv
              activeWorld).1)) ∧
    ([bGet, GoBytes.slice (ascii "q"), .slice (ascii "-5")].length = 2 →
      atoiTimeoutRejected [bGet, .slice (ascii "q"), .slice (ascii "-5")] = false ∧
      atoiWaitMsec [bGet, .slice (ascii "q"), .slice (ascii "-5")] = 1) ∧
    (∀ f2, [bGet, GoBytes.slice (ascii "q"), .slice (ascii "-5")][2]? = some f2 →
      isDecimal f2.bytes = true →
      (atoiTimeoutRejected [bGet, .slice (ascii "q"), .slice (ascii "-5")] = true
        ↔ decimalValue f2.bytes > 3600000) ∧
      (atoiTimeoutRejected [bGet, .slice (ascii "q"), .slice (ascii "-5")] = false →
        atoiWaitMsec [bGet, .slice (ascii "q"), .slice (ascii "-5")]
          = max 1 (decimalValue f2.bytes : Int))) :=
  get_timeout_validation 0 [bGet, .slice (ascii "q"), .slice (ascii "-5")] quietEnv activeWorld
    (.slice (ascii "q")) (by decide) (by decide) (by decide)

/-- C6 as stated fails: the payload "m" is taken from the queue "q", the connection is
stopped by another goroutine while the response is sent, the send of `{OK, "m"}` fails, the
second `select` takes `<-c.done`, and `handleGet` returns with the queue empty: the payload
has not been reinserted. -/
theorem get_send_failure_can_drop_payload :
    (queueWorld.queueHeap 0).data = [.slice (ascii "m")] ∧
    (connection.handleGet 0 [bGet, .slice (ascii "q")] cancelEnv queueWorld).2 = .ok () ∧
    newEvents queueWorld
        (connection.handleGet 0 [bGet, .slice (ascii "q")] cancelEnv queueWorld).1
      = [.getQueue (ascii "q"), .after 0 1,
         .send 0 [bOK, .slice (ascii "m")] (some .ErrClosed)] ∧
    ((connection.handleGet 0 [bGet, .slice (ascii "q")] cancelEnv queueWorld).1.queueHeap
      0).data = [] := by
  decide

theorem runIter_stopped (q q1 : memoryQueue) (op : QueueOp) (r : QueueReply)
    (h : q.runIter op = some (q1, r)) (hop : op ≠ .stop) : q1.stopped = q.stopped := by
  unfold memoryQueue.runIter at h
  split at h
  · simp at h
  · split at h
    · cases op <;> simp at h hop <;> (try obtain ⟨rfl, -⟩ := h) <;> rfl
    · cases op with
      | dequeue =>
          simp only at h
          split at h
          · simp only [Option.some.injEq, Prod.mk.injEq] at h
            obtain ⟨rfl, -⟩ := h
            rfl
          · simp at h
      | stop => exact absurd rfl hop
      | enqueue v => simp at h; obtain ⟨rfl, -⟩ := h; rfl
      | requeue v => simp at h; obtain ⟨rfl, -⟩ := h; rfl
      | len => simp at h; obtain ⟨rfl, -⟩ := h; rfl

theorem interfere_keep (w : World) (i : Interference) (cid q : Nat)
    (hi : i ≠ .connStop cid ∧ i ≠ .queueOp q .stop) :
    (w.interfere i).connHeap cid = w.connHeap cid ∧
    ((w.interfere i).queueHeap q).stopped = (w.queueHeap q).stopped := by
  cases i with
  | connStop c =>
      have hc : cid ≠ c := by
        intro h; exact hi.1 (by rw [h])
      simp [World.interfere, World.stopConn, World.setConn, Function.update, hc]
  | queueOp qid op =>
      simp only [World.interfere]
      cases hr : (w.queueHeap qid).runIter op with
      | none => exact ⟨rfl, rfl⟩
      | some p =>
          obtain ⟨q1, r⟩ := p
          refine ⟨rfl, ?_⟩
          by_cases hq : q = qid
          · subst hq
            have hop : op ≠ .stop := by
              intro h; exact hi.2 (by rw [h])
            simp [World.setQueue, runIter_stopped _ _ _ _ hr hop]
          · simp [World.setQueue, Function.update, hq]

theorem interfereAll_keep (steps : List Interference) (cid q : Nat) : ∀ w : World,
    (∀ i ∈ steps, i ≠ .connStop cid ∧ i ≠ .queueOp q .stop) →
    (w.interfereAll steps).connHeap cid = w.connHeap cid ∧
    ((w.interfereAll steps).queueHeap q).stopped = (w.queueHeap q).stopped := by
  induction steps with
  | nil => intro w _; exact ⟨rfl, rfl⟩
  | cons i steps ih =>
      intro w h
      have h1 := interfere_keep w i cid q (h i (List.mem_cons_self _ _))
      have h2 := ih (w.interfere i) (fun j hj => h j (List.mem_cons_of_mem _ hj))
      simp only [World.interfereAll, List.foldl_cons] at h2 ⊢
      exact ⟨h2.1.trans h1.1, h2.2.trans h1.2⟩

theorem choose_comm (pick : Pick) : choose pick [Pick.comm] = some .comm := by
  cases pick <;> decide

theorem send_world (w : World) (cid : Nat) (f : Frame) :
    (w.send cid f).1.queueHeap = w.queueHeap ∧
    ((w.send cid f).1.connHeap cid).stopped = (w.connHeap cid).stopped ∧
    (w.send cid f).1.log = w.log ++ [.send cid f (w.send cid f).2] := by
  have hf := send_fields (w.connHeap cid) f
  unfold World.send
  exact ⟨rfl, by simp [World.setConn, World.logEvent, hf.2], rfl⟩

theorem runIter_dequeue (q q1 : memoryQueue) (r : QueueReply)
    (h : q.runIter .dequeue = some (q1, r)) :
    q.stopped = false ∧ q1.stopped = false ∧ ∃ m, r = .value m ∧ q.data = m :: q1.data := by
  unfold memoryQueue.runIter at h
  split at h
  · simp at h
  · rename_i hs
    split at h
    · simp at h
    · simp only at h
      split at h
      · rename_i front rest hd
        simp only [Option.some.injEq, Prod.mk.injEq] at h
        obtain ⟨rfl, rfl⟩ := h
        exact ⟨by simpa using hs, by simpa using hs, front, rfl, hd⟩
      · simp at h

theorem runIter_requeue (q : memoryQueue) (v : GoBytes) (h : q.stopped = false) :
    q.runIter (.requeue v) = some ({ q with data := v :: q.data }, .unit) := by
  unfold memoryQueue.runIter
  simp only [h, Bool.false_eq_true, if_false]
  split <;> rfl

theorem newEvents_self (w : World) : newEvents w w = [] := by
  simp [newEvents]

/-- The `select` part of `handleGet` (lines 178-197): when it has taken a payload `P`
from the queue and the send of `{OK, P}` fails, then, provided no other goroutine stops this
connection or the queue's goroutine in the meantime, `P` was the head of the queue, the
handler returns, `P` is again the head of that queue, and the connection is stopped. -/
theorem getSelect_requeues (cid q : Nat) (env : Env) (w : World) (P : GoBytes)
    (e : Error) (hc : (w.connHeap cid).stopped = false)
    (hno : ∀ i ∈ env.before2 ++ env.before3, i ≠ .connStop cid ∧ i ≠ .queueOp q .stop)
    (hfail : Event.send cid [bOK, P] (some e) ∈ newEvents w (getSelect cid q env w).1) :
    (w.queueHeap q).data.head? = some P ∧
    (getSelect cid q env w).2 = .ok () ∧
    ((getSelect cid q env w).1.queueHeap q).data.head? = some P ∧
    ((getSelect cid q env w).1.connHeap cid).stopped = true := by
  revert hfail
  unfold getSelect
  simp only
  split
  · intro hfail; simp [newEvents_self] at hfail
  · intro hfail; simp [newEvents_self] at hfail
  · intro hfail
    rw [newEvents_of_append _ _ _ (sendOrStop_frame w cid [bTimeout]).2.2.2.1] at hfail
    simp at hfail
  · split
    · rename_i q1 message hdeq
      obtain ⟨hq0, hq1, m, hm, hdata⟩ := runIter_dequeue _ _ _ hdeq
      cases hm
      have k2 := interfereAll_keep env.before2 cid q (w.setQueue q q1)
        (fun i hi => hno i (List.mem_append_left _ hi))
      have hsw := send_world ((w.setQueue q q1).interfereAll env.before2) cid [bOK, message]
      rw [interfereAll_log] at hsw
      cases hs : ((w.setQueue q q1).interfereAll env.before2).send cid [bOK, message] with
      | mk w1 err =>
          rw [hs] at hsw
          simp only at hsw
          obtain ⟨hsq, hsc, hsl0⟩ := hsw
          have hsl : w1.log = w.log ++ [.send cid [bOK, message] err] := hsl0
          have k3 := interfereAll_keep env.before3 cid q w1
            (fun i hi => hno i (List.mem_append_right _ hi))
          have hcs : ((w1.interfereAll env.before3).connHeap cid).stopped = false := by
            rw [k3.1, hsc, k2.1]
            simpa [World.setQueue] using hc
          have hqs : ((w1.interfereAll env.before3).queueHeap q).stopped = false := by
            rw [k3.2, hsq, k2.2]
            simpa [World.setQueue] using hq1
          cases err with
          | none =>
              intro hfail
              simp only at hfail
              rw [newEvents_of_append _ _ _ hsl] at hfail
              simp at hfail
          | some e1 =>
              simp only [hcs, hqs, Bool.false_eq_true, if_false, List.nil_append, choose_comm,
                runIter_requeue _ _ hqs]
              have hrun : ∀ q2, (((w1.interfereAll env.before3).setQueue q q2).connHeap
                  cid).running = true := by
                intro q2
                simp [World.setQueue, connection.running, hcs]
              have hl : ∀ q2, (((w1.interfereAll env.before3).setQueue q q2).stopConn cid).log
                  = w.log ++ [.send cid [bOK, message] (some e1)] := by
                intro q2
                show (w1.interfereAll env.before3).log = _
                rw [interfereAll_log, hsl]
              simp only [hrun, if_true]
              intro hfail
              rw [newEvents_of_append _ _ _ (hl _)] at hfail
              simp only [List.mem_singleton, Event.send.injEq, List.cons.injEq, and_true,
                true_and, Option.some.injEq] at hfail
              obtain ⟨⟨-, rfl⟩, -⟩ := hfail
              refine ⟨by rw [hdata]; rfl, trivial, ?_, ?_⟩
              · simp [World.stopConn, World.setConn, World.setQueue]
              · simp [World.stopConn, World.setConn, World.setQueue, connection.stop, hcs]
    · intro hfail; simp [newEvents_self] at hfail

theorem getQueue_connHeap (w : World) (name : List Byte) :
    (Server.getQueue w name).1.connHeap = w.connHeap := by
  unfold Server.getQueue
  simp only
  split
  · rfl
  · split
    · rfl
    · split <;> rfl

theorem not_mem_send_singleton (cid : Nat) (P : GoBytes) (e : Error) (g : Frame)
    (err : Option Error) (hg : g = errBadParams ∨ g = errBadQueueName ∨ g = errBadTimeout) :
    Event.send cid [bOK, P] (some e) ∉ [Event.send cid g err] := by
  intro h
  simp only [List.mem_singleton, Event.send.injEq, true_and] at h
  obtain ⟨h1, -⟩ := h
  have hb : bOK = bError := by
    rcases hg with rfl | rfl | rfl <;>
      · simp only [errBadParams, errBadQueueName, errBadTimeout, List.cons.injEq] at h1
        exact h1.1
  revert hb
  decide

/-- C6 (amended). For every execution of `handleGet` in which a payload `P` is taken from
the queue and the send of `{OK, P}` fails: provided the connection was running and no other
goroutine stops this connection or a queue's goroutine during the handler (the cancel
signal does not fire), the handler returns, `P` is the head of the queue registered under
item[1] when it returns, and the connection is stopped. -/
theorem get_requeues_on_send_failure (cid : Nat) (f : Frame) (env : Env) (w : World)
    (P : GoBytes) (e : Error) (hc : (w.connHeap cid).stopped = false)
    (hno : ∀ i ∈ env.before1 ++ (env.before2 ++ env.before3),
      ∀ q, i ≠ .connStop cid ∧ i ≠ .queueOp q .stop)
    (hfail : Event.send cid [bOK, P] (some e)
      ∈ newEvents w (connection.handleGet cid f env w).1) :
    ∃ f1 q, f[1]? = some f1 ∧ (Server.getQueue w f1.bytes).2 = .ok q ∧
      (connection.handleGet cid f env w).2 = .ok () ∧
      ((connection.handleGet cid f env w).1.queueHeap q).data.head? = some P ∧
      ((connection.handleGet cid f env w).1.connHeap cid).stopped = true := by
  by_cases hl : f.length < 2
  · rw [handleGet_short _ _ _ _ hl,
      newEvents_of_append _ _ _ (sendOrStop_frame w cid errBadParams).2.2.2.1] at hfail
    exact absurd hfail (not_mem_send_singleton _ _ _ _ _ (Or.inl rfl))
  · have hlen : 2 ≤ f.length := by omega
    obtain ⟨f1, h1⟩ : ∃ f1, f[1]? = some f1 :=
      ⟨f[1], List.getElem?_eq_getElem (by omega)⟩
    have hd : f.getD 1 .null = f1 := by
      rw [List.getD_eq_getElem?_getD, h1]; rfl
    by_cases hn : MaxQueueNameLen < f1.len
    · rw [handleGet_long_name _ _ _ _ hl (by rw [hd]; exact hn),
        newEvents_of_append _ _ _ (sendOrStop_frame w cid errBadQueueName).2.2.2.1] at hfail
      exact absurd hfail (not_mem_send_singleton _ _ _ _ _ (Or.inr (Or.inl rfl)))
    · have hname : f1.len ≤ MaxQueueNameLen := by omega
      cases hrej : atoiTimeoutRejected f with
      | true =>
          rw [handleGet_rejected cid f env w f1 hlen h1 hname hrej,
            newEvents_of_append _ _ _ (sendOrStop_frame w cid errBadTimeout).2.2.2.1] at hfail
          exact absurd hfail (not_mem_send_singleton _ _ _ _ _ (Or.inr (Or.inr rfl)))
      | false =>
          rw [handleGet_accepted cid f env w f1 hlen h1 hname hrej] at hfail ⊢
          have hlog := getQueue_log w f1.bytes
          have hconn := getQueue_connHeap w f1.bytes
          cases hq : Server.getQueue w f1.bytes with
          | mk w1 r =>
              rw [hq] at hlog hconn
              simp only at hlog hconn
              cases r with
              | ok q =>
                  simp only [hq] at hfail ⊢
                  have hW : ((w1.logEvent (.after cid (atoiWaitMsec f))).interfereAll
                      env.before1).log = w.log ++ [.getQueue f1.bytes,
                        .after cid (atoiWaitMsec f)] := by
                    rw [interfereAll_log]
                    simp [World.logEvent, hlog]
                  have hWc : (((w1.logEvent (.after cid (atoiWaitMsec f))).interfereAll
                      env.before1).connHeap cid).stopped = false := by
                    rw [(interfereAll_keep env.before1 cid q _
                      (fun i hi => hno i (List.mem_append_left _ hi) q)).1]
                    show (w1.connHeap cid).stopped = false
                    rw [hconn]; exact hc
                  obtain ⟨evs, hevs, -⟩ := getSelect_log cid q env
                    ((w1.logEvent (.after cid (atoiWaitMsec f))).interfereAll env.before1)
                  have hmem : Event.send cid [bOK, P] (some e) ∈ newEvents
                      ((w1.logEvent (.after cid (atoiWaitMsec f))).interfereAll env.before1)
                      (getSelect cid q env
                        ((w1.logEvent (.after cid (atoiWaitMsec f))).interfereAll
                          env.before1)).1 := by
                    rw [newEvents_of_append _ _ _ hevs]
                    rw [newEvents_of_append w _ ([.getQueue f1.bytes,
                      .after cid (atoiWaitMsec f)] ++ evs)
                      (by rw [hevs, hW]; simp)] at hfail
                    simpa using hfail
                  obtain ⟨-, h2, h3, h4⟩ := getSelect_requeues cid q env _ P e hWc
                    (fun i hi => hno i (List.mem_append_right _ hi) q) hmem
                  exact ⟨f1, q, h1, by rw [hq], h2, h3, h4⟩
              | err e1 =>
                  simp only [hq] at hfail
                  rw [newEvents_of_append _ _ _ hlog] at hfail
                  simp at hfail
              | goPanic =>
                  simp only [hq] at hfail
                  rw [newEvents_of_append _ _ _ hlog] at hfail
                  simp at hfail
              | blocked =>
                  simp only [hq] at hfail
                  rw [newEvents_of_append _ _ _ hlog] at hfail
                  simp at hfail
              | outOfFuel =>
                  simp only [hq] at hfail
                  rw [newEvents_of_append _ _ _ hlog] at hfail
                  simp at hfail

/-- Witness for C6 (amended): the queue "q" holds "m", the peer has closed the socket of
connection `0`, nobody interferes. -/
theorem get_requeues_on_send_failure_witness :
    ∃ f1 q, [bGet, GoBytes.slice (ascii "q")][1]? = some f1 ∧
      (Server.getQueue brokenPipeWorld f1.bytes).2 = .ok q ∧
      (connection.handleGet 0 [bGet, .slice (ascii "q")] quietEnv brokenPipeWorld).2
        = .ok () ∧
      ((connection.handleGet 0 [bGet, .slice (ascii "q")] quietEnv
        brokenPipeWorld).1.queueHeap q).data.head? = some (.slice (ascii "m")) ∧
      ((connection.handleGet 0 [bGet, .slice (ascii "q")] quietEnv
        brokenPipeWorld).1.connHeap 0).stopped = true :=
  get_requeues_on_send_failure 0 [bGet, .slice (ascii "q")] quietEnv brokenPipeWorld
    (.slice (ascii "m")) .ErrClosed (by decide) (by simp [quietEnv]) (by decide)

/-! ## Queue length -/

theorem runIter_len (q : memoryQueue) (h : q.stopped = false) :
    q.runIter .len = some (q, .length q.data.length) := by
  unfold memoryQueue.runIter
  simp only [h, Bool.false_eq_true, if_false]
  split
  · rename_i h0; rw [h0]
  · rfl

theorem len_of_running (q : memoryQueue) (h : q.stopped = false) :
    q.len = some q.data.length := by
  simp only [memoryQueue.len, runIter_len q h]

theorem runIter_enqueue (q : memoryQueue) (v : GoBytes) (h : q.stopped = false) :
    q.runIter (.enqueue v) = some ({ q with data := q.data ++ [v] }, .unit) := by
  unfold memoryQueue.runIter
  simp only [h, Bool.false_eq_true, if_false]
  split <;> rfl

theorem runIter_dequeue_isSome (q : memoryQueue) (h : q.stopped = false) :
    (q.runIter .dequeue).isSome = true ↔ 0 < q.data.length := by
  unfold memoryQueue.runIter
  simp only [h, Bool.false_eq_true, if_false]
  cases hd : q.data with
  | nil => simp
  | cons a rest => simp

/-- From a running queue, communications other than stop keep it running and change
the number of payloads by the enqueues and requeues less the dequeues. -/
theorem run_counts (ops : List QueueOp) : ∀ (q0 q : memoryQueue) (rs : List QueueReply),
    q0.stopped = false → (∀ op ∈ ops, op ≠ .stop) → q0.run ops = some (q, rs) →
    q.stopped = false ∧
    q.data.length + dequeues ops = q0.data.length + enqueues ops + requeues ops := by
  induction ops with
  | nil =>
      intro q0 q rs h0 _ hrun
      simp only [memoryQueue.run, Option.some.injEq, Prod.mk.injEq] at hrun
      obtain ⟨rfl, -⟩ := hrun
      exact ⟨h0, by simp [dequeues, enqueues, requeues]⟩
  | cons op ops ih =>
      intro q0 q rs h0 hops hrun
      simp only [memoryQueue.run] at hrun
      cases hop : q0.runIter op with
      | none => simp [hop] at hrun
      | some p =>
          obtain ⟨q1, r⟩ := p
          simp only [hop] at hrun
          cases hrest : q1.run ops with
          | none => simp [hrest] at hrun
          | some p2 =>
              obtain ⟨q2, rs2⟩ := p2
              simp only [hrest, Option.some.injEq, Prod.mk.injEq] at hrun
              obtain ⟨rfl, -⟩ := hrun
              have hne : op ≠ .stop := hops op (List.mem_cons_self _ _)
              have h1 : q1.stopped = false := by
                rw [runIter_stopped _ _ _ _ hop hne]; exact h0
              obtain ⟨hs, hc⟩ := ih q1 q2 rs2 h1
                (fun o ho => hops o (List.mem_cons_of_mem _ ho)) hrest
              refine ⟨hs, ?_⟩
              cases op with
              | enqueue v =>
                  rw [runIter_enqueue q0 v h0] at hop
                  simp only [Option.some.injEq, Prod.mk.injEq] at hop
                  obtain ⟨rfl, -⟩ := hop
                  simp only [List.length_append, List.length_singleton] at hc
                  simp only [dequeues, enqueues, requeues, List.filter_cons] at hc ⊢
                  simp only [Bool.false_eq_true, if_false, if_true, List.length_cons]
                  omega
              | requeue v =>
                  rw [runIter_requeue q0 v h0] at hop
                  simp only [Option.some.injEq, Prod.mk.injEq] at hop
                  obtain ⟨rfl, -⟩ := hop
                  simp only [List.length_cons] at hc
                  simp only [dequeues, enqueues, requeues, List.filter_cons] at hc ⊢
                  simp only [Bool.false_eq_true, if_false, if_true, List.length_cons]
                  omega
              | dequeue =>
                  obtain ⟨-, -, m, -, hd⟩ := runIter_dequeue _ _ _ hop
                  have hl : q0.data.length = q1.data.length + 1 := by rw [hd]; rfl
                  simp only [dequeues, enqueues, requeues, List.filter_cons] at hc ⊢
                  simp only [Bool.false_eq_true, if_false, if_true, List.length_cons]
                  omega
              | len =>
                  rw [runIter_len q0 h0] at hop
                  simp only [Option.some.injEq, Prod.mk.injEq] at hop
                  obtain ⟨rfl, -⟩ := hop
                  simp only [dequeues, enqueues, requeues, List.filter_cons] at hc ⊢
                  simp only [Bool.false_eq_true, if_false]
                  exact hc
              | stop => exact absurd rfl hne

/-- C12. Queue length tracks the content: in every state `q` reached from a new queue by
enqueue, requeue, dequeue (and length-query) steps, `len()` answers the number of payloads
held, which is the enqueues plus the requeues less the dequeues; an enqueue or a requeue is
served and raises the length by exactly 1; a dequeue, when served, lowers it by exactly 1;
a dequeue is served exactly when the length is positive; a length query leaves the queue as
it is. -/
theorem queue_length_tracks_content (ops : List QueueOp) (q : memoryQueue)
    (rs : List QueueReply) (hops : ∀ op ∈ ops, op ≠ .stop)
    (hrun : newMemoryQueue.run ops = some (q, rs)) :
    q.len = some q.data.length ∧
    q.data.length + dequeues ops = enqueues ops + requeues ops ∧
    (∀ v, ∃ q1, q.runIter (.enqueue v) = some (q1, .unit) ∧
      q1.len = some (q.data.length + 1)) ∧
    (∀ v, ∃ q1, q.runIter (.requeue v) = some (q1, .unit) ∧
      q1.len = some (q.data.length + 1)) ∧
    (∀ q1 r, q.runIter .dequeue = some (q1, r) →
      0 < q.data.length ∧ q1.len = some (q.data.length - 1)) ∧
    ((q.runIter .dequeue).isSome = true ↔ 0 < q.data.length) ∧
    q.runIter .len = some (q, .length q.data.length) := by
  obtain ⟨hs, hc⟩ := run_counts ops newMemoryQueue q rs rfl hops hrun
  refine ⟨len_of_running q hs, ?_, ?_, ?_, ?_, runIter_dequeue_isSome q hs, runIter_len q hs⟩
  · simpa [newMemoryQueue] using hc
  · intro v
    refine ⟨_, runIter_enqueue q v hs, ?_⟩
    rw [len_of_running _ (show (memoryQueue.mk (q.data ++ [v]) q.stopped).stopped = false from hs)]
    simp
  · intro v
    refine ⟨_, runIter_requeue q v hs, ?_⟩
    rw [len_of_running _ (show (memoryQueue.mk (v :: q.data) q.stopped).stopped = false from hs)]
    simp
  · intro q1 r hd
    obtain ⟨-, h1, m, -, hdata⟩ := runIter_dequeue _ _ _ hd
    rw [len_of_running _ h1, hdata]
    simp

/-- Witness for C12: enqueue "a", requeue "b", a length query, one dequeue. -/
theorem queue_length_tracks_content_witness :
    (memoryQueue.mk [.slice (ascii "a")] false).len
      = some (memoryQueue.mk [.slice (ascii "a")] false).data.length ∧
    (memoryQueue.mk [.slice (ascii "a")] false).data.length
        + dequeues [.enqueue (.slice (ascii "a")), .requeue (.slice (ascii "b")), .len, .dequeue]
      = enqueues [.enqueue (.slice (ascii "a")), .requeue (.slice (ascii "b")), .len, .dequeue]
        + requeues [.enqueue (.slice (ascii "a")), .requeue (.slice (ascii "b")), .len,
            .dequeue] ∧
    (∀ v, ∃ q1, (memoryQueue.mk [.slice (ascii "a")] false).runIter (.enqueue v)
        = some (q1, .unit) ∧
      q1.len = some ((memoryQueue.mk [.slice (ascii "a")] false).data.length + 1)) ∧
    (∀ v, ∃ q1, (memoryQueue.mk [.slice (ascii "a")] false).runIter (.requeue v)
        = some (q1, .unit) ∧
      q1.len = some ((memoryQueue.mk [.slice (ascii "a")] false).data.length + 1)) ∧
    (∀ q1 r, (memoryQueue.mk [.slice (ascii "a")] false).runIter .dequeue = some (q1, r) →
      0 < (memoryQueue.mk [.slice (ascii "a")] false).data.length ∧
      q1.len = some ((memoryQueue.mk [.slice (ascii "a")] false).data.length - 1)) ∧
    (((memoryQueue.mk [.slice (ascii "a")] false).runIter .dequeue).isSome = true
      ↔ 0 < (memoryQueue.mk [.slice (ascii "a")] false).data.length) ∧
    (memoryQueue.mk [.slice (ascii "a")] false).runIter .len
      = some (memoryQueue.mk [.slice (ascii "a")] false,
          .length (memoryQueue.mk [.slice (ascii "a")] false).data.length) :=
  queue_length_tracks_content
    [.enqueue (.slice (ascii "a")), .requeue (.slice (ascii "b")), .len, .dequeue]
    ⟨[.slice (ascii "a")], false⟩
    [.unit, .unit, .length 2, .value (.slice (ascii "b"))]
    (by decide) (by decide)

/-! ## Dispatch -/

/-- C13 (the code at the failing input). The four bytes `00 00 00 00` are the legal
empty frame: `readFrame` returns a frame without items. `connection.run` on a running
connection that receives them evaluates `f[0]`, which fails at run time (index out of
range): no handler is selected, nothing is sent, and the connection is not stopped by the
loop. -/
theorem run_empty_frame_panics :
    readFrame [0, 0, 0, 0] maxFrameLen = (.ok [], []) ∧
    (connection.run 0 [quietEnv]
      (activeWorld.setConn 0 { idleConn with reader := [0, 0, 0, 0] })).2 = .goPanic ∧
    (connection.run 0 [quietEnv]
      (activeWorld.setConn 0 { idleConn with reader := [0, 0, 0, 0] })).1.log = [] ∧
    ((connection.run 0 [quietEnv]
      (activeWorld.setConn 0 { idleConn with reader := [0, 0, 0, 0] })).1.connHeap 0).stopped
      = false := by
  decide

/-- Where the dispatch does work: a frame with a first item that is none of `Get`,
`Put`, `Info`, `Quit` goes to `handleUnknownCmd`: the one send is
`{Error, REQUEST_UNKNOWN_COMMAND}` and the connection is stopped afterwards. -/
theorem dispatch_unknown_command (cid : Nat) (f0 : GoBytes) (rest : Frame) (env : Env)
    (w : World) (hg : f0.bytes ≠ ascii "Get") (hp : f0.bytes ≠ ascii "Put")
    (hi : f0.bytes ≠ ascii "Info") (hq : f0.bytes ≠ ascii "Quit") :
    connection.dispatch cid (f0 :: rest) env w
      = (((w.logEvent (.dispatch cid .handleUnknownCmd (f0 :: rest))).send cid
          errUnknownCommand).1.stopConn cid, .ok ()) ∧
    newEvents w (connection.dispatch cid (f0 :: rest) env w).1
      = [.dispatch cid .handleUnknownCmd (f0 :: rest),
         .send cid errUnknownCommand ((w.connHeap cid).send errUnknownCommand).2] ∧
    ((connection.dispatch cid (f0 :: rest) env w).1.connHeap cid).stopped = true := by
  have e1 : bytesEqual f0 bGet = false := by
    show decide (f0.bytes = bGet.bytes) = false
    simpa [bGet, GoBytes.bytes] using hg
  have e2 : bytesEqual f0 bPut = false := by
    show decide (f0.bytes = bPut.bytes) = false
    simpa [bPut, GoBytes.bytes] using hp
  have e3 : bytesEqual f0 bInfo = false := by
    show decide (f0.bytes = bInfo.bytes) = false
    simpa [bInfo, GoBytes.bytes] using hi
  have e4 : bytesEqual f0 bQuit = false := by
    show decide (f0.bytes = bQuit.bytes) = false
    simpa [bQuit, GoBytes.bytes] using hq
  have hd : connection.dispatch cid (f0 :: rest) env w
      = (((w.logEvent (.dispatch cid .handleUnknownCmd (f0 :: rest))).send cid
          errUnknownCommand).1.stopConn cid, .ok ()) := by
    simp only [connection.dispatch, List.getElem?_cons_zero, e1, e2, e3, e4,
      Bool.false_eq_true, if_false, connection.handleUnknownCmd]
  rw [hd]
  refine ⟨rfl, ?_, ?_⟩
  · apply newEvents_of_append
    show ((w.logEvent (.dispatch cid .handleUnknownCmd (f0 :: rest))).send cid
      errUnknownCommand).1.log = _
    rw [send_log]
    simp [World.logEvent, World.send]
  · simp only [World.stopConn, World.setConn, Function.update_same, connection.stop]
    split
    · assumption
    · rfl

/-! ## Frame sizes -/

theorem bodySize_append_singleton (f : Frame) (item : GoBytes) :
    bodySize (f ++ [item]) = bodySize f + (4 + item.len) := by
  simp [bodySize]

theorem sliceOf_length (buf : List Byte) (lo hi : Nat) (b : List Byte)
    (h : sliceOf buf lo hi = some b) : b.length = hi - lo := by
  unfold sliceOf at h
  split at h
  · rename_i hb
    simp only [Option.some.injEq] at h
    subst h
    simp only [List.length_take, List.length_drop]
    omega
  · exact absurd h (by simp)

/-- A frame that the loop of `readFrame` returns accounts for every byte between the
position `i` and `frameLen`. -/
theorem readItems_ok_bodySize (buf : List Byte) (frameLen : Nat) :
    ∀ (fuel i : Nat) (acc f : Frame), i ≤ frameLen →
      readItems buf frameLen fuel i acc = .ok f → bodySize f + i = bodySize acc + frameLen := by
  intro fuel
  induction fuel with
  | zero => intro i acc f _ h; simp [readItems] at h
  | succ fuel ih =>
      intro i acc f hi h
      rw [readItems] at h
      split at h
      · split at h
        · simp at h
        · split at h
          · simp at h
          · rename_i b4 hs1
            split at h
            · simp at h
            · rename_i itemLen _
              simp only at h
              split at h
              · simp at h
              · rename_i hle
                split at h
                · simp at h
                · rename_i item hs2
                  have h1 := sliceOf_some _ _ _ _ hs1
                  have h2 := sliceOf_some _ _ _ _ hs2
                  have hl := sliceOf_length _ _ _ _ hs2
                  have hrec := ih _ _ _ (by omega) h
                  rw [bodySize_append_singleton] at hrec
                  simp only [GoBytes.len, GoBytes.bytes, hl] at hrec
                  unfold u32 at *
                  omega
      · simp only [Result.ok.injEq] at h
        subst h
        omega

/-- A frame that `readFrame` returns under `maxLen` has an exact body size of at most
`maxLen`. -/
theorem readFrame_ok_bodySize (r rest : List Byte) (maxLen : Nat) (f : Frame)
    (h : readFrame r maxLen = (.ok f, rest)) : bodySize f ≤ maxLen := by
  unfold readFrame at h
  split at h
  · simp at h
  · split at h
    · simp at h
    · split at h
      · simp at h
      · rename_i frameLen _ hle
        split at h
        · simp at h
        · simp only [Prod.mk.injEq] at h
          have := readItems_ok_bodySize _ _ _ _ _ _ (Nat.zero_le _) h.1
          simp only [bodySize, List.map_nil, List.sum_nil] at this
          simp only [bodySize]
          omega

theorem write_error (w w1 : Writer) (p : List Byte) (e : Error)
    (h : w.write p = (w1, some e)) : e ≠ .ErrFrameLen := by
  unfold Writer.write at h
  split at h
  · simp only [Prod.mk.injEq, Option.some.injEq] at h
    rw [← h.2]; decide
  · split at h
    · simp at h
    · split at h
      · simp at h
      · simp only [Prod.mk.injEq, Option.some.injEq] at h
        rw [← h.2]; decide

theorem writeItems_error (f : Frame) : ∀ (w w1 : Writer) (e : Error),
    writeItems w f = (w1, some e) → e ≠ .ErrFrameLen := by
  induction f with
  | nil => intro w w1 e h; simp [writeItems] at h
  | cons item f ih =>
      intro w w1 e h
      simp only [writeItems] at h
      split at h
      · rename_i wa ea ha
        simp only [Prod.mk.injEq, Option.some.injEq] at h
        rw [← h.2]
        exact write_error _ _ _ _ ha
      · split at h
        · rename_i wb eb hb
          simp only [Prod.mk.injEq, Option.some.injEq] at h
          rw [← h.2]
          exact write_error _ _ _ _ hb
        · exact ih _ _ _ h

/-- `writeFrame` returns `ErrFrameLen` only from its size check. -/
theorem writeFrame_no_frame_len (w : Writer) (f : Frame) (maxLen : Nat)
    (h : frameLenOf f ≤ maxLen) : (writeFrame w f maxLen).2 ≠ some .ErrFrameLen := by
  simp only [writeFrame, gt_iff_lt, Nat.not_lt.mpr h, if_false]
  split
  · rename_i w1 e he
    simp only [ne_eq, Option.some.injEq]
    exact write_error _ _ _ _ he
  · rename_i w1 he
    cases hi : writeItems w1 f with
    | mk w2 err =>
        cases err with
        | none => simp
        | some e =>
            simp only [ne_eq, Option.some.injEq]
            exact writeItems_error _ _ _ _ hi

theorem send_no_frame_len (c : connection) (f : Frame) (h : frameLenOf f ≤ maxFrameLen) :
    (c.send f).2 ≠ some .ErrFrameLen := by
  have hw := writeFrame_no_frame_len c.writer f maxFrameLen h
  unfold connection.send
  split
  · rename_i w1 e he
    rw [he] at hw
    exact hw
  · simp only [Writer.flush]
    split <;> simp

theorem runIter_fits (q q1 : memoryQueue) (op : QueueOp) (r : QueueReply)
    (hq : ∀ m ∈ q.data, payloadFits m = true)
    (hop : ∀ v, op = .enqueue v ∨ op = .requeue v → payloadFits v = true)
    (h : q.runIter op = some (q1, r)) :
    (∀ m ∈ q1.data, payloadFits m = true) ∧ (∀ v, r = .value v → payloadFits v = true) := by
  have hs : q.stopped = false := by
    unfold memoryQueue.runIter at h
    split at h
    · simp at h
    · rename_i hs; simpa using hs
  cases op with
  | enqueue v =>
      rw [runIter_enqueue q v hs] at h
      simp only [Option.some.injEq, Prod.mk.injEq] at h
      obtain ⟨rfl, rfl⟩ := h
      refine ⟨?_, by intro v hv; cases hv⟩
      intro m hm
      simp only [List.mem_append, List.mem_singleton] at hm
      rcases hm with hm | rfl
      · exact hq m hm
      · exact hop _ (Or.inl rfl)
  | requeue v =>
      rw [runIter_requeue q v hs] at h
      simp only [Option.some.injEq, Prod.mk.injEq] at h
      obtain ⟨rfl, rfl⟩ := h
      refine ⟨?_, by intro v hv; cases hv⟩
      intro m hm
      simp only [List.mem_cons] at hm
      rcases hm with rfl | hm
      · exact hop _ (Or.inr rfl)
      · exact hq m hm
  | dequeue =>
      obtain ⟨-, -, m, rfl, hd⟩ := runIter_dequeue _ _ _ h
      refine ⟨fun x hx => hq x (by rw [hd]; exact List.mem_cons_of_mem _ hx), ?_⟩
      intro v hv
      simp only [QueueReply.value.injEq] at hv
      subst hv
      exact hq _ (by rw [hd]; exact List.mem_cons_self _ _)
  | len =>
      rw [runIter_len q hs] at h
      simp only [Option.some.injEq, Prod.mk.injEq] at h
      obtain ⟨rfl, rfl⟩ := h
      exact ⟨hq, by intro v hv; cases hv⟩
  | stop =>
      unfold memoryQueue.runIter at h
      simp only [hs, Bool.false_eq_true, if_false] at h
      split at h <;>
        · simp only [Option.some.injEq, Prod.mk.injEq] at h
          obtain ⟨rfl, rfl⟩ := h
          exact ⟨hq, by intro v hv; cases hv⟩

theorem setQueue_fits (w : World) (qid : Nat) (q1 : memoryQueue) (hw : w.payloadsFit)
    (hq : ∀ m ∈ q1.data, payloadFits m = true) : (w.setQueue qid q1).payloadsFit := by
  intro q m hm
  by_cases h : q = qid
  · subst h
    simp only [World.setQueue, Function.update_same] at hm
    exact hq m hm
  · simp only [World.setQueue, Function.update, h, dite_false] at hm
    exact hw q m hm

theorem payloadsFit_congr (w w1 : World) (h : w1.queueHeap = w.queueHeap)
    (hw : w.payloadsFit) : w1.payloadsFit := by
  intro q m hm
  rw [h] at hm
  exact hw q m hm

theorem interfere_fits (w : World) (i : Interference) (hw : w.payloadsFit)
    (hi : i.fits = true) : (w.interfere i).payloadsFit := by
  cases i with
  | connStop cid => exact payloadsFit_congr w _ rfl hw
  | queueOp qid op =>
      simp only [World.interfere]
      cases hr : (w.queueHeap qid).runIter op with
      | none => exact hw
      | some p =>
          obtain ⟨q1, r⟩ := p
          apply setQueue_fits w qid q1 hw
          refine (runIter_fits _ _ op r (hw qid) ?_ hr).1
          intro v hv
          rcases hv with rfl | rfl <;> exact hi

theorem interfereAll_fits (steps : List Interference) : ∀ w : World, w.payloadsFit →
    (∀ i ∈ steps, i.fits = true) → (w.interfereAll steps).payloadsFit := by
  induction steps with
  | nil => intro w hw _; exact hw
  | cons i steps ih =>
      intro w hw h
      have := ih (w.interfere i) (interfere_fits w i hw (h i (List.mem_cons_self _ _)))
        (fun j hj => h j (List.mem_cons_of_mem _ hj))
      simpa only [World.interfereAll, List.foldl_cons] using this

theorem getQueue_fits (w : World) (name : List Byte) (hw : w.payloadsFit) :
    (Server.getQueue w name).1.payloadsFit := by
  have hnew : ({ (w.logEvent (.getQueue name)).setQueue (w.logEvent (.getQueue name)).nextQueue
      newMemoryQueue with nextQueue := (w.logEvent (.getQueue name)).nextQueue + 1 }
      : World).payloadsFit := by
    apply payloadsFit_congr _ _ rfl
    exact setQueue_fits _ _ _ (payloadsFit_congr w _ rfl hw) (by simp [newMemoryQueue])
  unfold Server.getQueue
  simp only
  split
  · exact payloadsFit_congr w _ rfl hw
  · split
    · exact payloadsFit_congr w _ rfl hw
    · split
      · exact hnew
      · exact payloadsFit_congr _ _ rfl hnew

theorem sendOrStop_fits (w : World) (cid : Nat) (f : Frame) (hw : w.payloadsFit) :
    (w.sendOrStop cid f).payloadsFit :=
  payloadsFit_congr w _ (sendOrStop_frame w cid f).2.1 hw

/-- `handlePut` keeps every queue deliverable when the payload of the frame is. -/
theorem handlePut_fits (cid : Nat) (f : Frame) (env : Env) (w : World) (hw : w.payloadsFit)
    (henv : ∀ i ∈ env.before1, i.fits = true)
    (hf : ∀ f2, f[2]? = some f2 → payloadFits f2 = true) :
    (connection.handlePut cid f env w).1.payloadsFit := by
  unfold connection.handlePut
  split
  · exact sendOrStop_fits w cid _ hw
  · split
    · rename_i f1 message h1 h2
      simp only
      split
      · exact sendOrStop_fits w cid _ hw
      · have hg := getQueue_fits w f1.bytes hw
        split
        · rename_i w1 q hq
          rw [hq] at hg
          have h2w := interfereAll_fits env.before1 w1 hg henv
          split
          · exact h2w
          · exact h2w
          · split
            · exact h2w
            · rename_i q1 r hr
              apply sendOrStop_fits
              apply setQueue_fits _ _ _ h2w
              refine (runIter_fits _ _ _ r (h2w q) ?_ hr).1
              intro v hv
              rcases hv with hv | hv
              · cases hv
                exact hf _ h2
              · cases hv
        · rename_i w1 e hq; rw [hq] at hg; exact hg
        · rename_i w1 hq; rw [hq] at hg; exact hg
        · rename_i w1 hq; rw [hq] at hg; exact hg
        · rename_i w1 hq; rw [hq] at hg; exact hg
    · exact hw

theorem frameLenOf_of_fits (m : GoBytes) (h : payloadFits m = true) :
    frameLenOf [bOK, m] ≤ maxFrameLen := by
  have hb : bodySize [bOK, m] ≤ maxFrameLen := by simpa [payloadFits] using h
  have hm : maxFrameLen < u32 := by decide
  rw [frameLenOf_eq_bodySize _ (by omega)]
  exact hb

theorem World.send_snd (w : World) (cid : Nat) (f : Frame) :
    (w.send cid f).2 = ((w.connHeap cid).send f).2 := by
  unfold World.send
  rfl

/-- The `select` part of `handleGet` keeps every queue deliverable, and when every queue
is deliverable none of its sends returns `ErrFrameLen`. -/
theorem getSelect_fits (cid q : Nat) (env : Env) (w : World) (hw : w.payloadsFit)
    (henv : ∀ i ∈ env.before2 ++ env.before3, i.fits = true) :
    (getSelect cid q env w).1.payloadsFit ∧
    ∀ c g err, Event.send c g err ∈ newEvents w (getSelect cid q env w).1 →
      err ≠ some .ErrFrameLen := by
  unfold getSelect
  simp only
  split
  · exact ⟨hw, by simp [newEvents_self]⟩
  · exact ⟨hw, by simp [newEvents_self]⟩
  · refine ⟨sendOrStop_fits w cid _ hw, ?_⟩
    intro c g err hmem
    rw [newEvents_of_append _ _ _ (sendOrStop_frame w cid [bTimeout]).2.2.2.1] at hmem
    simp only [List.mem_singleton, Event.send.injEq] at hmem
    obtain ⟨-, -, rfl⟩ := hmem
    exact send_no_frame_len _ _ (by decide)
  · split
    · rename_i q1 message hdeq
      obtain ⟨hq1, hmsg⟩ := runIter_fits _ _ _ _ (hw q) (by intro v hv; rcases hv with h | h <;> cases h) hdeq
      have hm : payloadFits message = true := hmsg message rfl
      have hW2 := interfereAll_fits env.before2 _ (setQueue_fits w q q1 hw hq1)
        (fun i hi => henv i (List.mem_append_left _ hi))
      have hsw := send_world ((w.setQueue q q1).interfereAll env.before2) cid [bOK, message]
      rw [interfereAll_log] at hsw
      have herr := send_no_frame_len
        (((w.setQueue q q1).interfereAll env.before2).connHeap cid) [bOK, message]
        (frameLenOf_of_fits message hm)
      rw [← World.send_snd] at herr
      cases hs : ((w.setQueue q q1).interfereAll env.before2).send cid [bOK, message] with
      | mk w1 err =>
          rw [hs] at hsw herr
          simp only at hsw herr
          obtain ⟨hsq, -, hsl0⟩ := hsw
          have hsl : w1.log = w.log ++ [.send cid [bOK, message] err] := hsl0
          have hw1 : w1.payloadsFit := payloadsFit_congr _ _ hsq hW2
          have hev : ∀ (wf : World), wf.log = w1.log →
              ∀ c g err1, Event.send c g err1 ∈ newEvents w wf → err1 ≠ some .ErrFrameLen := by
            intro wf hl c g err1 hmem
            rw [newEvents_of_append _ _ _ (hl.trans hsl)] at hmem
            simp only [List.mem_singleton, Event.send.injEq] at hmem
            obtain ⟨-, -, rfl⟩ := hmem
            exact herr
          have hW3 := interfereAll_fits env.before3 w1 hw1
            (fun i hi => henv i (List.mem_append_right _ hi))
          have hl3 : (w1.interfereAll env.before3).log = w1.log := interfereAll_log _ _
          cases err with
          | none => exact ⟨hw1, hev w1 rfl⟩
          | some e1 =>
              simp only
              split
              · exact ⟨hW3, hev _ hl3⟩
              · exact ⟨hW3, hev _ hl3⟩
              · split
                · exact ⟨hW3, hev _ hl3⟩
                · rename_i q2 r2 hr2
                  have hq2 := (runIter_fits _ _ _ r2 (hW3 q)
                    (by
                      intro v hv
                      rcases hv with h | h
                      · cases h
                      · cases h; exact hm) hr2).1
                  have hW4 := setQueue_fits _ q q2 hW3 hq2
                  split
                  · exact ⟨payloadsFit_congr _ _ rfl hW4, hev _ hl3⟩
                  · exact ⟨hW4, hev _ hl3⟩
    · exact ⟨hw, by simp [newEvents_self]⟩

theorem sendOrStop_no_frame_len (w : World) (cid : Nat) (f : Frame)
    (hf : frameLenOf f ≤ maxFrameLen) :
    ∀ c g err, Event.send c g err ∈ newEvents w (w.sendOrStop cid f) →
      err ≠ some .ErrFrameLen := by
  intro c g err hmem
  rw [newEvents_of_append _ _ _ (sendOrStop_frame w cid f).2.2.2.1] at hmem
  simp only [List.mem_singleton, Event.send.injEq] at hmem
  obtain ⟨-, -, rfl⟩ := hmem
  exact send_no_frame_len _ _ hf

/-- `handleGet` keeps every queue deliverable, and when every queue is deliverable none of
its sends returns `ErrFrameLen`. -/
theorem handleGet_fits (cid : Nat) (f : Frame) (env : Env) (w : World) (hw : w.payloadsFit)
    (henv : ∀ i ∈ env.before1 ++ (env.before2 ++ env.before3), i.fits = true) :
    (connection.handleGet cid f env w).1.payloadsFit ∧
    ∀ c g err, Event.send c g err ∈ newEvents w (connection.handleGet cid f env w).1 →
      err ≠ some .ErrFrameLen := by
  by_cases hl : f.length < 2
  · rw [handleGet_short _ _ _ _ hl]
    exact ⟨sendOrStop_fits w cid _ hw, sendOrStop_no_frame_len w cid _ (by decide)⟩
  · have hlen : 2 ≤ f.length := by omega
    obtain ⟨f1, h1⟩ : ∃ f1, f[1]? = some f1 :=
      ⟨f[1], List.getElem?_eq_getElem (by omega)⟩
    have hd : f.getD 1 .null = f1 := by
      rw [List.getD_eq_getElem?_getD, h1]; rfl
    by_cases hn : MaxQueueNameLen < f1.len
    · rw [handleGet_long_name _ _ _ _ hl (by rw [hd]; exact hn)]
      exact ⟨sendOrStop_fits w cid _ hw, sendOrStop_no_frame_len w cid _ (by decide)⟩
    · have hname : f1.len ≤ MaxQueueNameLen := by omega
      cases hrej : atoiTimeoutRejected f with
      | true =>
          rw [handleGet_rejected cid f env w f1 hlen h1 hname hrej]
          exact ⟨sendOrStop_fits w cid _ hw, sendOrStop_no_frame_len w cid _ (by decide)⟩
      | false =>
          rw [handleGet_accepted cid f env w f1 hlen h1 hname hrej]
          have hlog := getQueue_log w f1.bytes
          have hg := getQueue_fits w f1.bytes hw
          cases hq : Server.getQueue w f1.bytes with
          | mk w1 r =>
              rw [hq] at hlog hg
              simp only at hlog hg
              have hnone : ∀ c g err, Event.send c g err ∈ newEvents w w1 →
                  err ≠ some .ErrFrameLen := by
                intro c g err hmem
                rw [newEvents_of_append _ _ _ hlog] at hmem
                simp at hmem
              cases r with
              | ok q =>
                  simp only
                  have hW : ((w1.logEvent (.after cid (atoiWaitMsec f))).interfereAll
                      env.before1).log = w.log ++ [.getQueue f1.bytes,
                        .after cid (atoiWaitMsec f)] := by
                    rw [interfereAll_log]
                    simp [World.logEvent, hlog]
                  have hWf : ((w1.logEvent (.after cid (atoiWaitMsec f))).interfereAll
                      env.before1).payloadsFit :=
                    interfereAll_fits env.before1 _ (payloadsFit_congr w1 _ rfl hg)
                      (fun i hi => henv i (List.mem_append_left _ hi))
                  obtain ⟨hfit, hsend⟩ := getSelect_fits cid q env _ hWf
                    (fun i hi => henv i (List.mem_append_right _ hi))
                  obtain ⟨evs, hevs, -⟩ := getSelect_log cid q env
                    ((w1.logEvent (.after cid (atoiWaitMsec f))).interfereAll env.before1)
                  refine ⟨hfit, ?_⟩
                  intro c g err hmem
                  apply hsend c g err
                  rw [newEvents_of_append _ _ _ hevs]
                  rw [newEvents_of_append w _ ([.getQueue f1.bytes,
                    .after cid (atoiWaitMsec f)] ++ evs)
                    (by rw [hevs, hW]; simp)] at hmem
                  simpa using hmem
              | err e1 => exact ⟨hg, hnone⟩
              | goPanic => exact ⟨hg, hnone⟩
              | blocked => exact ⟨hg, hnone⟩
              | outOfFuel => exact ⟨hg, hnone⟩

/-! ## Registry -/

theorem mem_of_lookup {β : Type} (m : List (List Byte × β)) (name : List Byte) (v : β)
    (h : m.lookup name = some v) : (name, v) ∈ m := by
  obtain ⟨l1, l2, rfl, -⟩ := List.lookup_eq_some_iff.mp h
  simp

theorem lookup_of_mem {β : Type} (m : List (List Byte × β)) (name : List Byte) (v : β)
    (hnd : (m.map Prod.fst).Nodup) (h : (name, v) ∈ m) : m.lookup name = some v := by
  induction m with
  | nil => simp at h
  | cons e m ih =>
      obtain ⟨k, b⟩ := e
      simp only [List.map_cons, List.nodup_cons, List.mem_map, not_exists, not_and] at hnd
      simp only [List.mem_cons, Prod.mk.injEq] at h
      rcases h with ⟨rfl, rfl⟩ | h
      · simp
      · have hne : name ≠ k := by
          intro hk
          subst hk
          exact hnd.1 (name, v) h rfl
        rw [List.lookup_cons]
        have : (name == k) = false := by simpa using hne
        rw [this]
        exact ih hnd.2 h

/-- What `getQueue` does on an active server with a non-nil registry `m`: it returns the
queue registered under `name`, or registers a new running empty queue. -/
theorem getQueue_of_active (w : World) (name : List Byte) (m : List (List Byte × Nat))
    (hs : w.server.state = .ServerStateActive) (hm : w.server.queues = some m) :
    ∃ q w1, Server.getQueue w name = (w1, .ok q) ∧ w1.connHeap = w.connHeap ∧
      w1.server.state = w.server.state ∧ w1.server.connections = w.server.connections ∧
      ((m.lookup name = some q ∧ w1.queueHeap = w.queueHeap ∧ w1.server.queues = some m ∧
          w1.nextQueue = w.nextQueue) ∨
       (m.lookup name = none ∧ q = w.nextQueue ∧
          w1.queueHeap = Function.update w.queueHeap q newMemoryQueue ∧
          w1.server.queues = some (m ++ [(name, q)]) ∧ w1.nextQueue = q + 1)) := by
  unfold Server.getQueue
  simp only [World.logEvent, hs, ne_eq, not_true_eq_false, if_false, hm, Option.getD_some]
  cases hl : m.lookup name with
  | some q =>
      exact ⟨q, _, rfl, rfl, hs, rfl, Or.inl ⟨rfl, rfl, hm, rfl⟩⟩
  | none =>
      simp only [World.setQueue, hm]
      refine ⟨w.nextQueue, _, rfl, rfl, hs, rfl, Or.inr ?_⟩
      simp

/-- `getQueue` keeps the registry well formed and returns a running queue. -/
theorem getQueue_registryOk (w : World) (name : List Byte) (hok : w.registryOk) :
    (Server.getQueue w name).1.registryOk ∧
    ∀ q, (Server.getQueue w name).2 = .ok q →
      ((Server.getQueue w name).1.queueHeap q).stopped = false := by
  by_cases hs : w.server.state = .ServerStateActive
  · cases hm : w.server.queues with
    | none =>
        have e : (Server.getQueue w name).1.registryOk := by
          unfold Server.getQueue
          simp only [World.logEvent, hs, ne_eq, not_true_eq_false, if_false, hm,
            Option.getD_none, List.lookup_nil, World.setQueue]
          simp [World.registryOk, hm]
        refine ⟨e, ?_⟩
        intro q hq
        unfold Server.getQueue at hq
        simp [World.logEvent, hs, hm, World.setQueue] at hq
    | some m =>
        obtain ⟨hk, hp, hr⟩ := hok
        simp only [hm, Option.getD_some] at hk hp hr
        obtain ⟨q, w1, hg, -, -, -, hcase⟩ := getQueue_of_active w name m hs hm
        rw [hg]
        rcases hcase with ⟨hl, hh, hq, hn⟩ | ⟨hl, rfl, hh, hq, hn⟩
        · refine ⟨⟨by simpa [hq] using hk, by simpa [hq] using hp, ?_⟩, ?_⟩
          · intro e he
            simp only [hq, Option.getD_some] at he
            rw [hh, hn]
            exact hr e he
          · intro q' hq'
            simp only [Result.ok.injEq] at hq'
            subst hq'
            rw [hh]
            exact (hr _ (mem_of_lookup m name q hl)).2
        · have hnot : ∀ e ∈ m, e.2 ≠ w.nextQueue := fun e he => by
            have := (hr e he).1; omega
          refine ⟨⟨?_, ?_, ?_⟩, ?_⟩
          · simp only [hq, Option.getD_some, List.map_append, List.map_cons, List.map_nil]
            rw [List.nodup_append]
            refine ⟨hk, by simp, ?_⟩
            intro a ha hb
            simp only [List.mem_singleton] at hb
            subst hb
            simp only [List.mem_map] at ha
            obtain ⟨e, he, rfl⟩ := ha
            have := List.lookup_eq_none_iff.mp hl e he
            simp at this
          · simp only [hq, Option.getD_some, List.map_append, List.map_cons, List.map_nil]
            rw [List.nodup_append]
            refine ⟨hp, by simp, ?_⟩
            intro a ha hb
            simp only [List.mem_singleton] at hb
            subst hb
            simp only [List.mem_map] at ha
            obtain ⟨e, he, hee⟩ := ha
            exact hnot e he hee
          · intro e he
            simp only [hq, Option.getD_some, List.mem_append, List.mem_singleton] at he
            rw [hh, hn]
            rcases he with he | rfl
            · have := hr e he
              refine ⟨by omega, ?_⟩
              simp only [Function.update, hnot e he, dite_false]
              exact this.2
            · exact ⟨by simp, by simp [newMemoryQueue]⟩
          · intro q' hq'
            simp only [Result.ok.injEq] at hq'
            subst hq'
            rw [hh]
            simp [newMemoryQueue]
  · have e : Server.getQueue w name = (w.logEvent (.getQueue name), .err .errServerState) := by
      unfold Server.getQueue
      simp [World.logEvent, hs]
    rw [e]
    exact ⟨hok, by intro q hq; cases hq⟩

/-- An accepted Put on an active server, with the connection running and nobody
interfering, appends item[2] to the queue registered under item[1]. -/
theorem handlePut_enqueues (cid : Nat) (f : Frame) (env : Env) (w : World) (f1 f2 : GoBytes)
    (hlen : 3 ≤ f.length) (h1 : f[1]? = some f1) (h2 : f[2]? = some f2)
    (hname : f1.len ≤ MaxQueueNameLen) (hs : w.server.state = .ServerStateActive)
    (hm : w.server.queues ≠ none) (hok : w.registryOk)
    (hc : (w.connHeap cid).stopped = false) (hq : env.before1 = []) :
    ∃ q, (Server.getQueue w f1.bytes).2 = .ok q ∧
      (connection.handlePut cid f env w).2 = .ok () ∧
      ((connection.handlePut cid f env w).1.queueHeap q).data
        = ((Server.getQueue w f1.bytes).1.queueHeap q).data ++ [f2] := by
  obtain ⟨m, hm1⟩ : ∃ m, w.server.queues = some m := by
    cases h : w.server.queues with
    | none => exact absurd h hm
    | some m => exact ⟨m, rfl⟩
  obtain ⟨q, w1, hg, hconn, -, -, -⟩ := getQueue_of_active w f1.bytes m hs hm1
  have hrun := (getQueue_registryOk w f1.bytes hok).2 q (by rw [hg])
  rw [hg] at hrun ⊢
  simp only at hrun
  have hl : ¬ f.length < 3 := by omega
  have hn : ¬ f1.bytes.length > MaxQueueNameLen := by
    simp only [GoBytes.len] at hname; omega
  have hc1 : (w1.connHeap cid).stopped = false := by rw [hconn]; exact hc
  refine ⟨q, rfl, ?_, ?_⟩
  · simp only [connection.handlePut, hl, if_false, h1, h2, hn, hg, hq, World.interfereAll,
      List.foldl_nil, hc1, hrun, Bool.false_eq_true, List.nil_append, choose_comm,
      runIter_enqueue _ _ hrun]
  · simp only [connection.handlePut, hl, if_false, h1, h2, hn, hg, hq, World.interfereAll,
      List.foldl_nil, hc1, hrun, Bool.false_eq_true, List.nil_append, choose_comm,
      runIter_enqueue _ _ hrun]
    rw [(sendOrStop_frame _ cid [bOK]).2.1]
    simp [World.setQueue]

/-- C14. Every accepted payload is deliverable: for a Put frame that `readFrame` returns
under `maxFrameLen` and that `handlePut` accepts (item[1] and item[2] present, queue name of
at most 1024 bytes), the Get response `{OK, item[2]}` has an exact body size of at most
`maxFrameLen` (with `5 + len(item[1])` bytes to spare), so `writeFrame` and `send` never
return `ErrFrameLen` for it. `handlePut` keeps every queue deliverable and, on an active
server with nobody interfering, appends item[2] to the queue; and while every queue is
deliverable `handleGet` keeps it so and none of its sends returns `ErrFrameLen`. -/
theorem accepted_payload_deliverable (r rest : List Byte) (f : Frame) (f0 f1 f2 : GoBytes)
    (hread : readFrame r maxFrameLen = (.ok f, rest))
    (h0 : f[0]? = some f0) (hput : f0.bytes = ascii "Put")
    (h1 : f[1]? = some f1) (h2 : f[2]? = some f2) (hname : f1.len ≤ MaxQueueNameLen) :
    bodySize [bOK, f2] + 5 + f1.len ≤ maxFrameLen ∧
    bodySize [bOK, f2] ≤ maxFrameLen ∧
    (∀ w : Writer, (writeFrame w [bOK, f2] maxFrameLen).2 ≠ some .ErrFrameLen) ∧
    (∀ c : connection, (c.send [bOK, f2]).2 ≠ some .ErrFrameLen) ∧
    (∀ (cid : Nat) (env : Env) (w : World), w.payloadsFit →
      (∀ i ∈ env.before1, i.fits = true) →
      (connection.handlePut cid f env w).1.payloadsFit) ∧
    (∀ (cid : Nat) (env : Env) (w : World), w.server.state = .ServerStateActive →
      w.server.queues ≠ none → w.registryOk → (w.connHeap cid).stopped = false →
      env.before1 = [] →
      ∃ q, (Server.getQueue w f1.bytes).2 = .ok q ∧
        (connection.handlePut cid f env w).2 = .ok () ∧
        ((connection.handlePut cid f env w).1.queueHeap q).data
          = ((Server.getQueue w f1.bytes).1.queueHeap q).data ++ [f2]) ∧
    (∀ (cid : Nat) (g : Frame) (env : Env) (w : World), w.payloadsFit →
      (∀ i ∈ env.before1 ++ (env.before2 ++ env.before3), i.fits = true) →
      (connection.handleGet cid g env w).1.payloadsFit ∧
      ∀ c g1 err, Event.send c g1 err ∈ newEvents w (connection.handleGet cid g env w).1 →
        err ≠ some .ErrFrameLen) := by
  have hsize := readFrame_ok_bodySize r rest maxFrameLen f hread
  have hl0 : f0.len = 3 := by
    simp only [GoBytes.len, hput]; decide
  have hlen : 3 ≤ f.length := by
    have := List.getElem?_eq_some.mp h2
    obtain ⟨h, _⟩ := this
    omega
  have hbound : bodySize [bOK, f2] + 5 + f1.len ≤ maxFrameLen := by
    rcases f with _ | ⟨a, _ | ⟨b, _ | ⟨c, tl⟩⟩⟩
    · simp at h0
    · simp at h1
    · simp at h2
    · simp only [List.getElem?_cons_zero, List.getElem?_cons_succ, Option.some.injEq] at h0 h1 h2
      subst h0 h1 h2
      have hok : bOK.len = 2 := by decide
      simp only [bodySize_cons] at hsize ⊢
      have : bodySize ([] : Frame) = 0 := rfl
      rw [this, hok]
      omega
  have hfit : payloadFits f2 = true := by
    simp only [payloadFits, decide_eq_true_eq]; omega
  refine ⟨hbound, by omega, ?_, ?_, ?_, ?_, ?_⟩
  · intro w
    exact writeFrame_no_frame_len w _ _ (frameLenOf_of_fits f2 hfit)
  · intro c
    exact send_no_frame_len c _ (frameLenOf_of_fits f2 hfit)
  · intro cid env w hw henv
    refine handlePut_fits cid f env w hw henv ?_
    intro x hx
    rw [h2] at hx
    cases hx
    exact hfit
  · intro cid env w hs hm hok hc hq
    exact handlePut_enqueues cid f env w f1 f2 hlen h1 h2 hname hs hm hok hc hq
  · intro cid g env w hw henv
    exact handleGet_fits cid g env w hw henv

/-- Witness for C14: the request `{"Put", "q", "m"}` read from the wire. -/
theorem accepted_payload_deliverable_witness :
    bodySize [bOK, .slice (ascii "m")] + 5 + (GoBytes.slice (ascii "q")).len ≤ maxFrameLen ∧
    bodySize [bOK, .slice (ascii "m")] ≤ maxFrameLen ∧
    (∀ w : Writer,
      (writeFrame w [bOK, .slice (ascii "m")] maxFrameLen).2 ≠ some .ErrFrameLen) ∧
    (∀ c : connection, (c.send [bOK, .slice (ascii "m")]).2 ≠ some .ErrFrameLen) ∧
    (∀ (cid : Nat) (env : Env) (w : World), w.payloadsFit →
      (∀ i ∈ env.before1, i.fits = true) →
      (connection.handlePut cid putRequest env w).1.payloadsFit) ∧
    (∀ (cid : Nat) (env : Env) (w : World), w.server.state = .ServerStateActive →
      w.server.queues ≠ none → w.registryOk → (w.connHeap cid).stopped = false →
      env.before1 = [] →
      ∃ q, (Server.getQueue w (GoBytes.slice (ascii "q")).bytes).2 = .ok q ∧
        (connection.handlePut cid putRequest env w).2 = .ok () ∧
        ((connection.handlePut cid putRequest env w).1.queueHeap q).data
          = ((Server.getQueue w (GoBytes.slice (ascii "q")).bytes).1.queueHeap q).data
              ++ [.slice (ascii "m")]) ∧
    (∀ (cid : Nat) (g : Frame) (env : Env) (w : World), w.payloadsFit →
      (∀ i ∈ env.before1 ++ (env.before2 ++ env.before3), i.fits = true) →
      (connection.handleGet cid g env w).1.payloadsFit ∧
      ∀ c g1 err, Event.send c g1 err ∈ newEvents w (connection.handleGet cid g env w).1 →
        err ≠ some .ErrFrameLen) :=
  accepted_payload_deliverable putRequestBytes [] putRequest bPut (.slice (ascii "q"))
    (.slice (ascii "m")) (by decide) (by decide) (by decide) (by decide) (by decide)
    (by decide)

/-! ## Info -/

theorem info_test_scenario :
    Server.Info testWorld
      = some { NumConnections := 1, NumQueues := 1, NumMessages := 1,
               Queues := [(ascii "test-queue", ⟨1⟩)] } := by
  decide

theorem mapInsert_of_not_mem {β : Type} (m : List (List Byte × β)) (name : List Byte) (v : β)
    (h : name ∉ m.map Prod.fst) : mapInsert m name v = m ++ [(name, v)] := by
  unfold mapInsert
  congr 1
  rw [List.filter_eq_self]
  intro e he
  simp only [ne_eq, decide_eq_true_eq]
  intro hk
  exact h (List.mem_map.mpr ⟨e, he, hk⟩)

theorem infoLoop_eq (w : World) (rest : List (List Byte × Nat)) :
    ∀ (n : Nat) (acc : List (List Byte × ServerQueueInfo)),
    (∀ e ∈ rest, (w.queueHeap e.2).stopped = false) → (rest.map Prod.fst).Nodup →
    (∀ e ∈ rest, e.1 ∉ acc.map Prod.fst) →
    infoLoop w rest n acc
      = some (n + (rest.map (fun e => (w.queueHeap e.2).data.length)).sum,
          acc ++ rest.map (fun e => (e.1, ⟨(w.queueHeap e.2).data.length⟩))) := by
  induction rest with
  | nil => intro n acc _ _ _; simp [infoLoop]
  | cons e rest ih =>
      intro n acc hrun hnd hdis
      obtain ⟨name, q⟩ := e
      simp only [List.map_cons, List.nodup_cons] at hnd
      have hq : (w.queueHeap q).stopped = false := hrun (name, q) (List.mem_cons_self _ _)
      have hins := mapInsert_of_not_mem acc name
        (⟨(w.queueHeap q).data.length⟩ : ServerQueueInfo) (hdis (name, q) (List.mem_cons_self _ _))
      simp only [infoLoop, len_of_running _ hq, hins]
      rw [ih _ _ (fun e he => hrun e (List.mem_cons_of_mem _ he)) hnd.2]
      · simp only [List.map_cons, List.sum_cons, List.append_assoc, List.singleton_append,
          Option.some.injEq, Prod.mk.injEq, and_true]
        omega
      · intro e he
        simp only [List.map_append, List.map_cons, List.map_nil, List.mem_append,
          List.mem_singleton, not_or]
        refine ⟨hdis e (List.mem_cons_of_mem _ he), ?_⟩
        intro hk
        exact hnd.1 (List.mem_map.mpr ⟨e, he, hk⟩)

/-- C11. Info aggregation: in every world whose registry is a map of live queues, `Info`
returns; `NumConnections` is the size of the connection set, `NumQueues` the number of
registered queues and the number of keys of `Queues`, whose keys are exactly the registered
names; `Queues[name].NumMessages` is the length that the queue registered under `name`
reports; and `NumMessages` is the sum of `Queues[name].NumMessages` over all names. -/
theorem info_aggregation (w : World) (hok : w.registryOk) :
    ∃ info, Server.Info w = some info ∧
      info.NumConnections = (w.server.connections.getD []).length ∧
      info.NumQueues = (w.server.queues.getD []).length ∧
      info.NumQueues = info.Queues.length ∧
      (info.Queues.map Prod.fst).Nodup ∧
      info.Queues.map Prod.fst = (w.server.queues.getD []).map Prod.fst ∧
      (∀ name q, (name, q) ∈ w.server.queues.getD [] →
        ∃ n, (w.queueHeap q).len = some n ∧ info.Queues.lookup name = some ⟨n⟩) ∧
      info.NumMessages = (info.Queues.map (fun e => e.2.NumMessages)).sum := by
  obtain ⟨hk, -, hr⟩ := hok
  have hloop := infoLoop_eq w (w.server.queues.getD []) 0 []
    (fun e he => (hr e he).2) hk (by simp)
  have hkeys : (List.map (fun e : List Byte × Nat =>
      ((e.1, ⟨(w.queueHeap e.2).data.length⟩) : List Byte × ServerQueueInfo))
      (w.server.queues.getD [])).map Prod.fst = (w.server.queues.getD []).map Prod.fst := by
    simp [List.map_map, Function.comp_def]
  have hinfo : Server.Info w = some
      ⟨(w.server.connections.getD []).length, (w.server.queues.getD []).length,
        0 + (List.map (fun e => (w.queueHeap e.2).data.length) (w.server.queues.getD [])).sum,
        [] ++ List.map (fun e : List Byte × Nat =>
          ((e.1, ⟨(w.queueHeap e.2).data.length⟩) : List Byte × ServerQueueInfo))
          (w.server.queues.getD [])⟩ := by
    simp only [Server.Info, hloop]
  refine ⟨_, hinfo, rfl, rfl, ?_, ?_, ?_, ?_, ?_⟩
  · simp
  · simp only [List.nil_append, hkeys]
    exact hk
  · simp only [List.nil_append, hkeys]
  · intro name q hmem
    refine ⟨(w.queueHeap q).data.length, len_of_running _ (hr _ hmem).2, ?_⟩
    apply lookup_of_mem
    · simp only [List.nil_append, hkeys]
      exact hk
    · simp only [List.nil_append, List.mem_map]
      exact ⟨(name, q), hmem, rfl⟩
  · simp [List.map_map, Function.comp_def]

/-- Witness for C11: the world of the test, one connection and one message on
"test-queue". -/
theorem info_aggregation_witness :
    ∃ info, Server.Info testWorld = some info ∧
      info.NumConnections = (testWorld.server.connections.getD []).length ∧
      info.NumQueues = (testWorld.server.queues.getD []).length ∧
      info.NumQueues = info.Queues.length ∧
      (info.Queues.map Prod.fst).Nodup ∧
      info.Queues.map Prod.fst = (testWorld.server.queues.getD []).map Prod.fst ∧
      (∀ name q, (name, q) ∈ testWorld.server.queues.getD [] →
        ∃ n, (testWorld.queueHeap q).len = some n ∧ info.Queues.lookup name = some ⟨n⟩) ∧
      info.NumMessages = (info.Queues.map (fun e => e.2.NumMessages)).sum :=
  info_aggregation testWorld (by unfold World.registryOk; decide)

theorem stopConnections_queues (cs : List Nat) : ∀ w : World,
    (stopConnections w cs).server.queues = w.server.queues ∧
    (stopConnections w cs).queueHeap = w.queueHeap ∧
    (stopConnections w cs).nextQueue = w.nextQueue := by
  induction cs with
  | nil => intro w; exact ⟨rfl, rfl, rfl⟩
  | cons c cs ih =>
      intro w
      simp only [stopConnections]
      obtain ⟨h1, h2, h3⟩ := ih
        (World.setConn { w with server := { w.server with connections := some cs } } c
          (connection.stop (w.connHeap c)))
      exact ⟨h1, h2, h3⟩

theorem runIter_stop (q : memoryQueue) (h : q.stopped = false) :
    q.runIter .stop = some ({ q with stopped := true }, .unit) := by
  unfold memoryQueue.runIter
  simp only [h, Bool.false_eq_true, if_false]
  split <;> rfl

theorem stopQueues_registryOk (qs : List (List Byte × Nat)) : ∀ w : World,
    w.server.queues = some qs → (qs.map Prod.snd).Nodup →
    (∀ e ∈ qs, (w.queueHeap e.2).stopped = false) →
    (stopQueues w qs).1.registryOk ∧ (stopQueues w qs).1.server.queues = some [] ∧
    (stopQueues w qs).2 = .ok () := by
  induction qs with
  | nil =>
      intro w hq _ _
      exact ⟨by simp [stopQueues, World.registryOk, hq], hq, rfl⟩
  | cons e rest ih =>
      intro w hq hp hr
      obtain ⟨name, q⟩ := e
      simp only [List.map_cons, List.nodup_cons, List.mem_map, not_exists, not_and] at hp
      have hrun : (w.queueHeap q).stopped = false := hr (name, q) (List.mem_cons_self _ _)
      simp only [stopQueues, runIter_stop _ hrun]
      apply ih
      · rfl
      · exact hp.2
      · intro e he
        have hne : e.2 ≠ q := fun h => hp.1 e he h
        simp only [World.setQueue, Function.update, hne, dite_false]
        exact hr e (List.mem_cons_of_mem _ he)

theorem Stop_registryOk (w : World) (hok : w.registryOk) : (Server.Stop w).1.registryOk := by
  by_cases h : w.server.state = .ServerStateActive
  · simp only [Server.Stop, h, ne_eq, not_true_eq_false, if_false]
    obtain ⟨-, hp, hr⟩ := hok
    split
    · rename_i qs hqs
      refine (stopQueues_registryOk qs _ hqs ?_ ?_).1
      · split at hqs <;> split at hqs <;>
          simp only [(stopConnections_queues _ _).1] at hqs <;>
          simp only [hqs, Option.getD_some] at hp <;> exact hp
      · intro e he
        split at hqs <;> split at hqs <;>
          simp only [(stopConnections_queues _ _).1] at hqs <;>
          simp only [hqs, Option.getD_some] at hr <;>
          first
            | exact (hr e he).2
            | (simp only [(stopConnections_queues _ _).2.1]; exact (hr e he).2)
    · rename_i hqs
      simp [World.registryOk, hqs]
  · rw [Stop_not_active w h]
    exact hok

theorem acceptIter_registryOk (w : World) (r : AcceptResult) (hok : w.registryOk) :
    (Server.acceptIter w r).1.registryOk := by
  unfold Server.acceptIter
  split
  · exact hok
  · split
    · exact hok
    · split
      · exact hok
      · exact hok
      · simp only
        split <;> exact hok

/-- Every step of the server's life cycle keeps the registry a map of live queues. -/
theorem exec_registryOk (w : World) (c : ServerStep) (hok : w.registryOk) :
    (c.exec w).1.registryOk := by
  cases c with
  | serveEnter l =>
      by_cases h : w.server.state = .ServerStateNew
      · simp [ServerStep.exec, Server.serveEnter, h, World.registryOk]
      · simpa [ServerStep.exec, Server.serveEnter, h] using hok
  | accepted r =>
      have := acceptIter_registryOk w r hok
      simp only [ServerStep.exec]
      split <;> simp_all
  | SetLogger logger =>
      by_cases h : w.server.state = .ServerStateNew
      · simpa [ServerStep.exec, Server.SetLogger, h, World.registryOk] using hok
      · simpa [ServerStep.exec, Server.SetLogger, h] using hok
  | getQueue name => exact (getQueue_registryOk w name hok).1
  | Stop => exact Stop_registryOk w hok

theorem newWorld_registryOk : newWorld.registryOk := by
  simp [World.registryOk, newWorld, NewServer]

/-- In every world that a sequence of steps of `Serve`, `Stop`, `SetLogger` and `getQueue`
calls reaches from a new server the registry is a map of live queues, so that `Info`
returns there. -/
theorem execWorld_registryOk (cs : List ServerStep) : ∀ w : World, w.registryOk →
    (execWorld w cs).registryOk := by
  induction cs with
  | nil => intro w h; exact h
  | cons c cs ih =>
      intro w h
      simp only [execWorld, List.foldl_cons]
      exact ih _ (exec_registryOk w c h)

/-- A call of `Serve` keeps the registry a map of live queues. -/
theorem Serve_registryOk (w : World) (l : Listener) (sched : List ServeEvent)
    (hok : w.registryOk) : (Server.Serve w l sched).1.registryOk := by
  obtain ⟨steps, hs⟩ := Serve_steps w l sched
  rw [hs]
  exact execWorld_registryOk _ w hok

end Mqmq
